import Mathlib

set_option autoImplicit false

/-!
# The typed container and its codecs (`src/stl.c`)

A shallow embedding of the vector ("TypedContainer"), the stack, the text
codec (`VectorSerialize`, `VectordeSerialize`, `vectorDeserialize`), the proto
vector ("SchemaContainer") and the binary codec of `src/stl.c`.

* A `void *` is a `Datum`; a C string or an `sds` is a `List Char` (one `Char`
  per byte).
* Every function that mutates `*v` returns the struct after the call.
* `size_t` arithmetic is taken modulo `2 ^ 64`, `int` conversions modulo
  `2 ^ 32`.
* Process-terminating paths (`serverPanic`, `serverAssert(0)`, allocation
  failure inside `zmalloc`) and undefined behaviour are explicit `Outcome`s.
* Reads and writes of `v->data` outside the allocated array are undefined in C;
  the embedding makes them total (a read yields `Datum.uninit`, a write is
  dropped) and the theorems assume `Vector.allocated`.
* The headers `stl.h`, `global.h` and `server.h` are not among the sources:
  their constants are the fields of `Config`; the marker strings of the text
  wire format are those of the specification (`specConfig`).
-/

namespace Addb

/-! ## Constants of headers that are not part of the sources -/

/-- Modelled from the spec: the success result of an operation (`C_OK` of the
host server's `server.h`, which is not among the sources). -/
def C_OK : Int := 0

/-- Modelled from the spec: the error result of an operation (`C_ERR` of the
host server's `server.h`, which is not among the sources). -/
def C_ERR : Int := -1

/-- Modelled from the spec: the constants of `stl.h` and `global.h`, used by
`stl.c` and not defined in it. The numeric ones are parameters of every
statement; the marker strings are fixed by `specConfig`. -/
structure Config where
  INIT_VECTOR_SIZE : Nat
  INIT_PROTO_VECTOR_SIZE : Nat
  STL_TYPE_DEFAULT : Int
  STL_TYPE_LONG : Int
  STL_TYPE_SDS : Int
  STL_TYPE_ROBJ : Int
  STL_TYPE__LONG : Int
  STL_TYPE__SDS : Int
  RELMODEL_VECTOR_PREFIX : List Char
  RELMODEL_BRACE_PREFIX : List Char
  RELMODEL_VECTOR_TYPE_PREFIX : List Char
  RELMODEL_VECTOR_COUNT_PREFIX : List Char
  RELMODEL_DATA_PREFIX : List Char
  VECTOR_DATA_PREFIX : List Char
  RELMODEL_VECTOR_DATA_PREFIX : List Char
  RELMODEL_DELIMITER : List Char
  VECTOR_DATA_SUFFIX : List Char
deriving DecidableEq

/-- Modelled from the spec: the markers of the text wire format
`V{T<kind>:C<count>}:D:[e0|e1|...|eN-1]` (prefix `V`, brace, kind marker `T`,
count marker `C`, data marker `D`, opening `[`, delimiter `|`, terminator `]`);
the numeric constants are those of `c`. -/
def specConfig (c : Config) : Config :=
  ⟨c.INIT_VECTOR_SIZE, c.INIT_PROTO_VECTOR_SIZE, c.STL_TYPE_DEFAULT, c.STL_TYPE_LONG,
   c.STL_TYPE_SDS, c.STL_TYPE_ROBJ, c.STL_TYPE__LONG, c.STL_TYPE__SDS,
   ['V'], ['{'], ['T'], ['C'], ['D'], ['['], ['D'], ['|'], [']']⟩

/-- Sample values for the numeric constants, used to instantiate statements at
concrete inputs. -/
def sampleConfig : Config :=
  specConfig ⟨4, 4, 0, 1, 2, 3, 1, 2, [], [], [], [], [], [], [], [], []⟩

/-! ## Machine integers -/

/-- The number of values of a `size_t`. -/
abbrev SIZE_MOD : Nat := 18446744073709551616

/-- The largest request `malloc` can satisfy (`PTRDIFF_MAX`). -/
abbrev PTRDIFF_MAX : Nat := 9223372036854775807

/-- The value of a `size_t` expression. -/
def toSizeT (n : Int) : Nat := (n % (SIZE_MOD : Int)).toNat

/-- The conversion of an integer to `int`: the low 32 bits, read as signed (what
gcc and clang define for a value out of range). -/
def toInt32 (n : Int) : Int :=
  let m := n % 4294967296
  if m < 2147483648 then m else m - 4294967296

/-! ## Data model -/

/-- A pointer-sized value (`void *`). -/
inductive Datum where
  /-- the `NULL` pointer -/
  | null : Datum
  /-- a `long` carried in a pointer-sized slot -/
  | long (n : Int) : Datum
  /-- an `sds` handle, with the bytes it holds -/
  | sds (s : List Char) : Datum
  /-- any other pointer (`robj *`, raw buffer), by address -/
  | ptr (addr : Nat) : Datum
  /-- the indeterminate content of storage that was allocated and not written -/
  | uninit : Datum
deriving DecidableEq

/-- The struct `Vector`: `type`, `data` (`none` is `NULL`), `size` (capacity)
and `count` (length). -/
structure Vector where
  type : Int
  data : Option (List Datum)
  size : Nat
  count : Nat
deriving DecidableEq

/-- A call that releases memory. -/
inductive Release where
  /-- the call `zfree(datum)` -/
  | zfree (d : Datum) : Release
  /-- the call `sdsfree(datum)` -/
  | sdsfree (d : Datum) : Release
  /-- the call `decrRefCount(datum)` -/
  | decrRefCount (d : Datum) : Release
  /-- the call `zfree(v->data)` on a backing array -/
  | storage (slots : List Datum) : Release
deriving DecidableEq

/-- What a call leaves behind: its return value, the struct after the call and
the releases it performed, in order. -/
structure Ret (ρ : Type) where
  ret : ρ
  v : Vector
  released : List Release
deriving DecidableEq

/-- How a call ends. -/
inductive Outcome (α : Type) where
  /-- the call returns -/
  | ok (a : α) : Outcome α
  /-- the call ends in `serverPanic` -/
  | panic : Outcome α
  /-- the call ends in `serverAssert(0)` or a failed `assert` -/
  | assertFail : Outcome α
  /-- the call ends in `zmalloc`, which cannot satisfy the request and aborts -/
  | oom : Outcome α
  /-- behaviour that C leaves undefined -/
  | undefined : Outcome α
deriving DecidableEq

/-- Sequencing of calls that may not return. -/
def Outcome.bind {α β : Type} (x : Outcome α) (f : α → Outcome β) : Outcome β :=
  match x with
  | .ok a => f a
  | .panic => .panic
  | .assertFail => .assertFail
  | .oom => .oom
  | .undefined => .undefined

/-- The kind is one of the four that `stl.c` recognises. -/
def recognised (cfg : Config) (type : Int) : Prop :=
  type = cfg.STL_TYPE_DEFAULT ∨ type = cfg.STL_TYPE_LONG ∨
  type = cfg.STL_TYPE_SDS ∨ type = cfg.STL_TYPE_ROBJ

instance (cfg : Config) (type : Int) : Decidable (recognised cfg type) := by
  unfold recognised; infer_instance

/-- The backing array is an object of `size` pointer-sized slots (`NULL` only
with `size = 0`), hence of at most `PTRDIFF_MAX` bytes. -/
def Vector.allocated (v : Vector) : Prop :=
  (match v.data with
   | none => v.size = 0
   | some l => l.length = v.size) ∧ 8 * v.size ≤ 9223372036854775807

instance (v : Vector) : Decidable v.allocated := by
  unfold Vector.allocated; cases v.data <;> infer_instance

/-- The slots of the backing array (none for `NULL`). -/
def Vector.slots (v : Vector) : List Datum := v.data.getD []

/-- The live elements: the slots at the indices below `count`. -/
def Vector.elems (v : Vector) : List Datum := v.slots.take v.count

/-! ## Allocation -/

/-- The call `zmalloc(datumSize * n)`: an array of slots with indeterminate
content; the byte count is a `size_t`, and a request above `PTRDIFF_MAX` fails. -/
def zmalloc (datumSize n : Nat) : Outcome (List Datum) :=
  let bytes := (datumSize * n) % SIZE_MOD
  if PTRDIFF_MAX < bytes then .oom
  else .ok (List.replicate (bytes / datumSize) Datum.uninit)

/-- The call `zrealloc(old, datumSize * n)`: the old content up to the new
size, then indeterminate slots. -/
def zrealloc (old : Option (List Datum)) (datumSize n : Nat) : Outcome (List Datum) :=
  let bytes := (datumSize * n) % SIZE_MOD
  if PTRDIFF_MAX < bytes then .oom
  else
    let slots := bytes / datumSize
    let kept := (old.getD []).take slots
    .ok (kept ++ List.replicate (slots - kept.length) Datum.uninit)

/-! ## The vector (`stl.c`, lines 8-201) -/

/-- The function `_vectorGetDatumSize`: every recognised kind is stored in a
pointer-sized slot; any other kind panics. -/
def _vectorGetDatumSize (cfg : Config) (v : Vector) : Outcome Nat :=
  if v.type = cfg.STL_TYPE_DEFAULT then .ok 8
  else if v.type = cfg.STL_TYPE_LONG then .ok 8
  else if v.type = cfg.STL_TYPE_SDS then .ok 8
  else if v.type = cfg.STL_TYPE_ROBJ then .ok 8
  else .panic

/-- The function `vectorInit`. -/
def vectorInit (cfg : Config) : Vector :=
  ⟨cfg.STL_TYPE_DEFAULT, none, 0, 0⟩

/-- The function `vectorTypeInit`. -/
def vectorTypeInit (cfg : Config) (type : Int) : Vector :=
  let v := vectorInit cfg
  ⟨type, v.data, v.size, v.count⟩

/-- The function `vectorTypeInitWithSize`. -/
def vectorTypeInitWithSize (cfg : Config) (type : Int) (size : Nat) : Outcome Vector :=
  let v := vectorTypeInit cfg type
  let v : Vector := ⟨v.type, v.data, size, v.count⟩
  (_vectorGetDatumSize cfg v).bind fun ds =>
  (zmalloc ds v.size).bind fun d =>
  .ok ⟨v.type, some d, v.size, v.count⟩

/-- The function `vectorCreate`. -/
def vectorCreate (cfg : Config) (type : Int) (size : Nat) : Outcome Vector :=
  vectorTypeInitWithSize cfg type size

/-- The function `vectorCount`. -/
def vectorCount (v : Vector) : Nat := v.count

/-- The read `v->data[index]`. -/
def readSlot (v : Vector) (index : Nat) : Datum :=
  v.slots.getD index Datum.uninit

/-- The write `v->data[index] = datum`. -/
def writeSlot (v : Vector) (index : Nat) (datum : Datum) : Option (List Datum) :=
  v.data.map fun l => l.set index datum

/-- The function `vectorSet`. -/
def vectorSet (cfg : Config) (v : Vector) (index : Nat) (datum : Datum) : Ret Int :=
  if index ≥ v.count then ⟨C_ERR, v, []⟩
  else if v.type = cfg.STL_TYPE_DEFAULT then
    ⟨C_OK, ⟨v.type, writeSlot v index datum, v.size, v.count⟩, []⟩
  else if v.type = cfg.STL_TYPE_LONG then
    ⟨C_OK, ⟨v.type, writeSlot v index datum, v.size, v.count⟩, []⟩
  else if v.type = cfg.STL_TYPE_SDS then
    ⟨C_OK, ⟨v.type, writeSlot v index datum, v.size, v.count⟩, []⟩
  else if v.type = cfg.STL_TYPE_ROBJ then
    ⟨C_OK, ⟨v.type, writeSlot v index datum, v.size, v.count⟩, []⟩
  else ⟨C_ERR, v, []⟩

/-- The function `vectorGet`. -/
def vectorGet (v : Vector) (index : Nat) : Ret Datum :=
  if index ≥ v.count then ⟨Datum.null, v, []⟩
  else ⟨readSlot v index, v, []⟩

/-- The function `vectorFreeDatum`. -/
def vectorFreeDatum (cfg : Config) (v : Vector) (datum : Datum) : Ret Int :=
  if v.type = cfg.STL_TYPE_DEFAULT then ⟨C_OK, v, [Release.zfree datum]⟩
  else if v.type = cfg.STL_TYPE_SDS then ⟨C_OK, v, [Release.sdsfree datum]⟩
  else if v.type = cfg.STL_TYPE_ROBJ then ⟨C_OK, v, [Release.decrRefCount datum]⟩
  else ⟨C_OK, v, []⟩

/-- The function `vectorFree`. -/
def vectorFree (v : Vector) : Ret Int :=
  match v.data with
  | none => ⟨C_ERR, v, []⟩
  | some l => ⟨C_OK, ⟨v.type, none, 0, 0⟩, [Release.storage l]⟩

/-- The loop of `vectorFreeDeep`, from index `i`, with `fuel` iterations left
(`v->count - i`). -/
def vectorFreeDeepLoop (cfg : Config) (v : Vector) : Nat → Nat → List Release → List Release
  | 0, _, rel => rel
  | fuel + 1, i, rel =>
    vectorFreeDeepLoop cfg v fuel (i + 1)
      (rel ++ (vectorFreeDatum cfg v (vectorGet v i).ret).released)

/-- The function `vectorFreeDeep`. -/
def vectorFreeDeep (cfg : Config) (v : Vector) : Ret Int :=
  match v.data with
  | none => ⟨C_ERR, v, []⟩
  | some _ =>
    let rel := vectorFreeDeepLoop cfg v v.count 0 []
    let r := vectorFree v
    ⟨C_OK, r.v, rel ++ r.released⟩

/-- The function `_vectorResizeIfNeeded`. -/
def _vectorResizeIfNeeded (cfg : Config) (v : Vector) : Outcome (Ret Unit) :=
  let first : Outcome (Ret Unit) :=
    if v.size = 0 then
      let r := vectorFreeDeep cfg v
      let v1 : Vector := ⟨r.v.type, r.v.data, cfg.INIT_VECTOR_SIZE % SIZE_MOD, r.v.count⟩
      (_vectorGetDatumSize cfg v1).bind fun ds =>
      (zmalloc ds v1.size).bind fun d =>
      .ok ⟨(), ⟨v1.type, some d, v1.size, v1.count⟩, r.released⟩
    else .ok ⟨(), v, []⟩
  first.bind fun r1 =>
    let v1 := r1.v
    if v1.size ≤ v1.count then
      let v2 : Vector := ⟨v1.type, v1.data, (v1.size + cfg.INIT_VECTOR_SIZE) % SIZE_MOD, v1.count⟩
      (_vectorGetDatumSize cfg v2).bind fun ds =>
      (zrealloc v2.data ds v2.size).bind fun d =>
      .ok ⟨(), ⟨v2.type, some d, v2.size, v2.count⟩, r1.released⟩
    else .ok r1

/-- The function `vectorAdd`. -/
def vectorAdd (cfg : Config) (v : Vector) (datum : Datum) : Outcome (Ret Int) :=
  (_vectorResizeIfNeeded cfg v).bind fun r =>
    let index := r.v.count
    let v1 : Vector := ⟨r.v.type, r.v.data, r.v.size, (r.v.count + 1) % SIZE_MOD⟩
    let s := vectorSet cfg v1 index datum
    if s.ret = C_ERR then .ok ⟨C_ERR, s.v, r.released ++ s.released⟩
    else .ok ⟨C_OK, s.v, r.released ++ s.released⟩

/-- The loop of `vectorDelete`, at indices `i` (read) and `j` (write), with
`fuel` iterations left (`v->count - i`). -/
def vectorDeleteLoop (cfg : Config) (v : Vector) (index : Nat) :
    Nat → Nat → Nat → List Datum → List Release → List Datum × List Release
  | 0, _, _, newArray, rel => (newArray, rel)
  | fuel + 1, i, j, newArray, rel =>
    if i = index then
      vectorDeleteLoop cfg v index fuel (i + 1) j newArray
        (rel ++ (vectorFreeDatum cfg v (vectorGet v i).ret).released)
    else
      vectorDeleteLoop cfg v index fuel (i + 1) (j + 1) (newArray.set j (readSlot v i)) rel

/-- The function `vectorDelete`. -/
def vectorDelete (cfg : Config) (v : Vector) (index : Nat) : Outcome (Ret Int) :=
  if index ≥ v.count then .ok ⟨C_ERR, v, []⟩
  else
    (_vectorGetDatumSize cfg v).bind fun ds =>
    (zmalloc ds v.size).bind fun newArray =>
      let (newArray, rel) := vectorDeleteLoop cfg v index v.count 0 0 newArray []
      .ok ⟨C_OK, ⟨v.type, some newArray, v.size, (v.count + (SIZE_MOD - 1)) % SIZE_MOD⟩,
            rel ++ [Release.storage v.slots]⟩

/-- The loop of `vectorUnlink`, at indices `i` (read) and `j` (write), with
`fuel` iterations left; `target` is the local of that name. -/
def vectorUnlinkLoop (v : Vector) (index : Nat) :
    Nat → Nat → Nat → List Datum → Datum → List Datum × Datum
  | 0, _, _, newArray, target => (newArray, target)
  | fuel + 1, i, j, newArray, target =>
    if i = index then
      vectorUnlinkLoop v index fuel (i + 1) j newArray (readSlot v i)
    else
      vectorUnlinkLoop v index fuel (i + 1) (j + 1) (newArray.set j (readSlot v i)) target

/-- The function `vectorUnlink`. -/
def vectorUnlink (cfg : Config) (v : Vector) (index : Nat) : Outcome (Ret Datum) :=
  if index ≥ v.count then .ok ⟨Datum.null, v, []⟩
  else
    (_vectorGetDatumSize cfg v).bind fun ds =>
    (zmalloc ds v.size).bind fun newArray =>
      let (newArray, target) := vectorUnlinkLoop v index v.count 0 0 newArray Datum.uninit
      .ok ⟨target, ⟨v.type, some newArray, v.size, (v.count + (SIZE_MOD - 1)) % SIZE_MOD⟩,
            [Release.storage v.slots]⟩

/-- The function `vectorPop`. -/
def vectorPop (cfg : Config) (v : Vector) : Ret Datum :=
  let last := (v.count + (SIZE_MOD - 1)) % SIZE_MOD
  let target := (vectorGet v last).ret
  let s := vectorSet cfg v last Datum.null
  ⟨target, ⟨s.v.type, s.v.data, s.v.size, (s.v.count + (SIZE_MOD - 1)) % SIZE_MOD⟩, []⟩

/-! ## C library functions used by the text codec -/

/-- The C string held in a buffer: the bytes before the first NUL. -/
def cstr (s : List Char) : List Char := s.takeWhile fun c => c ≠ Char.ofNat 0

/-- What a call of `strtok_r` leaves behind. -/
structure Tok where
  /-- the token returned (`none` is `NULL`) -/
  token : Option (List Char)
  /-- the text `*saveptr` points to after the call -/
  rest : List Char
  /-- the token ends at the terminator of the whole text, not at a delimiter,
  so that `*saveptr` is the address of the token's own terminator -/
  atNul : Bool
deriving DecidableEq

/-- The library function `strtok_r(s, delim, &saveptr)`, on the text `s` it
scans (its first argument, or `*saveptr` when that is `NULL`): leading
delimiter bytes are skipped, the token runs up to the next delimiter byte or
the end of the text, and the delimiter byte that ends it is consumed. -/
def strtok_r (s delim : List Char) : Tok :=
  match s.dropWhile fun c => delim.contains c with
  | [] => ⟨none, [], true⟩
  | c :: s1 =>
    let token := (c :: s1).takeWhile fun c => !delim.contains c
    match (c :: s1).dropWhile fun c => !delim.contains c with
    | [] => ⟨some token, [], true⟩
    | _ :: rest => ⟨some token, rest, false⟩

/-- The library function `strcasecmp(a, b) == 0`. -/
def strcasecmpEq (a b : List Char) : Bool :=
  a.map Char.toLower == b.map Char.toLower

/-- The library function `isspace` in the C locale. -/
def isspace (c : Char) : Bool :=
  c.toNat = 32 || (9 ≤ c.toNat && c.toNat ≤ 13)

/-- The library function `atoi`, as `(int) strtol(s, NULL, 10)`: white space,
an optional sign, the decimal digits; the `long` saturates, the conversion to
`int` keeps the low 32 bits. -/
def atoi (s : List Char) : Int :=
  let s := s.dropWhile isspace
  let signed : Bool × List Char :=
    match s with
    | '-' :: r => (true, r)
    | '+' :: r => (false, r)
    | _ => (false, s)
  let n : Nat := (signed.2.takeWhile Char.isDigit).foldl (fun a c => 10 * a + (c.toNat - 48)) 0
  let l : Int :=
    if signed.1 then max (-(n : Int)) (-9223372036854775808)
    else min (n : Int) 9223372036854775807
  toInt32 l

/-- The digits of `v`, most significant first, as the `do ... while (v)` loop
of `sdsll2str` produces them; `fuel` bounds the number of digits. -/
def sdsDigits : Nat → Nat → List Char → List Char
  | 0, _, acc => acc
  | fuel + 1, v, acc =>
    let acc := Char.ofNat (48 + v % 10) :: acc
    if v / 10 = 0 then acc else sdsDigits fuel (v / 10) acc

/-- The text `sdscatfmt` appends for `%i`. -/
def sdsll2str (value : Int) : List Char :=
  let digits := sdsDigits (value.natAbs + 1) value.natAbs []
  if value < 0 then '-' :: digits else digits

/-! ## The text codec (`stl.c`, lines 246-383) -/

/-- The loop of `VectorSerialize`, at index `i`, with `fuel` iterations left
(`v_count - i`): an element that is not an `sds` makes `sdscatsds` undefined. -/
def VectorSerializeLoop (cfg : Config) (v : Vector) (v_count : Int) :
    Nat → Int → List Char → Outcome (List Char)
  | 0, _, serial_buf => .ok serial_buf
  | fuel + 1, i, serial_buf =>
    match (vectorGet v (toSizeT i)).ret with
    | Datum.sds element =>
      let serial_buf := serial_buf ++ element
      let serial_buf :=
        if i < v_count - 1 then serial_buf ++ cfg.RELMODEL_DELIMITER else serial_buf
      VectorSerializeLoop cfg v v_count fuel (i + 1) serial_buf
    | _ => .undefined

/-- The function `VectorSerialize`, on the vector its argument wraps: the bytes
of the buffer it returns (without the final NUL), and the vector after the call. -/
def VectorSerialize (cfg : Config) (v : Vector) : Outcome (Ret (List Char)) :=
  let v_type : Int := v.type
  let v_count : Int := toInt32 v.count
  let serial_buf :=
    cfg.RELMODEL_VECTOR_PREFIX ++ ['{'] ++ cfg.RELMODEL_VECTOR_TYPE_PREFIX ++ sdsll2str v_type
      ++ [':'] ++ cfg.RELMODEL_VECTOR_COUNT_PREFIX ++ sdsll2str v_count ++ ['}', ':']
      ++ cfg.RELMODEL_DATA_PREFIX ++ [':'] ++ cfg.VECTOR_DATA_PREFIX
  (VectorSerializeLoop cfg v v_count v_count.toNat 0 serial_buf).bind fun serial_buf =>
    .ok ⟨serial_buf ++ cfg.VECTOR_DATA_SUFFIX, v, []⟩

/-- The loop of `VectordeSerialize` for a count other than 1, at index `i`, on
the text `saveptr` that is left, with `fuel` iterations left. -/
def VectordeSerializeLoop (cfg : Config) (vector_count : Int) :
    Nat → Int → List Char → Vector → Outcome Vector
  | 0, _, _, v => .ok v
  | fuel + 1, i, saveptr, v =>
    let delim :=
      if i = 0 then cfg.RELMODEL_VECTOR_DATA_PREFIX
      else if i = vector_count - 1 then cfg.VECTOR_DATA_SUFFIX
      else cfg.RELMODEL_DELIMITER
    let t := strtok_r saveptr delim
    match t.token with
    | none => .assertFail
    | some token =>
      (vectorAdd cfg v (Datum.sds token)).bind fun r =>
        VectordeSerializeLoop cfg vector_count fuel (i + 1) t.rest r.v

/-- The branch `vector_count == 1` of `VectordeSerialize`, on the text
`saveptr` that is left of a buffer holding `len` bytes. The second call passes
`saveptr` itself where `strtok_r` expects its address, so the 8 bytes of the
new save pointer are stored into the buffer at the place `saveptr` points to:
beyond the 1024 bytes of `str_buf` that is undefined, and when that place is
the terminator of the token returned, the token is no longer terminated. -/
def VectordeSerializeOne (cfg : Config) (len : Nat) (saveptr : List Char) (v : Vector) :
    Outcome Vector :=
  let t := strtok_r saveptr cfg.RELMODEL_VECTOR_DATA_PREFIX
  match t.token with
  | none => .assertFail
  | some token =>
    let t2 := strtok_r token cfg.VECTOR_DATA_SUFFIX
    if (len - t.rest.length) + 8 > 1024 then .undefined
    else
      match t2.token with
      | none => .assertFail
      | some token =>
        if t.atNul && t2.atNul then .undefined
        else (vectorAdd cfg v (Datum.sds token)).bind fun r => .ok r.v

/-- The function `VectordeSerialize`, on the C string its argument points to.
The two `assert`s after the allocation (`v->size == vector_count`,
`v->count == 0`) hold by construction and the log calls have no effect. -/
def VectordeSerialize (cfg : Config) (VectorString : List Char) : Outcome Vector :=
  let str_buf := cstr VectorString
  if str_buf.length + 1 > 1024 then .undefined
  else
    let t := strtok_r str_buf cfg.RELMODEL_VECTOR_PREFIX
    match t.token with
    | none => .assertFail
    | some token =>
      let saveptr :=
        if strcasecmpEq token cfg.RELMODEL_VECTOR_PREFIX then
          (strtok_r t.rest cfg.RELMODEL_BRACE_PREFIX).rest
        else t.rest
      let t := strtok_r saveptr cfg.RELMODEL_VECTOR_TYPE_PREFIX
      match t.token with
      | none => .assertFail
      | some token =>
        let vector_type := atoi token
        let t := strtok_r t.rest cfg.RELMODEL_VECTOR_COUNT_PREFIX
        match t.token with
        | none => .assertFail
        | some token =>
          let vector_count := atoi token
          (vectorTypeInitWithSize cfg vector_type (toSizeT vector_count)).bind fun v =>
            if vector_count = 1 then VectordeSerializeOne cfg str_buf.length t.rest v
            else VectordeSerializeLoop cfg vector_count vector_count.toNat 0 t.rest v

/-! ## The proto vector (`stl.c`, lines 524-679)

The struct types `ProtoVector` and `StlEntry` are generated from a schema that
is not among the sources, and `sds2proto`, `proto2sds` live in another file. -/

/-- Modelled from the spec: the discriminant tag of an envelope (the generated
enum with `STL_ENTRY__VALUE__NOT_SET`, `STL_ENTRY__VALUE__LONG` and
`STL_ENTRY__VALUE__SDS`). -/
inductive ValueCase where
  | NOT_SET : ValueCase
  | LONG : ValueCase
  | SDS : ValueCase
deriving DecidableEq

/-- Modelled from the spec: the generated struct `StlEntry`, an envelope with a
discriminant tag and the payload; `_sds` is a nullable `ProtoSds *`, given by
the bytes of the text it holds. -/
structure StlEntry where
  value_case : ValueCase
  _long : Int
  _sds : Option (List Char)
deriving DecidableEq

/-- Modelled from the spec: the generated struct `ProtoVector`; `values` is the
array of `n_values` nullable envelope pointers (`none` is `NULL`). -/
structure ProtoVector where
  type : Int
  count : Nat
  n_values : Nat
  values : Option (List (Option StlEntry))
deriving DecidableEq

/-- What a call on a proto vector leaves behind: its return value (`none` when
the function ends without a `return`) and the struct after the call. -/
structure PRet (ρ : Type) where
  ret : ρ
  v : ProtoVector
deriving DecidableEq

/-- The envelope array is an object of `n_values` pointer-sized slots (`NULL`
only with `n_values = 0`), hence of at most `PTRDIFF_MAX` bytes. -/
def ProtoVector.allocated (v : ProtoVector) : Prop :=
  (match v.values with
   | none => v.n_values = 0
   | some l => l.length = v.n_values) ∧ 8 * v.n_values ≤ 9223372036854775807

instance (v : ProtoVector) : Decidable v.allocated := by
  unfold ProtoVector.allocated; cases v.values <;> infer_instance

/-- The slots of the envelope array (none for `NULL`). -/
def ProtoVector.slots (v : ProtoVector) : List (Option StlEntry) := v.values.getD []

/-- The live envelopes: the slots at the indices below `count`. -/
def ProtoVector.elems (v : ProtoVector) : List (Option StlEntry) := v.slots.take v.count

/-- Modelled from the spec: the helper `sds2proto`, which wraps a text handle
and returns `NULL` for a datum that is not text. -/
def sds2proto (datum : Datum) : Option (List Char) :=
  match datum with
  | Datum.sds s => some s
  | _ => none

/-- Modelled from the spec: the helper `proto2sds`, the text handle of a
`ProtoSds` (`NULL` for `NULL`). -/
def proto2sds (p : Option (List Char)) : Datum :=
  match p with
  | some s => Datum.sds s
  | none => Datum.null

/-- The conversion `(long) datum`; the address behind a text handle is not
modelled and reads as 0. -/
def longOf (datum : Datum) : Int :=
  match datum with
  | Datum.long n => n
  | Datum.ptr a => a
  | _ => 0

/-- Modelled from the spec: the generated initialiser `proto_vector__init`,
an empty vector with no envelope array. -/
def proto_vector__init : ProtoVector := ⟨0, 0, 0, none⟩

/-- Modelled from the spec: the generated initialiser `stl_entry__init`, an
envelope with no value set. -/
def stl_entry__init : StlEntry := ⟨ValueCase.NOT_SET, 0, none⟩

/-- An array of `n` envelope pointers from `zmalloc` or `zcalloc`, each `NULL`
(the caller nulls them, or `zcalloc` does). -/
def zallocEntries (n : Nat) : Outcome (List (Option StlEntry)) :=
  let bytes := (8 * n) % SIZE_MOD
  if PTRDIFF_MAX < bytes then .oom
  else .ok (List.replicate (bytes / 8) none)

/-- The call `zrealloc(v->values, 8 * n)` followed by the loop that nulls the
slots from `legacy_n_values` on. -/
def zreallocEntries (old : Option (List (Option StlEntry))) (legacy_n_values n : Nat) :
    Outcome (List (Option StlEntry)) :=
  let bytes := (8 * n) % SIZE_MOD
  if PTRDIFF_MAX < bytes then .oom
  else
    let slots := bytes / 8
    let kept := ((old.getD []).take slots).take legacy_n_values
    .ok (kept ++ List.replicate (slots - kept.length) none)

/-- The function `_protoVectorResizeIfNeeded`. -/
def _protoVectorResizeIfNeeded (cfg : Config) (v : ProtoVector) : Outcome ProtoVector :=
  let first : Outcome ProtoVector :=
    if v.n_values = 0 then
      let n := cfg.INIT_PROTO_VECTOR_SIZE % SIZE_MOD
      (zallocEntries n).bind fun values => .ok ⟨v.type, v.count, n, some values⟩
    else .ok v
  first.bind fun v1 =>
    if v1.n_values ≤ v1.count then
      let legacy_n_values := v1.n_values
      let n := (v1.n_values + cfg.INIT_VECTOR_SIZE) % SIZE_MOD
      (zreallocEntries v1.values legacy_n_values n).bind fun values =>
        .ok ⟨v1.type, v1.count, n, some values⟩
    else .ok v1

/-- The function `protoVectorTypeInit`. -/
def protoVectorTypeInit (cfg : Config) (type : Int) : Outcome ProtoVector :=
  if type = cfg.STL_TYPE_LONG then
    .ok ⟨cfg.STL_TYPE__LONG, proto_vector__init.count, proto_vector__init.n_values,
          proto_vector__init.values⟩
  else if type = cfg.STL_TYPE_SDS then
    .ok ⟨cfg.STL_TYPE__SDS, proto_vector__init.count, proto_vector__init.n_values,
          proto_vector__init.values⟩
  else .assertFail

/-- The function `protoVectorSet`. Reading `v->values[i]` without an envelope
array, or beyond it, is undefined. -/
def protoVectorSet (cfg : Config) (v : ProtoVector) (i : Nat) (datum : Datum) :
    Outcome (PRet Int) :=
  if i ≥ v.count then .ok ⟨C_ERR, v⟩
  else
    match v.values with
    | none => .undefined
    | some values =>
      match values[i]? with
      | none => .undefined
      | some slot =>
        let entry : StlEntry :=
          match slot with
          | none =>
            if v.type = cfg.STL_TYPE__SDS then
              ⟨stl_entry__init.value_case, stl_entry__init._long, none⟩
            else stl_entry__init
          | some e => e
        if v.type = cfg.STL_TYPE__LONG then
          let entry : StlEntry := ⟨ValueCase.LONG, longOf datum, entry._sds⟩
          .ok ⟨C_OK, ⟨v.type, v.count, v.n_values, some (values.set i (some entry))⟩⟩
        else if v.type = cfg.STL_TYPE__SDS then
          let entry : StlEntry := ⟨ValueCase.SDS, entry._long, entry._sds⟩
          match sds2proto datum with
          | none => .ok ⟨C_ERR, ⟨v.type, v.count, v.n_values, some (values.set i (some entry))⟩⟩
          | some datum_proto =>
            let entry : StlEntry := ⟨entry.value_case, entry._long, some datum_proto⟩
            .ok ⟨C_OK, ⟨v.type, v.count, v.n_values, some (values.set i (some entry))⟩⟩
        else .ok ⟨C_ERR, ⟨v.type, v.count, v.n_values, some (values.set i (some entry))⟩⟩

/-- The function `protoVectorAdd`. -/
def protoVectorAdd (cfg : Config) (v : ProtoVector) (datum : Datum) : Outcome (PRet Int) :=
  (_protoVectorResizeIfNeeded cfg v).bind fun v1 =>
    let index := v1.count
    let v2 : ProtoVector := ⟨v1.type, (v1.count + 1) % SIZE_MOD, v1.n_values, v1.values⟩
    (protoVectorSet cfg v2 index datum).bind fun s =>
      if s.ret = C_ERR then .ok ⟨C_ERR, s.v⟩ else .ok ⟨C_OK, s.v⟩

/-- The function `protoVectorGet`. Reading through a `NULL` envelope, or
outside the envelope array, is undefined. -/
def protoVectorGet (cfg : Config) (v : ProtoVector) (i : Nat) : Outcome (PRet Datum) :=
  if i ≥ v.count then .ok ⟨Datum.null, v⟩
  else if v.type = cfg.STL_TYPE__LONG then
    match v.slots[i]? with
    | some (some e) => .ok ⟨Datum.long e._long, v⟩
    | _ => .undefined
  else if v.type = cfg.STL_TYPE__SDS then
    match v.slots[i]? with
    | some (some e) => .ok ⟨proto2sds e._sds, v⟩
    | _ => .undefined
  else .ok ⟨Datum.null, v⟩

/-- The library function `memcpy(dst + d, src + s, n slots)`; a run that leaves
either array is undefined. -/
def memcpy {α : Type} (dst : List α) (d : Nat) (src : List α) (s n : Nat) : Outcome (List α) :=
  if d + n > dst.length ∨ s + n > src.length then .undefined
  else .ok (dst.take d ++ (src.drop s).take n ++ dst.drop (d + n))

/-- The function `protoVectorDelete`; it ends without a `return` on the path
that deletes. Reading `target->_sds` through a `NULL` envelope is undefined. -/
def protoVectorDelete (cfg : Config) (v : ProtoVector) (i : Nat) : Outcome (PRet (Option Int)) :=
  if i ≥ v.count then .ok ⟨some C_ERR, v⟩
  else
    match v.values with
    | none => .undefined
    | some values =>
      match values[i]? with
      | none => .undefined
      | some target =>
        if v.type = cfg.STL_TYPE__SDS ∧ target = none then .undefined
        else
          (zallocEntries v.n_values).bind fun new_values =>
          (if i ≠ 0 then memcpy new_values 0 values 0 i else .ok new_values).bind fun new_values =>
          (if i ≠ (v.count + (SIZE_MOD - 1)) % SIZE_MOD then
              memcpy new_values i values (i + 1) ((v.count + 2 * SIZE_MOD - i - 1) % SIZE_MOD)
            else .ok new_values).bind fun new_values =>
          .ok ⟨none, ⟨v.type, (v.count + (SIZE_MOD - 1)) % SIZE_MOD, v.n_values, some new_values⟩⟩

/-- A value that a proto vector of kind `type` holds: an integer (a `long`
carried in the pointer) for the integer kind, a text handle for the text kind;
`protoVectorSet` tests the integer kind first. -/
def validDatum (cfg : Config) (type : Int) : Datum → Bool
  | Datum.long _ => decide (type = cfg.STL_TYPE__LONG)
  | Datum.sds _ => decide (type ≠ cfg.STL_TYPE__LONG ∧ type = cfg.STL_TYPE__SDS)
  | _ => false

/-! ## The second text decoder and the diagnostic join (`stl.c`, lines 203-213, 385-513) -/

/-- What `vectorDeserialize` leaves behind: its return value and `*result`
(`none` while the function has not assigned it). -/
structure DRet where
  ret : Int
  result : Option Vector
deriving DecidableEq

/-- The loop of `vectorDeserialize` for a count other than 1, at index `i`, on
the text `saveptr` that is left, with `fuel` iterations left. -/
def vectorDeserializeLoop (cfg : Config) (vector_count : Int) :
    Nat → Int → List Char → Vector → Outcome DRet
  | 0, _, _, v => .ok ⟨C_OK, some v⟩
  | fuel + 1, i, saveptr, v =>
    let last_index := vector_count - 1
    let delim :=
      if i = 0 then cfg.RELMODEL_VECTOR_DATA_PREFIX
      else if i = last_index then cfg.VECTOR_DATA_SUFFIX
      else cfg.RELMODEL_DELIMITER
    let t := strtok_r saveptr delim
    match t.token with
    | none => .ok ⟨C_ERR, some v⟩
    | some token =>
      (vectorAdd cfg v (Datum.sds token)).bind fun r =>
        vectorDeserializeLoop cfg vector_count fuel (i + 1) t.rest r.v

/-- The branch `vector_count == 1` of `vectorDeserialize`, on the text
`saveptr` that is left of an `sds` whose C string holds `len` bytes and whose
buffer holds `size` bytes. As in `VectordeSerialize`, the second call passes
`saveptr` itself where `strtok_r` expects its address: the 8 bytes of the new
save pointer go into the buffer at the place `saveptr` points to. -/
def vectorDeserializeOne (cfg : Config) (len size : Nat) (saveptr : List Char) (v : Vector) :
    Outcome DRet :=
  let t := strtok_r saveptr cfg.RELMODEL_VECTOR_DATA_PREFIX
  match t.token with
  | none => .ok ⟨C_ERR, some v⟩
  | some token =>
    let t2 := strtok_r token cfg.VECTOR_DATA_SUFFIX
    if (len - t.rest.length) + 8 > size then .undefined
    else
      match t2.token with
      | none => .ok ⟨C_ERR, some v⟩
      | some token =>
        if t.atNul && t2.atNul then .undefined
        else (vectorAdd cfg v (Datum.sds token)).bind fun r => .ok ⟨C_OK, some r.v⟩

/-- The function `vectorDeserialize`, on the `sds` it is given (`none` is
`NULL`; `avail` is the room the `sds` has beyond its terminator), which it
tokenises in place. -/
def vectorDeserialize (cfg : Config) (rawRocksDBVector : Option (List Char)) (avail : Nat) :
    Outcome DRet :=
  match rawRocksDBVector with
  | none => .ok ⟨C_ERR, none⟩
  | some raw =>
    let text := cstr raw
    let t := strtok_r text cfg.RELMODEL_VECTOR_PREFIX
    match t.token with
    | none => .ok ⟨C_ERR, none⟩
    | some token =>
      let saveptr :=
        if token = cfg.RELMODEL_VECTOR_PREFIX then
          (strtok_r t.rest cfg.RELMODEL_BRACE_PREFIX).rest
        else t.rest
      let t := strtok_r saveptr cfg.RELMODEL_VECTOR_TYPE_PREFIX
      match t.token with
      | none => .ok ⟨C_ERR, none⟩
      | some token =>
        let vector_type := atoi token
        let t := strtok_r t.rest cfg.RELMODEL_VECTOR_COUNT_PREFIX
        match t.token with
        | none => .ok ⟨C_ERR, none⟩
        | some token =>
          let vector_count := atoi token
          (vectorTypeInitWithSize cfg vector_type (toSizeT vector_count)).bind fun v =>
            if vector_count = 1 then
              vectorDeserializeOne cfg text.length (raw.length + 1 + avail) t.rest v
            else vectorDeserializeLoop cfg vector_count vector_count.toNat 0 t.rest v

/-- The loop of `vectorToSds`, at the `int` index `i`, with `fuel` iterations
left: the test `i < vectorCount(v)` compares as `size_t`, an element that is
not an `sds` makes `sdscatsds` undefined, and `++i` at `INT_MAX` overflows. -/
def vectorToSdsLoop (v : Vector) : Nat → Int → List Char → Outcome (List Char)
  | 0, _, vectorSds => .ok vectorSds
  | fuel + 1, i, vectorSds =>
    if toSizeT i < vectorCount v then
      match (vectorGet v (toSizeT i)).ret with
      | Datum.sds element =>
        let vectorSds := vectorSds ++ element
        if toSizeT i = (vectorCount v + (SIZE_MOD - 1)) % SIZE_MOD then .ok vectorSds
        else
          let vectorSds := vectorSds ++ [' ']
          if i = 2147483647 then .undefined
          else vectorToSdsLoop v fuel (i + 1) vectorSds
      | _ => .undefined
    else .ok vectorSds

/-- The function `vectorToSds`: the bytes of the `sds` it returns and the
vector after the call. The loop runs at most `v->count` times. -/
def vectorToSds (v : Vector) : Outcome (Ret (List Char)) :=
  (vectorToSdsLoop v v.count 0 []).bind fun vectorSds => .ok ⟨vectorSds, v, []⟩

/-! ## The binary codec (`stl.c`, lines 717-769)

A buffer is a list of bytes, each a `Nat`. -/

/-- The 8 bytes a `uint64_t` store writes (least significant byte first). -/
def le64 (n : Nat) : List Nat :=
  [n % 256, n / 256 % 256, n / 65536 % 256, n / 16777216 % 256, n / 4294967296 % 256,
   n / 1099511627776 % 256, n / 281474976710656 % 256, n / 72057594037927936 % 256]

/-- The value a `uint64_t` load reads from the first 8 bytes of a buffer. -/
def readLe64 (bytes : List Nat) : Nat :=
  (bytes.take 8).foldr (fun b acc => b % 256 + 256 * acc) 0

/-- Modelled from the spec: the generated functions `proto_vector__pack`,
`proto_vector__get_packed_size` and `proto_vector__unpack`, which are not among
the sources: an opaque packed encoding of a proto vector. `pack v` is the bytes
`proto_vector__pack` writes, their number is what
`proto_vector__get_packed_size` returns, and `unpack` is `proto_vector__unpack`
on exactly the bytes it is handed (`none` is `NULL`). -/
structure ProtoCodec where
  pack : ProtoVector → List Nat
  unpack : List Nat → Option ProtoVector

/-- What `protoVectorDeserialize` leaves behind: its return value and
`*result` (`none` is `NULL`). -/
structure PDRet where
  ret : Int
  result : Option ProtoVector
deriving DecidableEq

/-- The function `_protoVectorFitStlEntries`: the envelope array is
reallocated to `count` slots. Slots beyond the old array would be
indeterminate; `NULL` stands for them. -/
def _protoVectorFitStlEntries (v : ProtoVector) : Outcome ProtoVector :=
  let bytes := (8 * v.count) % SIZE_MOD
  if PTRDIFF_MAX < bytes then .oom
  else
    let slots := bytes / 8
    let kept := v.slots.take slots
    .ok ⟨v.type, v.count, v.count, some (kept ++ List.replicate (slots - kept.length) none)⟩

/-- The function `protoVectorSerialize`: the bytes of the buffer it returns and
the struct after the call. As the comment above `_protoVectorFitStlEntries`
says, packing fails on an empty envelope slot; that, and a packed text that
does not fit the buffer, is undefined. -/
def protoVectorSerialize (codec : ProtoCodec) (v : ProtoVector) : Outcome (PRet (List Nat)) :=
  (_protoVectorFitStlEntries v).bind fun v1 =>
    if v1.slots.any (fun e => e.isNone) then .undefined
    else
      let serialized_len := (codec.pack v1).length
      let bytes := (8 + serialized_len) % SIZE_MOD
      if PTRDIFF_MAX < bytes then .oom
      else if bytes < 8 + serialized_len then .undefined
      else .ok ⟨le64 serialized_len ++ codec.pack v1, v1⟩

/-- The function `protoVectorDeserialize`, on a buffer of the given bytes: the
length is read from the first 8 bytes and `proto_vector__unpack` is handed that
many bytes from byte 8 on; a range that leaves the buffer is undefined. -/
def protoVectorDeserialize (codec : ProtoCodec) (serialized : List Nat) : Outcome PDRet :=
  if serialized.length < 8 then .undefined
  else
    let serialized_len := readLe64 serialized
    if serialized.length < 8 + serialized_len then .undefined
    else .ok ⟨C_OK, codec.unpack ((serialized.drop 8).take serialized_len)⟩

/-- The bytes of one envelope in the sample packed encoding. -/
def samplePackEntry (e : Option StlEntry) : List Nat :=
  match e with
  | some ⟨ValueCase.LONG, n, _⟩ => [1, toSizeT n]
  | some ⟨ValueCase.SDS, _, some s⟩ => 2 :: s.length :: s.map Char.toNat
  | _ => [0]

/-- The envelopes the sample packed encoding holds in `bytes`; `fuel` bounds
the number of envelopes. -/
def sampleUnpackEntries : Nat → List Nat → Option (List (Option StlEntry))
  | _, [] => some []
  | 0, _ :: _ => none
  | fuel + 1, 1 :: n :: r =>
    (sampleUnpackEntries fuel r).map fun es => some ⟨ValueCase.LONG, n, none⟩ :: es
  | fuel + 1, 2 :: len :: r =>
    (sampleUnpackEntries fuel (r.drop len)).map fun es =>
      some ⟨ValueCase.SDS, 0, some ((r.take len).map Char.ofNat)⟩ :: es
  | _ + 1, _ => none

/-- A sample packed encoding (kind, count, then the envelopes), used to
instantiate statements at concrete inputs. -/
def sampleCodec : ProtoCodec :=
  ⟨fun v => toSizeT v.type :: v.count :: (v.slots.map samplePackEntry).flatten,
   fun bytes =>
     match bytes with
     | t :: c :: r =>
       (sampleUnpackEntries r.length r).map fun es => ⟨t, c, es.length, some es⟩
     | _ => none⟩

/-! ## The stack (`stl.c`, lines 215-244) -/

/-- The struct `Stack`: its kind `type` and the vector `data` that holds its
elements. -/
structure Stack where
  type : Int
  data : Vector
deriving DecidableEq

/-- What a call on a stack leaves behind: its return value, the struct after
the call and the releases it performed, in order. -/
structure SRet (ρ : Type) where
  ret : ρ
  s : Stack
  released : List Release
deriving DecidableEq

/-- The function `stackInit`. -/
def stackInit (cfg : Config) : Stack :=
  ⟨cfg.STL_TYPE_DEFAULT, vectorInit cfg⟩

/-- The function `stackTypeInit`. -/
def stackTypeInit (cfg : Config) (type : Int) : Stack :=
  let s := stackInit cfg
  ⟨type, ⟨type, s.data.data, s.data.size, s.data.count⟩⟩

/-- The function `stackCount`. -/
def stackCount (s : Stack) : Nat := s.data.count

/-- The function `stackPush`. -/
def stackPush (cfg : Config) (s : Stack) (datum : Datum) : Outcome (SRet Int) :=
  (vectorAdd cfg s.data datum).bind fun r => .ok ⟨r.ret, ⟨s.type, r.v⟩, r.released⟩

/-- The function `stackPop`. -/
def stackPop (cfg : Config) (s : Stack) : SRet Datum :=
  let r := vectorPop cfg s.data
  ⟨r.ret, ⟨s.type, r.v⟩, r.released⟩

/-- The function `stackFree`. -/
def stackFree (s : Stack) : SRet Int :=
  let r := vectorFree s.data
  ⟨r.ret, ⟨s.type, r.v⟩, r.released⟩

/-- The function `stackFreeDeep`. -/
def stackFreeDeep (cfg : Config) (s : Stack) : SRet Int :=
  let r := vectorFreeDeep cfg s.data
  ⟨r.ret, ⟨s.type, r.v⟩, r.released⟩

/-! ## Sequences of calls -/

/-- A call of a sequence: `vectorAdd(v, datum)` or `vectorDelete(v, index)`. -/
inductive Call where
  | add (datum : Datum) : Call
  | delete (index : Nat) : Call
deriving DecidableEq

/-- The container during a sequence of calls, with the number of `vectorAdd`
calls and of `vectorDelete` calls that returned `C_OK` so far. -/
structure Tally where
  v : Vector
  adds : Nat
  deletes : Nat
deriving DecidableEq

/-- Running a sequence of calls on a container, first call first. -/
def runCalls (cfg : Config) : List Call → Tally → Outcome Tally
  | [], t => .ok t
  | Call.add datum :: cs, t =>
    (vectorAdd cfg t.v datum).bind fun r =>
      runCalls cfg cs ⟨r.v, if r.ret = C_OK then t.adds + 1 else t.adds, t.deletes⟩
  | Call.delete index :: cs, t =>
    (vectorDelete cfg t.v index).bind fun r =>
      runCalls cfg cs ⟨r.v, t.adds, if r.ret = C_OK then t.deletes + 1 else t.deletes⟩

/-- The calls `stackPush(s, x1)`, ..., `stackPush(s, xk)` in that order: the
values they returned and the stack they leave. -/
def stackPushAll (cfg : Config) : List Datum → Stack → Outcome (List Int × Stack)
  | [], s => .ok ([], s)
  | x :: xs, s =>
    (stackPush cfg s x).bind fun r =>
      (stackPushAll cfg xs r.s).bind fun rest => .ok (r.ret :: rest.1, rest.2)

/-- The call `stackPop(s)` made `k` times: the values returned, first call
first, and the stack left. -/
def stackPopN (cfg : Config) : Nat → Stack → List Datum × Stack
  | 0, s => ([], s)
  | k + 1, s =>
    let r := stackPop cfg s
    let rest := stackPopN cfg k r.s
    (r.ret :: rest.1, rest.2)

/-- A call on a proto vector: `protoVectorAdd(v, datum)`,
`protoVectorSet(v, i, datum)`, `protoVectorDelete(v, i)` or
`_protoVectorFitStlEntries(v)`. -/
inductive ProtoCall where
  | add (datum : Datum) : ProtoCall
  | set (i : Nat) (datum : Datum) : ProtoCall
  | delete (i : Nat) : ProtoCall
  | fit : ProtoCall
deriving DecidableEq

/-- Running a sequence of calls on a proto vector, first call first, whatever
each call returns. -/
def runProtoCalls (cfg : Config) : List ProtoCall → ProtoVector → Outcome ProtoVector
  | [], v => .ok v
  | ProtoCall.add datum :: cs, v =>
    (protoVectorAdd cfg v datum).bind fun r => runProtoCalls cfg cs r.v
  | ProtoCall.set i datum :: cs, v =>
    (protoVectorSet cfg v i datum).bind fun r => runProtoCalls cfg cs r.v
  | ProtoCall.delete i :: cs, v =>
    (protoVectorDelete cfg v i).bind fun r => runProtoCalls cfg cs r.v
  | ProtoCall.fit :: cs, v =>
    (_protoVectorFitStlEntries v).bind fun w => runProtoCalls cfg cs w

/-- The state of the envelope array that the proto vector functions keep: the
array has `n_values` slots and is an object `zmalloc` can serve, `count` is
within it, every slot below `count` holds an envelope and every slot from
`count` on is `NULL`. -/
def ProtoVector.enveloped (v : ProtoVector) : Prop :=
  v.allocated ∧ v.count ≤ v.n_values ∧ (v.elems.all fun e => e.isSome) = true ∧
  v.slots.drop v.count = List.replicate (v.n_values - v.count) none

instance (v : ProtoVector) : Decidable v.enveloped := by
  unfold ProtoVector.enveloped; infer_instance

/-! ## Sample containers -/

/-- The text container `["2018", "Kim", "Yonsei"]` with kind tag 3. -/
def kimVector : Vector :=
  ⟨3, some [Datum.sds "2018".toList, Datum.sds "Kim".toList, Datum.sds "Yonsei".toList], 3, 3⟩

/-- The text container `["solo"]` with kind tag 1. -/
def soloVector : Vector := ⟨1, some [Datum.sds "solo".toList], 1, 1⟩

/-- The text container `[a, b, c, d, e]` of the text kind of `sampleConfig`,
with room for eight elements. -/
def abcdeVector : Vector :=
  ⟨2, some [Datum.sds ['a'], Datum.sds ['b'], Datum.sds ['c'], Datum.sds ['d'], Datum.sds ['e'],
            Datum.uninit, Datum.uninit, Datum.uninit], 8, 5⟩

/-- The full text container `[a, b]` of the text kind of `sampleConfig`
(count equal to capacity). -/
def fullVector : Vector := ⟨2, some [Datum.sds ['a'], Datum.sds ['b']], 2, 2⟩

/-- An envelope of a text-kind proto vector holding `s`. -/
def sdsEntry (s : List Char) : Option StlEntry := some ⟨ValueCase.SDS, 0, some s⟩

/-- The text-kind proto vector `[a, b, c, d, e]` of `sampleConfig`, with eight
envelope slots. -/
def abcdeProto : ProtoVector :=
  ⟨2, 5, 8, some [sdsEntry ['a'], sdsEntry ['b'], sdsEntry ['c'], sdsEntry ['d'], sdsEntry ['e'],
                  none, none, none]⟩

/-- A text container of `2 ^ 31` elements `a`, one more than an `int` can count. -/
def bigVector : Vector :=
  ⟨2, some (List.replicate 2147483648 (Datum.sds ['a'])), 2147483648, 2147483648⟩

/-- A container whose kind tag is none of the four kinds of `sampleConfig`,
with room for four elements and none stored. -/
def oddKindVector : Vector := ⟨9, some (List.replicate 4 Datum.uninit), 4, 0⟩

/-- The empty text-kind proto vector of `sampleConfig`, as `protoVectorTypeInit`
leaves it. -/
def emptySdsProto : ProtoVector := ⟨2, 0, 0, none⟩


/-- An envelope of an integer-kind proto vector holding `n`. -/
def longEntry (n : Int) : Option StlEntry := some ⟨ValueCase.LONG, n, none⟩

/-- The integer-kind proto vector `[10, 20, 30]` of `sampleConfig`, with one
spare envelope slot. -/
def tenTwentyThirty : ProtoVector :=
  ⟨1, 3, 4, some [longEntry 10, longEntry 20, longEntry 30, none]⟩

/-- A text container of `2 ^ 31 + 1` elements `a`, one more than the `int`
index of `vectorToSds` can reach. -/
def hugeVector : Vector :=
  ⟨2, some (List.replicate 2147483649 (Datum.sds ['a'])), 2147483649, 2147483649⟩

/-- The integer-kind container `[7, 8]` of `sampleConfig`. -/
def longVector : Vector := ⟨1, some [Datum.long 7, Datum.long 8], 2, 2⟩

/-- The stack of the text kind of `sampleConfig` holding `[a, b]`, full. -/
def abStack : Stack := ⟨2, fullVector⟩

/-- The integer-kind proto vector `[10, 20]` of `sampleConfig`, its two slots
taken. -/
def tenTwenty : ProtoVector := ⟨1, 2, 2, some [longEntry 10, longEntry 20]⟩

/-- A sequence of calls on an integer-kind proto vector: five appends (the
fifth grows the envelope array), a replacement, a deletion, the compaction and
one more append. -/
def sampleProtoCalls : List ProtoCall :=
  [ProtoCall.add (Datum.long 10), ProtoCall.add (Datum.long 20), ProtoCall.add (Datum.long 30),
   ProtoCall.add (Datum.long 40), ProtoCall.add (Datum.long 50),
   ProtoCall.set 1 (Datum.long 25), ProtoCall.delete 0, ProtoCall.fit,
   ProtoCall.add (Datum.long 60)]

/-- The integer-kind proto vector `[25, 30, 40, 50, 60]` with eight envelope
slots, which `sampleProtoCalls` leaves. -/
def afterSampleProtoCalls : ProtoVector :=
  ⟨1, 5, 8, some [longEntry 25, longEntry 30, longEntry 40, longEntry 50, longEntry 60,
                  none, none, none]⟩

/-! ## Lemmas -/

theorem zmalloc_fits (n : Nat) (h : 8 * n ≤ 9223372036854775807) :
    zmalloc 8 n = .ok (List.replicate n Datum.uninit) := by
  unfold zmalloc
  have h1 : (8 * n) % SIZE_MOD = 8 * n := Nat.mod_eq_of_lt (by simp only [SIZE_MOD]; omega)
  simp only [h1]
  rw [if_neg (by simp only [PTRDIFF_MAX]; omega)]
  congr 2
  omega

theorem datumSize_recognised (cfg : Config) (v : Vector) (h : recognised cfg v.type) :
    _vectorGetDatumSize cfg v = .ok 8 := by
  unfold _vectorGetDatumSize
  rcases h with h | h | h | h <;> simp [h]

theorem take_succ_set {α : Type} (arr : List α) (j : Nat) (x : α) (h : j < arr.length) :
    (arr.set j x).take (j + 1) = arr.take j ++ [x] := by
  rw [List.set_eq_take_append_cons_drop, if_pos h, List.take_append_eq_append_take]
  have e1 : (List.take j arr).length = j := by simp; omega
  have e5 : List.take (j + 1) (List.take j arr) = List.take j arr := by
    rw [List.take_take]; congr 1; omega
  simp [e1, e5]

theorem drop_set_gt {α : Type} (arr : List α) (j m : Nat) (x : α) (h : j < m) :
    (arr.set j x).drop m = arr.drop m := by
  apply List.ext_getElem?
  intro k
  simp only [List.getElem?_drop, List.getElem?_set]
  rw [if_neg (by omega)]

theorem take_succ_drop (v : Vector) (i k : Nat) (h : i < v.slots.length) :
    (v.slots.drop i).take (k + 1) = readSlot v i :: (v.slots.drop (i + 1)).take k := by
  rw [List.drop_eq_getElem_cons h, List.take_succ_cons]
  simp [readSlot, List.getD_eq_getElem?_getD, h]

theorem vectorDeleteLoop_copy (cfg : Config) (v : Vector) (index : Nat) :
    ∀ (fuel i j : Nat) (arr : List Datum) (rel : List Release),
      (index < i ∨ i + fuel ≤ index) → j + fuel ≤ arr.length → i + fuel ≤ v.slots.length →
      vectorDeleteLoop cfg v index fuel i j arr rel =
        (arr.take j ++ (v.slots.drop i).take fuel ++ arr.drop (j + fuel), rel) := by
  intro fuel
  induction fuel with
  | zero => intro i j arr rel _ _ _; simp [vectorDeleteLoop]
  | succ n ih =>
    intro i j arr rel hi hj hl
    have hne : i ≠ index := by omega
    rw [vectorDeleteLoop, if_neg hne,
      ih (i + 1) (j + 1) _ rel (by omega) (by simp; omega) (by omega),
      take_succ_set arr j _ (by omega), drop_set_gt arr j _ _ (by omega),
      take_succ_drop v i n (by omega)]
    have e : j + 1 + n = j + (n + 1) := by omega
    simp [e]

theorem vectorDeleteLoop_skip (cfg : Config) (v : Vector) (index : Nat) :
    ∀ (fuel i j : Nat) (arr : List Datum) (rel : List Release),
      i ≤ index → index < i + fuel → j + fuel ≤ arr.length + 1 → i + fuel ≤ v.slots.length →
      vectorDeleteLoop cfg v index fuel i j arr rel =
        (arr.take j ++ (v.slots.drop i).take (index - i)
            ++ (v.slots.drop (index + 1)).take (i + fuel - (index + 1))
            ++ arr.drop (j + fuel - 1),
         rel ++ (vectorFreeDatum cfg v (vectorGet v index).ret).released) := by
  intro fuel
  induction fuel with
  | zero => intro i j arr rel h1 h2; omega
  | succ n ih =>
    intro i j arr rel h1 h2 hj hl
    by_cases hie : i = index
    · subst hie
      rw [vectorDeleteLoop, if_pos rfl,
        vectorDeleteLoop_copy cfg v i n (i + 1) j arr _ (by omega) (by omega) (by omega)]
      have e1 : i + (n + 1) - (i + 1) = n := by omega
      have e2 : j + (n + 1) - 1 = j + n := by omega
      simp [e1, e2]
    · obtain ⟨m, rfl⟩ : ∃ m, n = m + 1 := ⟨n - 1, by omega⟩
      obtain ⟨k, hk⟩ : ∃ k, index - i = k + 1 := ⟨index - i - 1, by omega⟩
      rw [vectorDeleteLoop, if_neg hie,
        ih (i + 1) (j + 1) _ rel (by omega) (by omega) (by simp; omega) (by omega),
        take_succ_set arr j _ (by omega), drop_set_gt arr j _ _ (by omega),
        hk, take_succ_drop v i k (by omega)]
      have e1 : index - (i + 1) = k := by omega
      have e2 : i + 1 + (m + 1) - (index + 1) = i + (m + 1 + 1) - (index + 1) := by omega
      have e3 : j + 1 + (m + 1) - 1 = j + (m + 1 + 1) - 1 := by omega
      simp [e1, e2, e3]

theorem take_eraseIdx_runs {α : Type} (l : List α) (i c : Nat) (hi : i < c) :
    (l.take c).eraseIdx i = l.take i ++ (l.drop (i + 1)).take (c - (i + 1)) := by
  rw [List.eraseIdx_eq_take_drop_succ, List.take_take, List.drop_take]
  congr 2
  omega

theorem slots_length_of_allocated (v : Vector) (ha : v.allocated) : v.slots.length = v.size := by
  unfold Vector.allocated at ha
  unfold Vector.slots
  cases hd : v.data with
  | none => rw [hd] at ha; simp [ha.1]
  | some l => rw [hd] at ha; simpa using ha.1

theorem size_mod_pred (n : Nat) (h0 : 0 < n) (h : n < SIZE_MOD) :
    (n + (SIZE_MOD - 1)) % SIZE_MOD = n - 1 := by
  simp only [SIZE_MOD] at *
  omega

theorem vectorDelete_eq (cfg : Config) (v : Vector) (i : Nat)
    (hk : recognised cfg v.type) (ha : v.allocated) (hc : v.count ≤ v.size) (hi : i < v.count) :
    vectorDelete cfg v i = .ok
      ⟨C_OK,
       ⟨v.type,
        some (v.slots.take i ++ (v.slots.drop (i + 1)).take (v.count - (i + 1))
              ++ List.replicate (v.size - (v.count - 1)) Datum.uninit),
        v.size, v.count - 1⟩,
       (vectorFreeDatum cfg v (vectorGet v i).ret).released ++ [Release.storage v.slots]⟩ := by
  have hlen := slots_length_of_allocated v ha
  have hfit : 8 * v.size ≤ 9223372036854775807 := ha.2
  have hloop := vectorDeleteLoop_skip cfg v i v.count 0 0 (List.replicate v.size Datum.uninit) []
    (by omega) (by omega) (by simp; omega) (by omega)
  unfold vectorDelete
  rw [if_neg (by omega), datumSize_recognised cfg v hk]
  simp only [Outcome.bind, zmalloc_fits v.size hfit, hloop]
  rw [size_mod_pred v.count (by omega) (by simp only [SIZE_MOD]; omega)]
  simp

theorem zrealloc_grow (l : List Datum) (n : Nat) (hl : l.length ≤ n)
    (h : 8 * n ≤ 9223372036854775807) :
    zrealloc (some l) 8 n = .ok (l ++ List.replicate (n - l.length) Datum.uninit) := by
  unfold zrealloc
  have h1 : (8 * n) % SIZE_MOD = 8 * n := Nat.mod_eq_of_lt (by simp only [SIZE_MOD]; omega)
  have h2 : 8 * n / 8 = n := by omega
  simp only [h1, h2, Option.getD_some]
  rw [if_neg (by simp only [PTRDIFF_MAX]; omega), List.take_of_length_le hl]

/-- What `_vectorResizeIfNeeded` leaves: the same kind, count and live elements,
room for one more element, and the capacity the three cases give. -/
theorem resize_spec (cfg : Config) (v : Vector)
    (hk : recognised cfg v.type) (ha : v.allocated) (hc : v.count ≤ v.size)
    (hinit : 0 < cfg.INIT_VECTOR_SIZE)
    (hfit : 8 * (v.size + cfg.INIT_VECTOR_SIZE) ≤ 9223372036854775807) :
    ∃ r, _vectorResizeIfNeeded cfg v = .ok r ∧ r.v.type = v.type ∧ r.v.count = v.count ∧
      r.v.count < r.v.size ∧ r.v.allocated ∧ r.v.elems = v.elems ∧ r.v.data ≠ none ∧
      r.v.size = (if v.size = 0 then cfg.INIT_VECTOR_SIZE
                  else if v.size = v.count then v.size + cfg.INIT_VECTOR_SIZE else v.size) := by
  have hlen := slots_length_of_allocated v ha
  have hm : cfg.INIT_VECTOR_SIZE % SIZE_MOD = cfg.INIT_VECTOR_SIZE :=
    Nat.mod_eq_of_lt (by simp only [SIZE_MOD]; omega)
  by_cases h0 : v.size = 0
  · have hc0 : v.count = 0 := by omega
    have hk1 : ∀ d c, _vectorGetDatumSize cfg ⟨v.type, d, cfg.INIT_VECTOR_SIZE, c⟩ = .ok 8 :=
      fun d c => datumSize_recognised cfg _ hk
    cases hd : v.data with
    | none =>
      refine ⟨⟨(), ⟨v.type, some (List.replicate cfg.INIT_VECTOR_SIZE Datum.uninit),
        cfg.INIT_VECTOR_SIZE, 0⟩, []⟩, ?_, rfl, hc0.symm, hinit, ?_, ?_, by simp, by simp [h0]⟩
      · unfold _vectorResizeIfNeeded
        simp only [h0, if_true, vectorFreeDeep, hd, hm, hk1, Outcome.bind,
          zmalloc_fits cfg.INIT_VECTOR_SIZE (by omega), hc0]
        rw [if_neg (by simp; omega)]
      · exact ⟨by simp, by simp only; omega⟩
      · simp [Vector.elems, hc0]
    | some l =>
      refine ⟨⟨(), ⟨v.type, some (List.replicate cfg.INIT_VECTOR_SIZE Datum.uninit),
        cfg.INIT_VECTOR_SIZE, 0⟩, [Release.storage l]⟩, ?_, rfl, hc0.symm, hinit, ?_, ?_,
        by simp, by simp [h0]⟩
      · unfold _vectorResizeIfNeeded
        simp only [h0, if_true, vectorFreeDeep, vectorFree, hd, hm, hk1, Outcome.bind,
          zmalloc_fits cfg.INIT_VECTOR_SIZE (by omega), hc0, vectorFreeDeepLoop, List.nil_append]
        rw [if_neg (by simp; omega)]
      · exact ⟨by simp, by simp only; omega⟩
      · simp [Vector.elems, hc0]
  · by_cases hfull : v.size = v.count
    · cases hd : v.data with
      | none => have := ha.1; rw [hd] at this; exact absurd this h0
      | some l =>
        have hl : l.length = v.size := by have := ha.1; rw [hd] at this; exact this
        have hm2 : (v.size + cfg.INIT_VECTOR_SIZE) % SIZE_MOD = v.size + cfg.INIT_VECTOR_SIZE :=
          Nat.mod_eq_of_lt (by simp only [SIZE_MOD]; omega)
        refine ⟨⟨(), ⟨v.type, some (l ++ List.replicate cfg.INIT_VECTOR_SIZE Datum.uninit),
          v.size + cfg.INIT_VECTOR_SIZE, v.count⟩, []⟩, ?_, rfl, rfl, by simp only; omega, ?_, ?_,
          by simp, by rw [if_neg h0, if_pos hfull]⟩
        · unfold _vectorResizeIfNeeded
          simp only [h0, if_false, Outcome.bind]
          rw [if_pos (by omega)]
          simp only [hm2, hd, datumSize_recognised cfg ⟨v.type, some l, _, v.count⟩ hk,
            zrealloc_grow l (v.size + cfg.INIT_VECTOR_SIZE) (by omega) hfit]
          congr 6
          omega
        · exact ⟨by simp [hl], by simp only; omega⟩
        · simp only [Vector.elems, Vector.slots, hd, Option.getD_some]
          rw [List.take_append_of_le_length (by omega)]
    · refine ⟨⟨(), v, []⟩, ?_, rfl, rfl, by simp only; omega, ha, rfl, ?_,
        by rw [if_neg h0, if_neg hfull]⟩
      · unfold _vectorResizeIfNeeded
        simp only [h0, if_false, Outcome.bind]
        rw [if_neg (by omega)]
      · intro hn
        have := ha.1; rw [hn] at this; exact h0 this

theorem vectorSet_recognised (cfg : Config) (v : Vector) (index : Nat) (datum : Datum)
    (hk : recognised cfg v.type) (hi : index < v.count) :
    vectorSet cfg v index datum =
      ⟨C_OK, ⟨v.type, writeSlot v index datum, v.size, v.count⟩, []⟩ := by
  unfold vectorSet
  rw [if_neg (by omega)]
  rcases hk with h | h | h | h <;> simp [h]

theorem vectorGet_of_lt (v : Vector) (i : Nat) (hi : i < v.count) :
    (vectorGet v i).ret = v.elems.getD i Datum.uninit := by
  unfold vectorGet
  rw [if_neg (by omega)]
  simp only [readSlot, Vector.elems, List.getD_eq_getElem?_getD, List.getElem?_take]
  rw [if_pos hi]

/-- What `vectorAdd` leaves on a container of a recognised kind. -/
theorem vectorAdd_spec (cfg : Config) (v : Vector) (x : Datum)
    (hk : recognised cfg v.type) (ha : v.allocated) (hc : v.count ≤ v.size)
    (hinit : 0 < cfg.INIT_VECTOR_SIZE)
    (hfit : 8 * (v.size + cfg.INIT_VECTOR_SIZE) ≤ 9223372036854775807) :
    ∃ r, vectorAdd cfg v x = .ok r ∧ r.ret = C_OK ∧ r.v.type = v.type ∧
      r.v.count = v.count + 1 ∧ r.v.count ≤ r.v.size ∧ r.v.allocated ∧
      r.v.elems = v.elems ++ [x] ∧
      r.v.size = (if v.size = 0 then cfg.INIT_VECTOR_SIZE
                  else if v.size = v.count then v.size + cfg.INIT_VECTOR_SIZE else v.size) := by
  obtain ⟨r, hr, ht, hcnt, hlt, hal, hel, hdn, hsz⟩ := resize_spec cfg v hk ha hc hinit hfit
  have hlen := slots_length_of_allocated r.v hal
  have hsmall : 8 * r.v.size ≤ 9223372036854775807 := hal.2
  have hm : (r.v.count + 1) % SIZE_MOD = r.v.count + 1 :=
    Nat.mod_eq_of_lt (by simp only [SIZE_MOD]; omega)
  cases hd : r.v.data with
  | none => exact absurd hd hdn
  | some l =>
    have hl : l.length = r.v.size := by have := hal.1; rw [hd] at this; exact this
    have hset := vectorSet_recognised cfg ⟨r.v.type, some l, r.v.size, r.v.count + 1⟩ r.v.count x
      (by rw [ht]; exact hk) (by simp)
    have htake : l.take r.v.count = v.elems := by
      rw [← hel]; simp [Vector.elems, Vector.slots, hd]
    refine ⟨⟨C_OK, ⟨r.v.type, some (l.set r.v.count x), r.v.size, r.v.count + 1⟩, r.released⟩,
      ?_, rfl, ht, by simp only; omega, by simp only; omega, ?_, ?_, hsz⟩
    · unfold vectorAdd
      simp only [hr, Outcome.bind, hm, hd, hset, writeSlot, Option.map_some']
      simp [C_OK, C_ERR]
    · exact ⟨by simp [hl], hsmall⟩
    · show List.take (r.v.count + 1) (l.set r.v.count x) = v.elems ++ [x]
      rw [take_succ_set l r.v.count x (by omega), htake]

/-- What `vectorDelete` leaves at an index in bounds. -/
theorem vectorDelete_spec (cfg : Config) (v : Vector) (i : Nat)
    (hk : recognised cfg v.type) (ha : v.allocated) (hc : v.count ≤ v.size) (hi : i < v.count) :
    ∃ r, vectorDelete cfg v i = .ok r ∧ r.ret = C_OK ∧ r.v.type = v.type ∧
      r.v.count = v.count - 1 ∧ r.v.size = v.size ∧ r.v.allocated := by
  have hlen := slots_length_of_allocated v ha
  refine ⟨_, vectorDelete_eq cfg v i hk ha hc hi, rfl, rfl, rfl, rfl, ?_, ha.2⟩
  simp only [List.length_append, List.length_take, List.length_drop, List.length_replicate, hlen]
  omega

theorem vectorDelete_out_of_bounds (cfg : Config) (v : Vector) (i : Nat) (hi : v.count ≤ i) :
    vectorDelete cfg v i = .ok ⟨C_ERR, v, []⟩ := by
  unfold vectorDelete
  rw [if_pos (by omega)]

theorem runCalls_accounting (cfg : Config) (hinit : 0 < cfg.INIT_VECTOR_SIZE) :
    ∀ (calls : List Call) (t : Tally),
      recognised cfg t.v.type → t.v.allocated → t.v.count ≤ t.v.size →
      8 * (t.v.size + calls.length * cfg.INIT_VECTOR_SIZE) ≤ 9223372036854775807 →
      ∃ t', runCalls cfg calls t = .ok t' ∧
        (t'.v.count : Int) - t'.adds + t'.deletes = (t.v.count : Int) - t.adds + t.deletes := by
  intro calls
  induction calls with
  | nil => intro t _ _ _ _; exact ⟨t, rfl, rfl⟩
  | cons c cs ih =>
    intro t hk ha hc hfit
    have hmul : (cs.length + 1) * cfg.INIT_VECTOR_SIZE
        = cs.length * cfg.INIT_VECTOR_SIZE + cfg.INIT_VECTOR_SIZE := Nat.succ_mul _ _
    simp only [List.length_cons, hmul] at hfit
    cases c with
    | add datum =>
      obtain ⟨r, hr, hret, ht, hcnt, hle, hal, -, hsz⟩ :=
        vectorAdd_spec cfg t.v datum hk ha hc hinit (by omega)
      have hsz' : r.v.size ≤ t.v.size + cfg.INIT_VECTOR_SIZE := by
        rw [hsz]; split_ifs <;> omega
      obtain ⟨t', ht', hacc⟩ := ih ⟨r.v, if r.ret = C_OK then t.adds + 1 else t.adds, t.deletes⟩
        (by rw [ht]; exact hk) hal hle (by simp only; omega)
      refine ⟨t', ?_, ?_⟩
      · simp only [runCalls, hr, Outcome.bind]; exact ht'
      · rw [hacc]; simp only [hret, if_true, hcnt]; push_cast; ring
    | delete index =>
      by_cases hi : index < t.v.count
      · obtain ⟨r, hr, hret, ht, hcnt, hsz, hal⟩ := vectorDelete_spec cfg t.v index hk ha hc hi
        obtain ⟨t', ht', hacc⟩ := ih ⟨r.v, t.adds, if r.ret = C_OK then t.deletes + 1 else t.deletes⟩
          (by rw [ht]; exact hk) hal (by simp only; omega) (by simp only; omega)
        refine ⟨t', ?_, ?_⟩
        · simp only [runCalls, hr, Outcome.bind]; exact ht'
        · rw [hacc]; simp only [hret, if_true, hcnt]; push_cast; omega
      · have hr := vectorDelete_out_of_bounds cfg t.v index (by omega)
        obtain ⟨t', ht', hacc⟩ := ih ⟨t.v, t.adds, t.deletes⟩ hk ha hc (by simp only; omega)
        refine ⟨t', ?_, hacc⟩
        simp only [runCalls, hr, Outcome.bind]
        simpa [C_OK, C_ERR] using ht'

theorem vectorCreate_fresh (cfg : Config) (type : Int) (size : Nat)
    (hk : recognised cfg type) (hfit : 8 * size ≤ 9223372036854775807) :
    vectorCreate cfg type size = .ok ⟨type, some (List.replicate size Datum.uninit), size, 0⟩ := by
  unfold vectorCreate vectorTypeInitWithSize
  simp only [vectorTypeInit, vectorInit]
  rw [datumSize_recognised cfg _ hk]
  simp only [Outcome.bind, zmalloc_fits size hfit]

theorem memcpy_zero {α : Type} (dst : List α) (d : Nat) (src : List α) (s : Nat)
    (hd : d ≤ dst.length) (hs : s ≤ src.length) : memcpy dst d src s 0 = .ok dst := by
  unfold memcpy
  rw [if_neg (by omega)]
  simp

theorem memcpy_in_bounds {α : Type} (dst : List α) (d : Nat) (src : List α) (s n : Nat)
    (hd : d + n ≤ dst.length) (hs : s + n ≤ src.length) :
    memcpy dst d src s n = .ok (dst.take d ++ (src.drop s).take n ++ dst.drop (d + n)) := by
  unfold memcpy
  rw [if_neg (by omega)]

theorem zallocEntries_fits (n : Nat) (h : 8 * n ≤ 9223372036854775807) :
    zallocEntries n = .ok (List.replicate n none) := by
  unfold zallocEntries
  have h1 : (8 * n) % SIZE_MOD = 8 * n := Nat.mod_eq_of_lt (by simp only [SIZE_MOD]; omega)
  simp only [h1]
  rw [if_neg (by simp only [PTRDIFF_MAX]; omega)]
  congr 2
  omega

theorem protoSlots_length (v : ProtoVector) (ha : v.allocated) : v.slots.length = v.n_values := by
  unfold ProtoVector.allocated at ha
  unfold ProtoVector.slots
  cases hd : v.values with
  | none => rw [hd] at ha; simp [ha.1]
  | some l => rw [hd] at ha; simpa using ha.1

theorem protoVectorDelete_eq (cfg : Config) (v : ProtoVector) (i : Nat)
    (ha : v.allocated) (hc : v.count ≤ v.n_values) (hi : i < v.count)
    (hx : v.type = cfg.STL_TYPE__SDS → v.slots[i]? ≠ some none) :
    protoVectorDelete cfg v i = .ok
      ⟨none,
       ⟨v.type, v.count - 1, v.n_values,
        some (v.slots.take i ++ (v.slots.drop (i + 1)).take (v.count - (i + 1))
              ++ List.replicate (v.n_values - (v.count - 1)) none)⟩⟩ := by
  have hlen := protoSlots_length v ha
  have hfit : 8 * v.n_values ≤ 9223372036854775807 := ha.2
  cases hv : v.values with
  | none =>
    have := ha.1; rw [hv] at this; omega
  | some values =>
    have hl : values.length = v.n_values := by simpa [ProtoVector.slots, hv] using hlen
    have hs : v.slots = values := by simp [ProtoVector.slots, hv]
    rw [hs] at hx ⊢
    have hget : values[i]? = some (values.get ⟨i, by omega⟩) := by
      rw [← List.get?_eq_getElem?]; exact List.get?_eq_get (by omega)
    have hpred : (v.count + (SIZE_MOD - 1)) % SIZE_MOD = v.count - 1 := by
      simp only [SIZE_MOD]; omega
    have hrun : (v.count + 2 * SIZE_MOD - i - 1) % SIZE_MOD = v.count - (i + 1) := by
      simp only [SIZE_MOD]; omega
    unfold protoVectorDelete
    rw [if_neg (by omega)]
    simp only [hv, hget, hpred, hrun]
    rw [if_neg (by
      rintro ⟨ht, hn⟩
      exact hx ht (by rw [hget, hn]))]
    simp only [zallocEntries_fits v.n_values hfit, Outcome.bind]
    have hfirst : (if i ≠ 0 then memcpy (List.replicate v.n_values (none : Option StlEntry)) 0 values 0 i
        else .ok (List.replicate v.n_values none))
        = .ok (values.take i ++ List.replicate (v.n_values - i) none) := by
      by_cases h0 : i = 0
      · subst h0; simp
      · rw [if_pos h0, memcpy_in_bounds _ _ _ _ _ (by simp; omega) (by omega)]
        simp
    rw [hfirst]
    simp only
    have hsecond : (if i ≠ v.count - 1 then
          memcpy (values.take i ++ List.replicate (v.n_values - i) none) i values (i + 1)
            (v.count - (i + 1))
        else .ok (values.take i ++ List.replicate (v.n_values - i) none))
        = .ok (values.take i ++ (values.drop (i + 1)).take (v.count - (i + 1))
              ++ List.replicate (v.n_values - (v.count - 1)) none) := by
      have e1 : (List.take i values).length = i := by simp; omega
      by_cases h1 : i = v.count - 1
      · rw [if_neg (by omega)]
        have : v.count - (i + 1) = 0 := by omega
        rw [this, ← h1]
        simp
      · rw [if_pos h1, memcpy_in_bounds _ _ _ _ _ (by simp; omega) (by omega)]
        rw [List.take_append_of_le_length (by omega), List.take_take,
          List.drop_append_eq_append_drop, e1]
        have e2 : List.drop (i + (v.count - (i + 1))) (List.take i values) = [] := by
          apply List.drop_eq_nil_of_le; omega
        have e3 : min i i = i := by omega
        simp only [e2, e3, List.nil_append, List.drop_replicate]
        have e4 : v.n_values - i - (i + (v.count - (i + 1)) - i) = v.n_values - (v.count - 1) := by
          omega
        rw [e4]
    rw [hsecond]

theorem intercalate_cons_cons {α : Type} (sep a b : List α) (r : List (List α)) :
    List.intercalate sep (a :: b :: r) = a ++ sep ++ List.intercalate sep (b :: r) := by
  simp [List.intercalate]

theorem toInt32_small (n : Nat) (h : n < 2147483648) : toInt32 (n : Int) = n := by
  unfold toInt32
  have h1 : (n : Int) % 4294967296 = n := Int.emod_eq_of_lt (by omega) (by omega)
  simp only [h1]
  rw [if_pos (by omega)]

theorem toSizeT_nat (n : Nat) (h : n < SIZE_MOD) : toSizeT (n : Int) = n := by
  unfold toSizeT
  have h1 : (n : Int) % (SIZE_MOD : Int) = n :=
    Int.emod_eq_of_lt (by omega) (by simp only [SIZE_MOD] at *; omega)
  rw [h1]; simp

theorem VectorSerializeLoop_eq (cfg : Config) (v : Vector) (es : List (List Char))
    (he : v.elems = es.map Datum.sds) (hn : es.length = v.count) (hs : v.count < 2147483648) :
    ∀ (fuel k : Nat) (buf : List Char), k + fuel = es.length →
      VectorSerializeLoop cfg v (es.length : Int) fuel (k : Int) buf =
        .ok (buf ++ List.intercalate cfg.RELMODEL_DELIMITER (es.drop k)) := by
  intro fuel
  induction fuel with
  | zero =>
    intro k buf hk
    have : es.drop k = [] := List.drop_eq_nil_of_le (by omega)
    simp [VectorSerializeLoop, this, List.intercalate]
  | succ n ih =>
    intro k buf hk
    have hklt : k < es.length := by omega
    have hget : (vectorGet v (toSizeT (k : Int))).ret = Datum.sds (es.get ⟨k, hklt⟩) := by
      rw [toSizeT_nat k (by simp only [SIZE_MOD]; omega), vectorGet_of_lt v k (by omega), he]
      simp [List.getD_eq_getElem?_getD, hklt]
    have hdrop : es.drop k = es.get ⟨k, hklt⟩ :: es.drop (k + 1) := by
      simp
    rw [VectorSerializeLoop]
    simp only [hget]
    have hcast : ((k : Int) + 1) = ((k + 1 : Nat) : Int) := by push_cast; rfl
    rw [hcast, ih (k + 1) _ (by omega), hdrop]
    by_cases hlast : k + 1 = es.length
    · have : es.drop (k + 1) = [] := List.drop_eq_nil_of_le (by omega)
      rw [if_neg (by omega), this]
      simp [List.intercalate]
    · have hklt2 : k + 1 < es.length := by omega
      have hdrop2 : es.drop (k + 1) = es.get ⟨k + 1, hklt2⟩ :: es.drop (k + 1 + 1) := by
        simp
      rw [if_pos (by omega), hdrop2, intercalate_cons_cons]
      simp

theorem VectorSerialize_eq (cfg : Config) (v : Vector) (es : List (List Char))
    (he : v.elems = es.map Datum.sds) (hn : es.length = v.count) (hs : v.count < 2147483648) :
    VectorSerialize cfg v = .ok
      ⟨cfg.RELMODEL_VECTOR_PREFIX ++ ['{'] ++ cfg.RELMODEL_VECTOR_TYPE_PREFIX ++ sdsll2str v.type
        ++ [':'] ++ cfg.RELMODEL_VECTOR_COUNT_PREFIX ++ sdsll2str v.count ++ ['}', ':']
        ++ cfg.RELMODEL_DATA_PREFIX ++ [':'] ++ cfg.VECTOR_DATA_PREFIX
        ++ List.intercalate cfg.RELMODEL_DELIMITER es ++ cfg.VECTOR_DATA_SUFFIX, v, []⟩ := by
  unfold VectorSerialize
  simp only [toInt32_small v.count hs]
  have := VectorSerializeLoop_eq cfg v es he hn hs v.count 0
  simp only [Nat.cast_zero, List.drop_zero, hn] at this
  rw [← hn] at this ⊢
  simp only [Int.toNat_ofNat]
  rw [this _ (by omega)]
  simp [Outcome.bind]

theorem strtok_r_whole (t : List Char) (d : Char) (h : d ∉ t) (hne : t ≠ []) :
    strtok_r (d :: t) [d] = ⟨some t, [], true⟩ := by
  obtain ⟨c0, t0, rfl⟩ := List.exists_cons_of_ne_nil hne
  have hall : ∀ c ∈ c0 :: t0, c ≠ d := fun c hc e => h (e ▸ hc)
  have hc0 : c0 ≠ d := hall c0 (List.mem_cons_self _ _)
  have htake : (c0 :: t0).takeWhile (fun c => !([d].contains c)) = c0 :: t0 := by
    rw [List.takeWhile_eq_self_iff]
    intro c hc; simp [hall c hc]
  have hdrop : (c0 :: t0).dropWhile (fun c => !([d].contains c)) = [] := by
    rw [List.dropWhile_eq_nil_iff]
    intro c hc; simp [hall c hc]
  have hskip : (d :: c0 :: t0).dropWhile (fun c => [d].contains c) = c0 :: t0 := by
    rw [List.dropWhile_cons_of_pos (by simp), List.dropWhile_cons_of_neg (by simp [hc0])]
  unfold strtok_r
  rw [hskip]
  simp only [htake, hdrop]

theorem strtok_r_nil (delim : List Char) : strtok_r [] delim = ⟨none, [], true⟩ := by
  simp [strtok_r]

/-- A text that starts with `V` and holds no other `V` is rejected: the first
`strtok_r` call takes everything after the `V` as its token, and the call for
the kind marker finds nothing left. -/
theorem VectordeSerialize_single_V (cfg : Config) (s t : List Char)
    (hp : cfg.RELMODEL_VECTOR_PREFIX = ['V']) (hs : cstr s = 'V' :: t) (hV : 'V' ∉ t)
    (hne : t ≠ []) :
    VectordeSerialize cfg s = if (cstr s).length + 1 > 1024 then .undefined else .assertFail := by
  unfold VectordeSerialize
  simp only [hp, hs, strtok_r_whole t 'V' hV hne, strtok_r_nil]
  split_ifs <;> rfl

theorem digit_ne_V (d : Nat) (h : d < 10) : Char.ofNat (48 + d) ≠ 'V' := by
  interval_cases d <;> decide

theorem not_mem_sdsDigits :
    ∀ (fuel v : Nat) (acc : List Char), 'V' ∉ acc → 'V' ∉ sdsDigits fuel v acc := by
  intro fuel
  induction fuel with
  | zero => intro v acc h; simpa [sdsDigits] using h
  | succ n ih =>
    intro v acc h
    have hd : 'V' ∉ Char.ofNat (48 + v % 10) :: acc := by
      intro hm
      rcases List.mem_cons.1 hm with e | e
      · exact digit_ne_V (v % 10) (Nat.mod_lt _ (by omega)) e.symm
      · exact h e
    rw [sdsDigits]
    split_ifs
    · exact hd
    · exact ih _ _ hd

theorem not_mem_sdsll2str (n : Int) : 'V' ∉ sdsll2str n := by
  unfold sdsll2str
  have := not_mem_sdsDigits (n.natAbs + 1) n.natAbs [] (by simp)
  simp only
  split_ifs
  · intro hm
    rcases List.mem_cons.1 hm with e | e
    · exact absurd e (by decide)
    · exact this e
  · exact this

theorem not_mem_intercalate (x : Char) (sep : List Char) (hsep : x ∉ sep) :
    ∀ es : List (List Char), (∀ e ∈ es, x ∉ e) → x ∉ List.intercalate sep es := by
  intro es
  induction es with
  | nil => intro _; simp [List.intercalate]
  | cons a r ih =>
    intro h
    cases r with
    | nil => simpa [List.intercalate] using h a (List.mem_cons_self _ _)
    | cons b r' =>
      rw [intercalate_cons_cons]
      intro hm
      rcases List.mem_append.1 hm with hm | hm
      · rcases List.mem_append.1 hm with hm | hm
        · exact h a (List.mem_cons_self _ _) hm
        · exact hsep hm
      · exact ih (fun e he => h e (List.mem_cons_of_mem _ he)) hm

theorem not_mem_cstr (x : Char) (t : List Char) (h : x ∉ t) : x ∉ cstr t :=
  fun hm => h ((List.takeWhile_sublist _).subset hm)

/-- The text `VectorSerialize` produces with the markers of the wire format is
rejected by `VectordeSerialize`, whatever the kind, count and elements are, as
long as no element holds a `V`. -/
theorem VectordeSerialize_rejects_encoded (c : Config) (k n : Int) (es : List (List Char))
    (hV : ∀ e ∈ es, 'V' ∉ e) :
    let enc := ['V', '{', 'T'] ++ sdsll2str k ++ [':', 'C'] ++ sdsll2str n
      ++ ['}', ':', 'D', ':', '['] ++ List.intercalate ['|'] es ++ [']']
    VectordeSerialize (specConfig c) enc =
      if (cstr enc).length + 1 > 1024 then .undefined else .assertFail := by
  intro enc
  have hnot : 'V' ∉ ['{', 'T'] ++ sdsll2str k ++ [':', 'C'] ++ sdsll2str n
      ++ ['}', ':', 'D', ':', '['] ++ List.intercalate ['|'] es ++ [']'] := by
    have h1 := not_mem_sdsll2str k
    have h2 := not_mem_sdsll2str n
    have h3 := not_mem_intercalate 'V' ['|'] (by decide) es hV
    simp only [List.mem_append, not_or]
    refine ⟨⟨⟨⟨⟨⟨?_, h1⟩, ?_⟩, h2⟩, ?_⟩, h3⟩, ?_⟩ <;> decide
  have henc : enc = 'V' :: (['{', 'T'] ++ sdsll2str k ++ [':', 'C'] ++ sdsll2str n
      ++ ['}', ':', 'D', ':', '['] ++ List.intercalate ['|'] es ++ [']']) := by
    simp [enc]
  have hc : cstr enc = 'V' :: cstr (['{', 'T'] ++ sdsll2str k ++ [':', 'C'] ++ sdsll2str n
      ++ ['}', ':', 'D', ':', '['] ++ List.intercalate ['|'] es ++ [']']) := by
    rw [henc, cstr, cstr, List.takeWhile_cons_of_pos (by decide)]
  refine VectordeSerialize_single_V (specConfig c) enc _ rfl hc (not_mem_cstr _ _ hnot) ?_
  simp [cstr, List.takeWhile_cons]

theorem bind_eq_ok {α β : Type} (x : Outcome α) (f : α → Outcome β) (b : β)
    (h : x.bind f = .ok b) : ∃ a, x = .ok a ∧ f a = .ok b := by
  cases x with
  | ok a => exact ⟨a, rfl, h⟩
  | panic => simp [Outcome.bind] at h
  | assertFail => simp [Outcome.bind] at h
  | oom => simp [Outcome.bind] at h
  | undefined => simp [Outcome.bind] at h

theorem vectorSet_count (cfg : Config) (v : Vector) (i : Nat) (x : Datum) :
    (vectorSet cfg v i x).v.count = v.count := by
  unfold vectorSet
  split_ifs <;> rfl

theorem vectorFreeDeep_count (cfg : Config) (v : Vector) (h : v.count = 0) :
    (vectorFreeDeep cfg v).v.count = 0 := by
  unfold vectorFreeDeep vectorFree
  cases hd : v.data <;> simp [h]

theorem resize_count (cfg : Config) (v : Vector) (r : Ret Unit) (hc : v.count ≤ v.size)
    (hr : _vectorResizeIfNeeded cfg v = .ok r) : r.v.count = v.count := by
  unfold _vectorResizeIfNeeded at hr
  obtain ⟨r1, h1, h2⟩ := bind_eq_ok _ _ _ hr
  have hc1 : r1.v.count = v.count := by
    by_cases h0 : v.size = 0
    · rw [if_pos h0] at h1
      obtain ⟨ds, -, h1⟩ := bind_eq_ok _ _ _ h1
      obtain ⟨d, -, h1⟩ := bind_eq_ok _ _ _ h1
      injection h1 with h1
      subst h1
      have hz : v.count = 0 := by omega
      simp [vectorFreeDeep_count cfg v hz, hz]
    · rw [if_neg h0] at h1
      injection h1 with h1
      subst h1
      rfl
  rw [← hc1]
  simp only at h2
  split_ifs at h2
  · obtain ⟨ds, -, h2⟩ := bind_eq_ok _ _ _ h2
    obtain ⟨d, -, h2⟩ := bind_eq_ok _ _ _ h2
    injection h2 with h2
    subst h2
    rfl
  · injection h2 with h2
    subst h2
    rfl

theorem vectorAdd_count (cfg : Config) (v : Vector) (x : Datum) (r : Ret Int)
    (hc : v.count ≤ v.size) (hr : vectorAdd cfg v x = .ok r) :
    r.v.count = (v.count + 1) % SIZE_MOD := by
  unfold vectorAdd at hr
  obtain ⟨r1, h1, h2⟩ := bind_eq_ok _ _ _ hr
  have hc1 := resize_count cfg v r1 hc h1
  simp only at h2
  split_ifs at h2 <;>
  · injection h2 with h2
    subst h2
    simp only [vectorSet_count, hc1]

theorem protoResize_count (cfg : Config) (p p1 : ProtoVector)
    (h : _protoVectorResizeIfNeeded cfg p = .ok p1) : p1.count = p.count := by
  unfold _protoVectorResizeIfNeeded at h
  obtain ⟨a, h1, h2⟩ := bind_eq_ok _ _ _ h
  have hc1 : a.count = p.count := by
    split_ifs at h1
    · obtain ⟨vals, -, h1⟩ := bind_eq_ok _ _ _ h1
      injection h1 with h1
      subst h1
      rfl
    · injection h1 with h1
      subst h1
      rfl
  rw [← hc1]
  simp only at h2
  split_ifs at h2
  · obtain ⟨vals, -, h2⟩ := bind_eq_ok _ _ _ h2
    injection h2 with h2
    subst h2
    rfl
  · injection h2 with h2
    subst h2
    rfl

theorem protoVectorSet_count (cfg : Config) (p : ProtoVector) (i : Nat) (x : Datum)
    (s : PRet Int) (h : protoVectorSet cfg p i x = .ok s) : s.v.count = p.count := by
  unfold protoVectorSet at h
  by_cases h1 : i ≥ p.count
  · rw [if_pos h1] at h; injection h with h; subst h; rfl
  · rw [if_neg h1] at h
    cases hv : p.values with
    | none => simp only [hv] at h; exact absurd h (by simp)
    | some values =>
      simp only [hv] at h
      cases hg : values[i]? with
      | none => simp only [hg] at h; exact absurd h (by simp)
      | some slot =>
        simp only [hg] at h
        by_cases hl : p.type = cfg.STL_TYPE__LONG
        · simp only [if_pos hl] at h; injection h with h; subst h; rfl
        · simp only [if_neg hl] at h
          by_cases hs : p.type = cfg.STL_TYPE__SDS
          · simp only [if_pos hs] at h
            cases hd : sds2proto x with
            | none => simp only [hd] at h; injection h with h; subst h; rfl
            | some d => simp only [hd] at h; injection h with h; subst h; rfl
          · simp only [if_neg hs] at h; injection h with h; subst h; rfl

theorem protoVectorAdd_count (cfg : Config) (p : ProtoVector) (x : Datum) (q : PRet Int)
    (hq : protoVectorAdd cfg p x = .ok q) :
    q.v.count = (p.count + 1) % SIZE_MOD := by
  unfold protoVectorAdd at hq
  obtain ⟨p1, h1, h2⟩ := bind_eq_ok _ _ _ hq
  have hc1 := protoResize_count cfg p p1 h1
  simp only at h2
  obtain ⟨s, h3, h4⟩ := bind_eq_ok _ _ _ h2
  have hc2 := protoVectorSet_count cfg _ _ _ s h3
  simp only at hc2
  split_ifs at h4 <;>
  · injection h4 with h4
    subst h4
    simp only [hc2, hc1]

theorem vectorDelete_keeps_capacity (cfg : Config) (v : Vector) (i : Nat) (r : Ret Int)
    (hc : v.count ≤ v.size) (hs : v.size < SIZE_MOD) (h : vectorDelete cfg v i = .ok r) :
    r.v.count ≤ r.v.size := by
  unfold vectorDelete at h
  by_cases hi : i ≥ v.count
  · rw [if_pos hi] at h; injection h with h; subst h; exact hc
  · rw [if_neg hi] at h
    obtain ⟨ds, -, h⟩ := bind_eq_ok _ _ _ h
    obtain ⟨arr, -, h⟩ := bind_eq_ok _ _ _ h
    injection h with h
    subst h
    simp only
    rw [size_mod_pred v.count (by omega) (by omega)]
    omega

theorem vectorUnlink_keeps_capacity (cfg : Config) (v : Vector) (i : Nat) (r : Ret Datum)
    (hc : v.count ≤ v.size) (hs : v.size < SIZE_MOD) (h : vectorUnlink cfg v i = .ok r) :
    r.v.count ≤ r.v.size := by
  unfold vectorUnlink at h
  by_cases hi : i ≥ v.count
  · rw [if_pos hi] at h; injection h with h; subst h; exact hc
  · rw [if_neg hi] at h
    obtain ⟨ds, -, h⟩ := bind_eq_ok _ _ _ h
    obtain ⟨arr, -, h⟩ := bind_eq_ok _ _ _ h
    injection h with h
    subst h
    simp only
    rw [size_mod_pred v.count (by omega) (by omega)]
    omega

theorem vectorSet_size (cfg : Config) (v : Vector) (i : Nat) (x : Datum) :
    (vectorSet cfg v i x).v.size = v.size := by
  unfold vectorSet
  split_ifs <;> rfl

/-- The capacity invariant under every operation other than `vectorPop` on an
empty container: from a state with count within capacity, each call that
returns leaves count within capacity. -/
theorem capacity_invariant_kept (cfg : Config) (v : Vector) (i : Nat) (x : Datum)
    (hc : v.count ≤ v.size) (hs : v.size < SIZE_MOD) :
    (vectorSet cfg v i x).v.count ≤ (vectorSet cfg v i x).v.size ∧
    (vectorGet v i).v.count ≤ (vectorGet v i).v.size ∧
    (∀ r, vectorDelete cfg v i = .ok r → r.v.count ≤ r.v.size) ∧
    (∀ r, vectorUnlink cfg v i = .ok r → r.v.count ≤ r.v.size) ∧
    (0 < v.count → (vectorPop cfg v).v.count ≤ (vectorPop cfg v).v.size) ∧
    (vectorFree v).v.count ≤ (vectorFree v).v.size ∧
    (vectorFreeDeep cfg v).v.count ≤ (vectorFreeDeep cfg v).v.size ∧
    (recognised cfg v.type → v.allocated → 0 < cfg.INIT_VECTOR_SIZE →
      8 * (v.size + cfg.INIT_VECTOR_SIZE) ≤ 9223372036854775807 →
      ∃ r, vectorAdd cfg v x = .ok r ∧ r.v.count ≤ r.v.size) := by
  refine ⟨?_, ?_, ?_, ?_, ?_, ?_, ?_, ?_⟩
  · rw [vectorSet_count, vectorSet_size]; exact hc
  · unfold vectorGet; split_ifs <;> exact hc
  · exact fun r h => vectorDelete_keeps_capacity cfg v i r hc hs h
  · exact fun r h => vectorUnlink_keeps_capacity cfg v i r hc hs h
  · intro h0
    simp only [vectorPop, vectorSet_count, vectorSet_size]
    rw [size_mod_pred v.count h0 (by omega)]
    omega
  · unfold vectorFree; cases v.data <;> simp [hc]
  · unfold vectorFreeDeep vectorFree; cases v.data <;> simp [hc]
  · intro hk ha hinit hfit
    obtain ⟨r, hr, -, -, -, hle, -⟩ := vectorAdd_spec cfg v x hk ha hc hinit hfit
    exact ⟨r, hr, hle⟩

/-- The part of the no-partial-success rule that the code keeps: `vectorSet`
and `vectorDelete` leave the struct as it was whenever they return `C_ERR`. -/
theorem set_delete_error_unchanged (cfg : Config) (v : Vector) (i : Nat) (x : Datum) :
    ((vectorSet cfg v i x).ret = C_ERR → vectorSet cfg v i x = ⟨C_ERR, v, []⟩) ∧
    (∀ r, vectorDelete cfg v i = .ok r → r.ret = C_ERR → r = ⟨C_ERR, v, []⟩) := by
  constructor
  · unfold vectorSet
    split_ifs <;> simp [C_OK, C_ERR]
  · intro r h he
    unfold vectorDelete at h
    by_cases hi : i ≥ v.count
    · rw [if_pos hi] at h; injection h with h; exact h.symm
    · rw [if_neg hi] at h
      obtain ⟨ds, -, h⟩ := bind_eq_ok _ _ _ h
      obtain ⟨arr, -, h⟩ := bind_eq_ok _ _ _ h
      injection h with h
      subst h
      simp [C_OK, C_ERR] at he


/-- The text with the count `-2147483648` is not the text with the count
`2147483648`, whatever the elements are. -/
theorem negative_count_text_ne (es : List (List Char)) :
    "V{T2:C-2147483648}:D:[]".toList
      ≠ ['V', '{', 'T'] ++ sdsll2str 2 ++ [':', 'C'] ++ sdsll2str 2147483648
          ++ ['}', ':', 'D', ':', '['] ++ List.intercalate ['|'] es ++ [']'] := by
  intro h
  have h4 : sdsll2str 2 = ['2'] := by decide
  have h5 : sdsll2str 2147483648 = "2147483648".toList := by decide
  rw [h4, h5] at h
  simp only [List.append_assoc] at h
  generalize ['}', ':', 'D', ':', '['] ++ (List.intercalate ['|'] es ++ [']']) = rest at h
  have h6 := congrArg (fun l => l.get? 6) h
  simp at h6

theorem vectorGet_ret_of_lt (v : Vector) (i : Nat) (hi : i < v.count) :
    (vectorGet v i).ret = v.slots.getD i Datum.uninit := by
  unfold vectorGet
  rw [if_neg (by omega)]
  rfl

theorem vectorGet_after_write (v : Vector) (i j c : Nat) (x : Datum) (hd : v.data ≠ none)
    (hj : j < c) :
    (vectorGet ⟨v.type, writeSlot v i x, v.size, c⟩ j).ret
      = (v.slots.set i x).getD j Datum.uninit := by
  rw [vectorGet_ret_of_lt _ j hj]
  cases h : v.data with
  | none => exact absurd h hd
  | some l => simp [Vector.slots, writeSlot, h]

theorem data_ne_none_of_pos (v : Vector) (ha : v.allocated) (hp : 0 < v.size) : v.data ≠ none := by
  intro h
  have := ha.1
  rw [h] at this
  omega

theorem vectorPop_eq (cfg : Config) (v : Vector)
    (hk : recognised cfg v.type) (ha : v.allocated) (hc : v.count ≤ v.size) (hn : 1 ≤ v.count) :
    vectorPop cfg v =
      ⟨v.slots.getD (v.count - 1) Datum.uninit,
       ⟨v.type, writeSlot v (v.count - 1) Datum.null, v.size, v.count - 1⟩, []⟩ := by
  have hfit : 8 * v.size ≤ 9223372036854775807 := ha.2
  have hp : (v.count + (SIZE_MOD - 1)) % SIZE_MOD = v.count - 1 :=
    size_mod_pred v.count (by omega) (by simp only [SIZE_MOD]; omega)
  unfold vectorPop
  simp only [hp, vectorSet_recognised cfg v (v.count - 1) Datum.null hk (by omega),
    vectorGet_ret_of_lt v (v.count - 1) (by omega)]

theorem vectorUnlinkLoop_copy (v : Vector) (index : Nat) :
    ∀ (fuel i j : Nat) (arr : List Datum) (target : Datum),
      (index < i ∨ i + fuel ≤ index) → j + fuel ≤ arr.length → i + fuel ≤ v.slots.length →
      vectorUnlinkLoop v index fuel i j arr target =
        (arr.take j ++ (v.slots.drop i).take fuel ++ arr.drop (j + fuel), target) := by
  intro fuel
  induction fuel with
  | zero => intro i j arr target _ _ _; simp [vectorUnlinkLoop]
  | succ n ih =>
    intro i j arr target hi hj hl
    have hne : i ≠ index := by omega
    rw [vectorUnlinkLoop, if_neg hne,
      ih (i + 1) (j + 1) _ target (by omega) (by simp; omega) (by omega),
      take_succ_set arr j _ (by omega), drop_set_gt arr j _ _ (by omega),
      take_succ_drop v i n (by omega)]
    have e : j + 1 + n = j + (n + 1) := by omega
    simp [e]

theorem vectorUnlinkLoop_skip (v : Vector) (index : Nat) :
    ∀ (fuel i j : Nat) (arr : List Datum) (target : Datum),
      i ≤ index → index < i + fuel → j + fuel ≤ arr.length + 1 → i + fuel ≤ v.slots.length →
      vectorUnlinkLoop v index fuel i j arr target =
        (arr.take j ++ (v.slots.drop i).take (index - i)
            ++ (v.slots.drop (index + 1)).take (i + fuel - (index + 1))
            ++ arr.drop (j + fuel - 1),
         readSlot v index) := by
  intro fuel
  induction fuel with
  | zero => intro i j arr target h1 h2; omega
  | succ n ih =>
    intro i j arr target h1 h2 hj hl
    by_cases hie : i = index
    · subst hie
      rw [vectorUnlinkLoop, if_pos rfl,
        vectorUnlinkLoop_copy v i n (i + 1) j arr _ (by omega) (by omega) (by omega)]
      have e1 : i + (n + 1) - (i + 1) = n := by omega
      have e2 : j + (n + 1) - 1 = j + n := by omega
      simp [e1, e2]
    · obtain ⟨m, rfl⟩ : ∃ m, n = m + 1 := ⟨n - 1, by omega⟩
      obtain ⟨k, hk⟩ : ∃ k, index - i = k + 1 := ⟨index - i - 1, by omega⟩
      rw [vectorUnlinkLoop, if_neg hie,
        ih (i + 1) (j + 1) _ target (by omega) (by omega) (by simp; omega) (by omega),
        take_succ_set arr j _ (by omega), drop_set_gt arr j _ _ (by omega),
        hk, take_succ_drop v i k (by omega)]
      have e1 : index - (i + 1) = k := by omega
      have e2 : i + 1 + (m + 1) - (index + 1) = i + (m + 1 + 1) - (index + 1) := by omega
      have e3 : j + 1 + (m + 1) - 1 = j + (m + 1 + 1) - 1 := by omega
      simp [e1, e2, e3]

theorem vectorUnlink_eq (cfg : Config) (v : Vector) (i : Nat)
    (hk : recognised cfg v.type) (ha : v.allocated) (hc : v.count ≤ v.size) (hi : i < v.count) :
    vectorUnlink cfg v i = .ok
      ⟨readSlot v i,
       ⟨v.type,
        some (v.slots.take i ++ (v.slots.drop (i + 1)).take (v.count - (i + 1))
              ++ List.replicate (v.size - (v.count - 1)) Datum.uninit),
        v.size, v.count - 1⟩,
       [Release.storage v.slots]⟩ := by
  have hlen := slots_length_of_allocated v ha
  have hfit : 8 * v.size ≤ 9223372036854775807 := ha.2
  have hloop := vectorUnlinkLoop_skip v i v.count 0 0 (List.replicate v.size Datum.uninit)
    Datum.uninit (by omega) (by omega) (by simp; omega) (by omega)
  unfold vectorUnlink
  rw [if_neg (by omega), datumSize_recognised cfg v hk]
  simp only [Outcome.bind, zmalloc_fits v.size hfit, hloop]
  rw [size_mod_pred v.count (by omega) (by simp only [SIZE_MOD]; omega)]
  simp

theorem vectorFreeDeepLoop_sds (cfg : Config) (v : Vector)
    (ht : v.type = cfg.STL_TYPE_SDS) (hne : cfg.STL_TYPE_SDS ≠ cfg.STL_TYPE_DEFAULT) :
    ∀ (fuel i : Nat) (rel : List Release), i + fuel ≤ v.count → v.count ≤ v.slots.length →
      vectorFreeDeepLoop cfg v fuel i rel
        = rel ++ ((v.slots.drop i).take fuel).map Release.sdsfree := by
  intro fuel
  induction fuel with
  | zero => intro i rel _ _; simp [vectorFreeDeepLoop]
  | succ n ih =>
    intro i rel hi hl
    have hd : ¬ v.type = cfg.STL_TYPE_DEFAULT := by rw [ht]; exact hne
    rw [vectorFreeDeepLoop, ih (i + 1) _ (by omega) hl, take_succ_drop v i n (by omega)]
    unfold vectorFreeDatum vectorGet
    rw [if_neg hd, if_pos ht, if_neg (by omega)]
    simp

theorem vectorFreeDeepLoop_long (cfg : Config) (v : Vector)
    (h1 : v.type ≠ cfg.STL_TYPE_DEFAULT) (h2 : v.type ≠ cfg.STL_TYPE_SDS)
    (h3 : v.type ≠ cfg.STL_TYPE_ROBJ) :
    ∀ (fuel i : Nat) (rel : List Release), vectorFreeDeepLoop cfg v fuel i rel = rel := by
  intro fuel
  induction fuel with
  | zero => intro i rel; simp [vectorFreeDeepLoop]
  | succ n ih =>
    intro i rel
    rw [vectorFreeDeepLoop, ih (i + 1) _]
    unfold vectorFreeDatum
    rw [if_neg h1, if_neg h2, if_neg h3]
    simp

theorem elems_getD_of_drop (v : Vector) (i : Nat) (e : List Char) (rest : List (List Char))
    (hd : v.elems.drop i = (e :: rest).map Datum.sds) :
    v.elems.getD i Datum.uninit = Datum.sds e := by
  have h := congrArg (fun l => l[0]?) hd
  simp only [List.getElem?_drop, Nat.add_zero, List.map_cons, List.getElem?_cons_zero] at h
  rw [List.getD_eq_getElem?_getD, h]
  rfl

theorem elems_drop_succ (v : Vector) (i : Nat) (e : List Char) (rest : List (List Char))
    (hd : v.elems.drop i = (e :: rest).map Datum.sds) :
    v.elems.drop (i + 1) = rest.map Datum.sds := by
  have h := congrArg (fun l => l.drop 1) hd
  simp only [List.drop_drop, List.map_cons, List.drop_succ_cons, List.drop_zero] at h
  exact h

theorem vectorToSdsLoop_eq (v : Vector) (hs : v.count ≤ 2147483648) :
    ∀ (es : List (List Char)) (i : Nat) (acc : List Char),
      i + es.length = v.count → v.elems.drop i = es.map Datum.sds →
      vectorToSdsLoop v es.length (i : Int) acc = .ok (acc ++ List.intercalate [' '] es) := by
  intro es
  induction es with
  | nil => intro i acc _ _; simp [vectorToSdsLoop, List.intercalate]
  | cons e rest ih =>
    intro i acc hi hd
    simp only [List.length_cons] at hi
    have hsz : toSizeT (i : Int) = i := toSizeT_nat i (by simp only [SIZE_MOD]; omega)
    have hget : (vectorGet v i).ret = Datum.sds e := by
      rw [vectorGet_of_lt v i (by omega)]
      exact elems_getD_of_drop v i e rest hd
    have hpred := size_mod_pred v.count (by omega) (by simp only [SIZE_MOD]; omega)
    simp only [List.length_cons]
    rw [vectorToSdsLoop]
    simp only [hsz, vectorCount, hget, hpred]
    rw [if_pos (by omega)]
    cases rest with
    | nil =>
      simp only [List.length_nil] at hi
      rw [if_pos (by omega)]
      simp [List.intercalate]
    | cons r0 rs =>
      simp only [List.length_cons] at hi
      rw [if_neg (by omega), if_neg (by omega)]
      have h := ih (i + 1) (acc ++ e ++ [' ']) (by simp only [List.length_cons]; omega)
        (elems_drop_succ v i e (r0 :: rs) hd)
      simp only [Nat.cast_add, Nat.cast_one] at h
      rw [h, intercalate_cons_cons]
      simp

theorem vectorToSdsLoop_overflow (v : Vector) (hbig : 2147483648 < v.count)
    (hlt : v.count < SIZE_MOD) :
    ∀ (es : List (List Char)) (i : Nat) (acc : List Char),
      i + es.length = v.count → i ≤ 2147483647 → v.elems.drop i = es.map Datum.sds →
      vectorToSdsLoop v es.length (i : Int) acc = .undefined := by
  intro es
  induction es with
  | nil => intro i acc hi h2 _; simp only [List.length_nil] at hi; omega
  | cons e rest ih =>
    intro i acc hi h2 hd
    simp only [List.length_cons] at hi
    have hsz : toSizeT (i : Int) = i := toSizeT_nat i (by simp only [SIZE_MOD]; omega)
    have hget : (vectorGet v i).ret = Datum.sds e := by
      rw [vectorGet_of_lt v i (by omega)]
      exact elems_getD_of_drop v i e rest hd
    have hpred := size_mod_pred v.count (by omega) hlt
    simp only [List.length_cons]
    rw [vectorToSdsLoop]
    simp only [hsz, vectorCount, hget, hpred]
    rw [if_pos (by omega), if_neg (by omega)]
    by_cases h3 : i = 2147483647
    · rw [if_pos (by omega)]
    · rw [if_neg (by omega)]
      have h := ih (i + 1) (acc ++ e ++ [' ']) (by omega) (by omega)
        (elems_drop_succ v i e rest hd)
      simp only [Nat.cast_add, Nat.cast_one] at h
      exact h

theorem vectorToSds_overflow (v : Vector) (es : List (List Char))
    (he : v.elems = es.map Datum.sds) (hn : es.length = v.count)
    (hbig : 2147483648 < v.count) (hlt : v.count < SIZE_MOD) :
    vectorToSds v = .undefined := by
  unfold vectorToSds
  have h := vectorToSdsLoop_overflow v hbig hlt es 0 [] (by omega) (by omega) (by simpa using he)
  rw [hn] at h
  simp only [Nat.cast_zero] at h
  rw [h]
  rfl

theorem replicate_elems (k : Int) (n : Nat) (e : List Char) :
    (⟨k, some (List.replicate n (Datum.sds e)), n, n⟩ : Vector).elems
      = (List.replicate n e).map Datum.sds := by
  show List.take n (List.replicate n (Datum.sds e)) = _
  rw [List.map_replicate, List.take_replicate, Nat.min_self]

theorem readLe64_le64 (n : Nat) (h : n < 18446744073709551616) (rest : List Nat) :
    readLe64 (le64 n ++ rest) = n := by
  simp only [readLe64, le64, List.cons_append, List.take_succ_cons, List.take_zero,
    List.foldr_cons, List.foldr_nil, List.nil_append]
  omega

theorem le64_length (n : Nat) : (le64 n).length = 8 := rfl

theorem fit_of_allocated (v : ProtoVector) (ha : v.allocated) (hc : v.count ≤ v.n_values) :
    _protoVectorFitStlEntries v = .ok ⟨v.type, v.count, v.count, some v.elems⟩ := by
  have hlen := protoSlots_length v ha
  have hfit : 8 * v.n_values ≤ 9223372036854775807 := ha.2
  have hb : (8 * v.count) % SIZE_MOD = 8 * v.count :=
    Nat.mod_eq_of_lt (by simp only [SIZE_MOD]; omega)
  unfold _protoVectorFitStlEntries
  simp only [hb, PTRDIFF_MAX]
  rw [if_neg (by omega)]
  have h8 : 8 * v.count / 8 = v.count := by omega
  simp only [h8, List.length_take, hlen, Nat.min_eq_left hc, Nat.sub_self, List.replicate_zero,
    List.append_nil, ProtoVector.elems]

/-- What `vectorPop` leaves on a non-empty container of a recognised kind. -/
theorem vectorPop_spec (cfg : Config) (v : Vector)
    (hk : recognised cfg v.type) (ha : v.allocated) (hc : v.count ≤ v.size) (hn : 1 ≤ v.count) :
    (vectorPop cfg v).ret = v.elems.getD (v.count - 1) Datum.uninit ∧
    (vectorPop cfg v).v.type = v.type ∧ (vectorPop cfg v).v.count = v.count - 1 ∧
    (vectorPop cfg v).v.size = v.size ∧ (vectorPop cfg v).v.allocated ∧
    (vectorPop cfg v).v.elems = v.elems.take (v.count - 1) ∧
    (vectorPop cfg v).released = [] := by
  have hlen := slots_length_of_allocated v ha
  have hd : v.data ≠ none := data_ne_none_of_pos v ha (by omega)
  rw [vectorPop_eq cfg v hk ha hc hn]
  refine ⟨?_, rfl, rfl, rfl, ?_, ?_, rfl⟩
  · simp only [Vector.elems, List.getD_eq_getElem?_getD, List.getElem?_take]
    rw [if_pos (by omega)]
  · cases h : v.data with
    | none => exact absurd h hd
    | some l =>
      have hl : l.length = v.size := by simpa [Vector.slots, h] using hlen
      refine ⟨?_, ha.2⟩
      simp [writeSlot, h, hl]
  · cases h : v.data with
    | none => exact absurd h hd
    | some l =>
      simp only [Vector.elems, Vector.slots, writeSlot, h, Option.map_some', Option.getD_some,
        List.take_take]
      rw [Nat.min_eq_left (by omega), List.set_take,
        List.set_eq_of_length_le (by simp only [List.length_take]; omega)]

theorem elems_length (v : Vector) (ha : v.allocated) (hc : v.count ≤ v.size) :
    v.elems.length = v.count := by
  have hlen := slots_length_of_allocated v ha
  simp only [Vector.elems, List.length_take, hlen]
  omega

theorem stackPushAll_spec (cfg : Config) (hinit : 0 < cfg.INIT_VECTOR_SIZE) :
    ∀ (xs : List Datum) (s : Stack),
      recognised cfg s.data.type → s.data.allocated → s.data.count ≤ s.data.size →
      8 * (s.data.size + xs.length * cfg.INIT_VECTOR_SIZE) ≤ 9223372036854775807 →
      ∃ t, stackPushAll cfg xs s = .ok (List.replicate xs.length C_OK, t) ∧
        t.type = s.type ∧ recognised cfg t.data.type ∧ t.data.allocated ∧
        t.data.count ≤ t.data.size ∧ t.data.count = s.data.count + xs.length ∧
        t.data.elems = s.data.elems ++ xs := by
  intro xs
  induction xs with
  | nil =>
    intro s hk ha hc _
    exact ⟨s, rfl, rfl, hk, ha, hc, rfl, by simp⟩
  | cons x rest ih =>
    intro s hk ha hc hfit
    have hmul : (rest.length + 1) * cfg.INIT_VECTOR_SIZE
        = rest.length * cfg.INIT_VECTOR_SIZE + cfg.INIT_VECTOR_SIZE := Nat.succ_mul _ _
    rw [List.length_cons, hmul] at hfit
    obtain ⟨r, h, hret, hty, hcount, hle, hal, hel, hsz⟩ :=
      vectorAdd_spec cfg s.data x hk ha hc hinit (by omega)
    have hsz2 : r.v.size ≤ s.data.size + cfg.INIT_VECTOR_SIZE := by
      rw [hsz]; split_ifs <;> omega
    obtain ⟨t, ht, h1, h2, h3, h4, h5, h6⟩ := ih ⟨s.type, r.v⟩ (by rw [hty]; exact hk) hal hle
      (by simp only; omega)
    refine ⟨t, ?_, h1, h2, h3, h4, ?_, ?_⟩
    · simp only [stackPushAll, stackPush, h, Outcome.bind, ht, hret, List.length_cons,
        List.replicate_succ]
    · simp only at h5; rw [h5, hcount, List.length_cons]; omega
    · simp only at h6; rw [h6, hel]; simp

theorem stackPopN_spec (cfg : Config) :
    ∀ (k : Nat) (s : Stack),
      recognised cfg s.data.type → s.data.allocated → s.data.count ≤ s.data.size →
      k ≤ s.data.count →
      (stackPopN cfg k s).1 = s.data.elems.reverse.take k ∧
      (stackPopN cfg k s).2.data.elems = s.data.elems.take (s.data.count - k) ∧
      (stackPopN cfg k s).2.data.count = s.data.count - k := by
  intro k
  induction k with
  | zero =>
    intro s _ ha hc _
    refine ⟨rfl, ?_, rfl⟩
    simp [stackPopN, Vector.elems]
  | succ n ih =>
    intro s hk ha hc hle
    obtain ⟨hret, hty, hcount, hsz, hal, hel, -⟩ := vectorPop_spec cfg s.data hk ha hc (by omega)
    obtain ⟨h1, h2, h3⟩ := ih ⟨s.type, (vectorPop cfg s.data).v⟩ (by rw [hty]; exact hk) hal
      (by rw [hcount, hsz]; omega) (by simp only; rw [hcount]; omega)
    have hlen := elems_length s.data ha hc
    simp only at h1 h2 h3
    refine ⟨?_, ?_, ?_⟩
    · simp only [stackPopN, stackPop]
      rw [h1, hret, hel]
      have hne : s.data.elems ≠ [] := by
        intro h; rw [h] at hlen; simp at hlen; omega
      have hsplit : s.data.elems = s.data.elems.dropLast ++ [s.data.elems.getLast hne] :=
        (List.dropLast_append_getLast hne).symm
      have hdl : s.data.elems.take (s.data.count - 1) = s.data.elems.dropLast := by
        rw [List.dropLast_eq_take, hlen]
      have hlast : s.data.elems.getD (s.data.count - 1) Datum.uninit
          = s.data.elems.getLast hne := by
        rw [List.getLast_eq_getElem, List.getD_eq_getElem?_getD,
          List.getElem?_eq_getElem (by omega)]
        simp [hlen]
      rw [hdl, hlast]
      conv_rhs => rw [hsplit, List.reverse_append]
      simp
    · simp only [stackPopN, stackPop]
      have e : s.data.count - 1 - n = s.data.count - (n + 1) := by omega
      rw [h2, hel, hcount, List.take_take, Nat.min_eq_left (by omega), e]
    · simp only [stackPopN, stackPop]
      rw [h3, hcount]
      omega

theorem stackPop_ret (cfg : Config) (s : Stack) :
    (stackPop cfg s).ret = (vectorPop cfg s.data).ret := by
  unfold stackPop
  rfl

theorem stackPop_data (cfg : Config) (s : Stack) :
    (stackPop cfg s).s.data = (vectorPop cfg s.data).v := by
  unfold stackPop
  rfl

theorem zallocEntries_ok (n : Nat) (l : List (Option StlEntry)) (hn : n < 2305843009213693952)
    (h : zallocEntries n = .ok l) :
    l = List.replicate n none ∧ 8 * n ≤ 9223372036854775807 := by
  unfold zallocEntries at h
  have h1 : (8 * n) % SIZE_MOD = 8 * n := Nat.mod_eq_of_lt (by simp only [SIZE_MOD]; omega)
  simp only [h1, PTRDIFF_MAX] at h
  by_cases hb : 9223372036854775807 < 8 * n
  · rw [if_pos hb] at h; cases h
  · rw [if_neg hb] at h
    injection h with h
    have h8 : 8 * n / 8 = n := by omega
    rw [h8] at h
    exact ⟨h.symm, by omega⟩

theorem zreallocEntries_ok (old : Option (List (Option StlEntry))) (legacy n : Nat)
    (l : List (Option StlEntry)) (hn : n < 2305843009213693952) (hle : legacy ≤ n)
    (hold : (old.getD []).length = legacy) (h : zreallocEntries old legacy n = .ok l) :
    l = old.getD [] ++ List.replicate (n - legacy) none ∧ 8 * n ≤ 9223372036854775807 := by
  unfold zreallocEntries at h
  have h1 : (8 * n) % SIZE_MOD = 8 * n := Nat.mod_eq_of_lt (by simp only [SIZE_MOD]; omega)
  simp only [h1, PTRDIFF_MAX] at h
  by_cases hb : 9223372036854775807 < 8 * n
  · rw [if_pos hb] at h; cases h
  · rw [if_neg hb] at h
    injection h with h
    have h8 : 8 * n / 8 = n := by omega
    rw [h8] at h
    have hk : ((old.getD []).take n).take legacy = old.getD [] := by
      rw [List.take_take, Nat.min_eq_left hle, List.take_of_length_le (by omega)]
    rw [hk, hold] at h
    exact ⟨h.symm, by omega⟩

theorem zreallocEntries_fits (old : Option (List (Option StlEntry))) (legacy n : Nat)
    (hfit : 8 * n ≤ 9223372036854775807) (hle : legacy ≤ n)
    (hold : (old.getD []).length = legacy) :
    zreallocEntries old legacy n = .ok (old.getD [] ++ List.replicate (n - legacy) none) := by
  unfold zreallocEntries
  have h1 : (8 * n) % SIZE_MOD = 8 * n := Nat.mod_eq_of_lt (by simp only [SIZE_MOD]; omega)
  simp only [h1, PTRDIFF_MAX]
  rw [if_neg (by omega)]
  have h8 : 8 * n / 8 = n := by omega
  have hk : ((old.getD []).take n).take legacy = old.getD [] := by
    rw [List.take_take, Nat.min_eq_left hle, List.take_of_length_le (by omega)]
  rw [h8, hk, hold]

/-- What `_protoVectorResizeIfNeeded` leaves when it returns: the old slots
followed by `k` slots that hold `NULL`. -/
theorem protoResize_ok (cfg : Config) (v v1 : ProtoVector)
    (ha : v.allocated) (hc : v.count ≤ v.n_values)
    (hp : cfg.INIT_PROTO_VECTOR_SIZE < 1152921504606846976)
    (hv : cfg.INIT_VECTOR_SIZE < 1152921504606846976)
    (h : _protoVectorResizeIfNeeded cfg v = .ok v1) :
    ∃ k, v1 = ⟨v.type, v.count, v.n_values + k, some (v.slots ++ List.replicate k none)⟩ ∧
      8 * (v.n_values + k) ≤ 9223372036854775807 ∨
      v1 = v ∧ v.count < v.n_values := by
  have hlen := protoSlots_length v ha
  have hfit : 8 * v.n_values ≤ 9223372036854775807 := ha.2
  have hpm : cfg.INIT_PROTO_VECTOR_SIZE % SIZE_MOD = cfg.INIT_PROTO_VECTOR_SIZE :=
    Nat.mod_eq_of_lt (by simp only [SIZE_MOD]; omega)
  unfold _protoVectorResizeIfNeeded at h
  obtain ⟨a, h1, h2⟩ := bind_eq_ok _ _ _ h
  by_cases h0 : v.n_values = 0
  · rw [if_pos h0, hpm] at h1
    obtain ⟨vals, hz, h1⟩ := bind_eq_ok _ _ _ h1
    obtain ⟨hvals, hzfit⟩ := zallocEntries_ok _ vals (by omega) hz
    injection h1 with h1
    subst h1
    have hs0 : v.slots = [] := List.eq_nil_of_length_eq_zero (by omega)
    simp only at h2
    by_cases hg : cfg.INIT_PROTO_VECTOR_SIZE ≤ v.count
    · rw [if_pos hg] at h2
      have hm : (cfg.INIT_PROTO_VECTOR_SIZE + cfg.INIT_VECTOR_SIZE) % SIZE_MOD
          = cfg.INIT_PROTO_VECTOR_SIZE + cfg.INIT_VECTOR_SIZE :=
        Nat.mod_eq_of_lt (by simp only [SIZE_MOD]; omega)
      rw [hm] at h2
      obtain ⟨vals2, hz2, h2⟩ := bind_eq_ok _ _ _ h2
      obtain ⟨hvals2, hzfit2⟩ := zreallocEntries_ok _ _ _ vals2 (by omega) (by omega)
        (by rw [Option.getD_some, hvals, List.length_replicate]) hz2
      injection h2 with h2
      subst h2
      refine ⟨cfg.INIT_PROTO_VECTOR_SIZE + cfg.INIT_VECTOR_SIZE, Or.inl ⟨?_, by omega⟩⟩
      rw [hvals2, Option.getD_some, hvals, hs0, h0, Nat.add_sub_cancel_left, Nat.zero_add,
        List.nil_append]
      have hp0 : cfg.INIT_PROTO_VECTOR_SIZE = 0 := by omega
      rw [hp0, List.replicate_zero, List.nil_append, Nat.zero_add]
    · rw [if_neg hg] at h2
      injection h2 with h2
      subst h2
      refine ⟨cfg.INIT_PROTO_VECTOR_SIZE, Or.inl ⟨?_, by omega⟩⟩
      rw [hvals, hs0, h0, Nat.zero_add, List.nil_append]
  · rw [if_neg h0] at h1
    injection h1 with h1
    subst h1
    simp only at h2
    by_cases hg : v.n_values ≤ v.count
    · rw [if_pos hg] at h2
      have hm : (v.n_values + cfg.INIT_VECTOR_SIZE) % SIZE_MOD
          = v.n_values + cfg.INIT_VECTOR_SIZE :=
        Nat.mod_eq_of_lt (by simp only [SIZE_MOD]; omega)
      rw [hm] at h2
      obtain ⟨vals2, hz2, h2⟩ := bind_eq_ok _ _ _ h2
      obtain ⟨hvals2, hzfit2⟩ := zreallocEntries_ok _ _ _ vals2 (by omega) (by omega) hlen hz2
      injection h2 with h2
      subst h2
      refine ⟨cfg.INIT_VECTOR_SIZE, Or.inl ⟨?_, by omega⟩⟩
      rw [hvals2, Nat.add_sub_cancel_left]
      rfl
    · rw [if_neg hg] at h2
      injection h2 with h2
      exact ⟨0, Or.inr ⟨h2.symm, by omega⟩⟩

theorem protoValues_of_pos (v : ProtoVector) (ha : v.allocated) (hp : 0 < v.n_values) :
    v.values = some v.slots := by
  unfold ProtoVector.allocated at ha
  cases hd : v.values with
  | none => rw [hd] at ha; have := ha.1; omega
  | some l => simp [ProtoVector.slots, hd]

/-- `_protoVectorResizeIfNeeded` returns, with room for one more element, when
the growth increments are positive and the grown array can be served. -/
theorem protoResize_spec (cfg : Config) (v : ProtoVector)
    (ha : v.allocated) (hc : v.count ≤ v.n_values)
    (hp : 0 < cfg.INIT_PROTO_VECTOR_SIZE) (hv : 0 < cfg.INIT_VECTOR_SIZE)
    (hfp : 8 * cfg.INIT_PROTO_VECTOR_SIZE ≤ 9223372036854775807)
    (hfv : 8 * (v.n_values + cfg.INIT_VECTOR_SIZE) ≤ 9223372036854775807) :
    ∃ k, _protoVectorResizeIfNeeded cfg v
        = .ok ⟨v.type, v.count, v.n_values + k, some (v.slots ++ List.replicate k none)⟩ ∧
      v.count < v.n_values + k ∧ 8 * (v.n_values + k) ≤ 9223372036854775807 := by
  have hlen := protoSlots_length v ha
  have hpm : cfg.INIT_PROTO_VECTOR_SIZE % SIZE_MOD = cfg.INIT_PROTO_VECTOR_SIZE :=
    Nat.mod_eq_of_lt (by simp only [SIZE_MOD]; omega)
  have hm : (v.n_values + cfg.INIT_VECTOR_SIZE) % SIZE_MOD
      = v.n_values + cfg.INIT_VECTOR_SIZE :=
    Nat.mod_eq_of_lt (by simp only [SIZE_MOD]; omega)
  unfold _protoVectorResizeIfNeeded
  by_cases h0 : v.n_values = 0
  · have hs0 : v.slots = [] := List.eq_nil_of_length_eq_zero (by omega)
    refine ⟨cfg.INIT_PROTO_VECTOR_SIZE, ?_, by omega, by omega⟩
    rw [if_pos h0, hpm]
    simp only [zallocEntries_fits _ hfp, Outcome.bind]
    rw [if_neg (by omega), hs0, h0, Nat.zero_add, List.nil_append]
  · rw [if_neg h0]
    simp only [Outcome.bind]
    by_cases hg : v.n_values ≤ v.count
    · refine ⟨cfg.INIT_VECTOR_SIZE, ?_, by omega, by omega⟩
      rw [if_pos hg, hm]
      simp only [zreallocEntries_fits _ _ _ hfv (Nat.le_add_right _ _) hlen, Outcome.bind,
        Nat.add_sub_cancel_left]
      rfl
    · refine ⟨0, ?_, by omega, by omega⟩
      rw [if_neg hg, List.replicate_zero, List.append_nil, Nat.add_zero,
        ← protoValues_of_pos v ha (by omega)]

/-- What `protoVectorGet` returns at a slot that holds an envelope. -/
theorem protoVectorGet_slot (cfg : Config) (v : ProtoVector) (i : Nat) (e : StlEntry)
    (hi : i < v.count) (hs : v.slots[i]? = some (some e)) :
    protoVectorGet cfg v i = .ok
      ⟨if v.type = cfg.STL_TYPE__LONG then Datum.long e._long
       else if v.type = cfg.STL_TYPE__SDS then proto2sds e._sds else Datum.null, v⟩ := by
  unfold protoVectorGet
  rw [if_neg (by omega)]
  by_cases h1 : v.type = cfg.STL_TYPE__LONG
  · rw [if_pos h1, if_pos h1, hs]
  · rw [if_neg h1, if_neg h1]
    by_cases h2 : v.type = cfg.STL_TYPE__SDS
    · rw [if_pos h2, if_pos h2, hs]
    · rw [if_neg h2, if_neg h2]

/-- What `protoVectorSet` leaves when it returns: the container as it was, or
the container with an envelope at slot `i` below `count`. -/
theorem protoVectorSet_shape (cfg : Config) (v : ProtoVector) (i : Nat) (x : Datum)
    (r : PRet Int) (h : protoVectorSet cfg v i x = .ok r) :
    (v.count ≤ i ∧ r.v = v) ∨ (i < v.count ∧ ∃ l e, v.values = some l ∧ i < l.length ∧
      r.v = ⟨v.type, v.count, v.n_values, some (l.set i (some e))⟩) := by
  unfold protoVectorSet at h
  by_cases h1 : i ≥ v.count
  · rw [if_pos h1] at h; injection h with h; subst h; exact Or.inl ⟨h1, rfl⟩
  · rw [if_neg h1] at h
    right
    refine ⟨by omega, ?_⟩
    cases hv : v.values with
    | none => simp only [hv] at h; exact absurd h (by simp)
    | some values =>
      simp only [hv] at h
      cases hg : values[i]? with
      | none => simp only [hg] at h; exact absurd h (by simp)
      | some slot =>
        have hil : i < values.length := by
          by_contra hcon
          rw [List.getElem?_eq_none (by omega)] at hg
          cases hg
        simp only [hg] at h
        by_cases hl : v.type = cfg.STL_TYPE__LONG
        · simp only [if_pos hl] at h; injection h with h; subst h
          exact ⟨values, _, rfl, hil, rfl⟩
        · simp only [if_neg hl] at h
          by_cases hs : v.type = cfg.STL_TYPE__SDS
          · simp only [if_pos hs] at h
            cases hd : sds2proto x with
            | none =>
              simp only [hd] at h; injection h with h; subst h
              exact ⟨values, _, rfl, hil, rfl⟩
            | some d =>
              simp only [hd] at h; injection h with h; subst h
              exact ⟨values, _, rfl, hil, rfl⟩
          · simp only [if_neg hs] at h; injection h with h; subst h
            exact ⟨values, _, rfl, hil, rfl⟩

/-- A valid value is stored: `protoVectorSet` with an integer on the integer
kind, or a text on the text kind, returns `C_OK` and leaves an envelope from
which `protoVectorGet` reads the value back. -/
theorem protoVectorSet_valid (cfg : Config) (v : ProtoVector) (i : Nat) (x : Datum)
    (l : List (Option StlEntry)) (hi : i < v.count) (hv : v.values = some l)
    (hl : i < l.length)
    (hx : (v.type = cfg.STL_TYPE__LONG ∧ ∃ n, x = Datum.long n) ∨
          (v.type ≠ cfg.STL_TYPE__LONG ∧ v.type = cfg.STL_TYPE__SDS ∧ ∃ s, x = Datum.sds s)) :
    ∃ e, protoVectorSet cfg v i x
        = .ok ⟨C_OK, ⟨v.type, v.count, v.n_values, some (l.set i (some e))⟩⟩ ∧
      (if v.type = cfg.STL_TYPE__LONG then Datum.long e._long
       else if v.type = cfg.STL_TYPE__SDS then proto2sds e._sds else Datum.null) = x := by
  unfold protoVectorSet
  rw [if_neg (by omega)]
  simp only [hv, List.getElem?_eq_getElem hl]
  rcases hx with ⟨ht, n, rfl⟩ | ⟨hnl, ht, s, rfl⟩
  · rw [if_pos ht]
    exact ⟨_, rfl, by rw [if_pos ht]; rfl⟩
  · rw [if_neg hnl, if_pos ht]
    exact ⟨_, rfl, by rw [if_neg hnl, if_pos ht]; rfl⟩

theorem validDatum_cases (cfg : Config) (type : Int) (x : Datum)
    (h : validDatum cfg type x = true) :
    (type = cfg.STL_TYPE__LONG ∧ ∃ n, x = Datum.long n) ∨
    (type ≠ cfg.STL_TYPE__LONG ∧ type = cfg.STL_TYPE__SDS ∧ ∃ s, x = Datum.sds s) := by
  cases x with
  | long n => exact Or.inl ⟨of_decide_eq_true h, n, rfl⟩
  | sds s => exact Or.inr ⟨(of_decide_eq_true h).1, (of_decide_eq_true h).2, s, rfl⟩
  | null => cases h
  | ptr a => cases h
  | uninit => cases h

/-- What `protoVectorAdd` leaves for a valid value. -/
theorem protoVectorAdd_valid (cfg : Config) (v : ProtoVector) (x : Datum)
    (ha : v.allocated) (hc : v.count ≤ v.n_values)
    (hx : validDatum cfg v.type x = true)
    (hp : 0 < cfg.INIT_PROTO_VECTOR_SIZE) (hv : 0 < cfg.INIT_VECTOR_SIZE)
    (hfp : 8 * cfg.INIT_PROTO_VECTOR_SIZE ≤ 9223372036854775807)
    (hfv : 8 * (v.n_values + cfg.INIT_VECTOR_SIZE) ≤ 9223372036854775807) :
    ∃ k e, protoVectorAdd cfg v x
        = .ok ⟨C_OK, ⟨v.type, v.count + 1, v.n_values + k,
                 some ((v.slots ++ List.replicate k none).set v.count (some e))⟩⟩ ∧
      v.count < v.n_values + k ∧
      (if v.type = cfg.STL_TYPE__LONG then Datum.long e._long
       else if v.type = cfg.STL_TYPE__SDS then proto2sds e._sds else Datum.null) = x := by
  have hlen := protoSlots_length v ha
  obtain ⟨k, hres, hlt, hfit⟩ := protoResize_spec cfg v ha hc hp hv hfp hfv
  have hm : (v.count + 1) % SIZE_MOD = v.count + 1 :=
    Nat.mod_eq_of_lt (by simp only [SIZE_MOD]; omega)
  obtain ⟨e, hset, hval⟩ := protoVectorSet_valid cfg
    ⟨v.type, v.count + 1, v.n_values + k, some (v.slots ++ List.replicate k none)⟩ v.count x
    (v.slots ++ List.replicate k none) (Nat.lt_succ_self _) rfl
    (by rw [List.length_append, List.length_replicate, hlen]; exact hlt)
    (validDatum_cases cfg v.type x hx)
  refine ⟨k, e, ?_, hlt, hval⟩
  unfold protoVectorAdd
  rw [hres]
  simp only [Outcome.bind, hm, hset]
  rw [if_neg (by decide)]

theorem slot_of_all_some (v : ProtoVector) (ha : v.allocated) (hc : v.count ≤ v.n_values)
    (hlive : (v.elems.all fun e => e.isSome) = true) (i : Nat) (hi : i < v.count) :
    ∃ e, v.slots[i]? = some (some e) := by
  have hlen := protoSlots_length v ha
  have hil : i < v.elems.length := by
    simp only [ProtoVector.elems, List.length_take, hlen]; omega
  have hmem : v.elems[i] ∈ v.elems := List.getElem_mem hil
  have hsome := List.all_eq_true.mp hlive _ hmem
  have hget : v.slots[i]? = some v.elems[i] := by
    rw [List.getElem?_eq_getElem (by omega)]
    simp only [ProtoVector.elems, List.getElem_take]
  cases hv : v.elems[i] with
  | none => rw [hv] at hsome; cases hsome
  | some e => exact ⟨e, by rw [hget, hv]⟩

theorem enveloped_mk (t : Int) (c n : Nat) (l : List (Option StlEntry))
    (hl : l.length = n) (hfit : 8 * n ≤ 9223372036854775807) (hc : c ≤ n)
    (hsome : ((l.take c).all fun e => e.isSome) = true)
    (htail : l.drop c = List.replicate (n - c) none) :
    (⟨t, c, n, some l⟩ : ProtoVector).enveloped :=
  ⟨⟨hl, hfit⟩, hc, hsome, htail⟩

theorem enveloped_init (cfg : Config) (type : Int) (v0 : ProtoVector)
    (h : protoVectorTypeInit cfg type = .ok v0) : v0.enveloped := by
  unfold protoVectorTypeInit at h
  by_cases h1 : type = cfg.STL_TYPE_LONG
  · rw [if_pos h1] at h; injection h with h; subst h
    exact ⟨⟨rfl, (by decide : 8 * 0 ≤ 9223372036854775807)⟩, Nat.le_refl _, rfl, rfl⟩
  · rw [if_neg h1] at h
    by_cases h2 : type = cfg.STL_TYPE_SDS
    · rw [if_pos h2] at h; injection h with h; subst h
      exact ⟨⟨rfl, (by decide : 8 * 0 ≤ 9223372036854775807)⟩, Nat.le_refl _, rfl, rfl⟩
    · rw [if_neg h2] at h; cases h

theorem enveloped_fit (v w : ProtoVector) (he : v.enveloped)
    (h : _protoVectorFitStlEntries v = .ok w) : w.enveloped := by
  obtain ⟨ha, hc, hsome, -⟩ := he
  have hlen := protoSlots_length v ha
  have hfit : 8 * v.n_values ≤ 9223372036854775807 := ha.2
  rw [fit_of_allocated v ha hc] at h
  injection h with h
  subst h
  have hel : v.elems.length = v.count := by
    simp only [ProtoVector.elems, List.length_take, hlen]; omega
  refine enveloped_mk _ _ _ _ hel (by omega) (Nat.le_refl _) ?_ ?_
  · rw [List.take_of_length_le (by omega)]
    exact hsome
  · rw [Nat.sub_self, List.replicate_zero, List.drop_of_length_le (by omega)]

theorem enveloped_set (cfg : Config) (v : ProtoVector) (i : Nat) (x : Datum) (r : PRet Int)
    (he : v.enveloped) (h : protoVectorSet cfg v i x = .ok r) : r.v.enveloped := by
  obtain ⟨ha, hc, hsome, htail⟩ := he
  have hlen := protoSlots_length v ha
  rcases protoVectorSet_shape cfg v i x r h with ⟨-, hr⟩ | ⟨hi, l, e, hv, hil, hr⟩
  · rw [hr]; exact ⟨ha, hc, hsome, htail⟩
  · have hsl : v.slots = l := by simp [ProtoVector.slots, hv]
    rw [hsl] at hlen htail
    rw [hr]
    refine enveloped_mk _ _ _ _ (by rw [List.length_set]; exact hlen) ha.2 hc ?_ ?_
    · rw [List.all_eq_true]
      intro a hmem
      rw [List.set_take] at hmem
      rcases List.mem_or_eq_of_mem_set hmem with h1 | h1
      · exact List.all_eq_true.mp hsome a (by simp only [ProtoVector.elems, hsl]; exact h1)
      · rw [h1]; rfl
    · rw [drop_set_gt l i v.count _ hi]
      exact htail

theorem enveloped_delete (cfg : Config) (v : ProtoVector) (i : Nat) (r : PRet (Option Int))
    (he : v.enveloped) (h : protoVectorDelete cfg v i = .ok r) : r.v.enveloped := by
  obtain ⟨ha, hc, hsome, htail⟩ := he
  have hlen := protoSlots_length v ha
  by_cases hi : i ≥ v.count
  · unfold protoVectorDelete at h
    rw [if_pos hi] at h
    injection h with h
    subst h
    exact ⟨ha, hc, hsome, htail⟩
  · have hi2 : i < v.count := by omega
    obtain ⟨e, hslot⟩ := slot_of_all_some v ha hc hsome i hi2
    rw [protoVectorDelete_eq cfg v i ha hc hi2 (fun _ => by rw [hslot]; simp)] at h
    injection h with h
    subst h
    have hrun : (v.slots.take i ++ (v.slots.drop (i + 1)).take (v.count - (i + 1))).length
        = v.count - 1 := by
      simp only [List.length_append, List.length_take, List.length_drop, hlen]; omega
    refine enveloped_mk _ _ _ _ ?_ ha.2 (by omega) ?_ ?_
    · rw [List.length_append, hrun, List.length_replicate]; omega
    · rw [List.take_left' hrun, ← take_eraseIdx_runs v.slots i v.count hi2, List.all_eq_true]
      intro a hmem
      exact List.all_eq_true.mp hsome a ((List.eraseIdx_sublist _ _).subset hmem)
    · rw [List.drop_left' hrun]

theorem protoSlots_struct (v : ProtoVector) (ha : v.allocated) (hp : 0 < v.n_values) :
    v = ⟨v.type, v.count, v.n_values + 0, some (v.slots ++ List.replicate 0 none)⟩ := by
  have hv := protoValues_of_pos v ha hp
  rw [List.replicate_zero, List.append_nil, Nat.add_zero, ← hv]

theorem enveloped_add (cfg : Config) (v : ProtoVector) (x : Datum) (r : PRet Int)
    (hp : cfg.INIT_PROTO_VECTOR_SIZE < 1152921504606846976)
    (hv : cfg.INIT_VECTOR_SIZE < 1152921504606846976)
    (he : v.enveloped) (h : protoVectorAdd cfg v x = .ok r) : r.v.enveloped := by
  obtain ⟨ha, hc, hsome, htail⟩ := he
  have hlen := protoSlots_length v ha
  have hfit : 8 * v.n_values ≤ 9223372036854775807 := ha.2
  unfold protoVectorAdd at h
  obtain ⟨v1, hres, h⟩ := bind_eq_ok _ _ _ h
  obtain ⟨k, hv1, hfk⟩ : ∃ k, v1 = ⟨v.type, v.count, v.n_values + k,
      some (v.slots ++ List.replicate k none)⟩ ∧ 8 * (v.n_values + k) ≤ 9223372036854775807 := by
    obtain ⟨k, hk⟩ := protoResize_ok cfg v v1 ha hc hp hv hres
    rcases hk with ⟨h1, h2⟩ | ⟨h1, h2⟩
    · exact ⟨k, h1, h2⟩
    · exact ⟨0, by rw [h1]; exact protoSlots_struct v ha (by omega), by omega⟩
  subst hv1
  have hm : (v.count + 1) % SIZE_MOD = v.count + 1 :=
    Nat.mod_eq_of_lt (by simp only [SIZE_MOD]; omega)
  simp only [hm] at h
  obtain ⟨s, hset, h⟩ := bind_eq_ok _ _ _ h
  have hrv : r.v = s.v := by
    by_cases hret : s.ret = C_ERR
    · rw [if_pos hret] at h; injection h with h; subst h; rfl
    · rw [if_neg hret] at h; injection h with h; subst h; rfl
  rcases protoVectorSet_shape cfg _ _ x s hset with ⟨hge, -⟩ | ⟨-, l, e, hvals, hil, hs⟩
  · simp only at hge; omega
  · simp only [Option.some.injEq] at hvals
    subst hvals
    rw [hrv, hs]
    simp only [List.length_append, List.length_replicate, hlen] at hil
    have hdrop : (v.slots ++ List.replicate k none).drop v.count
        = List.replicate (v.n_values - v.count + k) none := by
      rw [List.drop_append_of_le_length (by omega), htail, ← List.replicate_add]
    refine enveloped_mk _ _ _ _ ?_ hfk (Nat.succ_le_of_lt hil) ?_ ?_
    · rw [List.length_set, List.length_append, List.length_replicate, hlen]
    · rw [take_succ_set _ _ _ (by rw [List.length_append, List.length_replicate, hlen]; exact hil),
        List.take_append_of_le_length (by omega), List.all_append]
      simp only [ProtoVector.elems] at hsome
      rw [hsome]
      rfl
    · have hdd : (v.slots ++ List.replicate k none).drop (v.count + 1)
          = ((v.slots ++ List.replicate k none).drop v.count).drop 1 := by
        rw [List.drop_drop, Nat.add_comm]
      have hsub : v.n_values - v.count + k - 1 = v.n_values + k - (v.count + 1) := by omega
      rw [drop_set_gt _ v.count (v.count + 1) _ (Nat.lt_succ_self _), hdd, hdrop,
        List.drop_replicate, hsub]

theorem enveloped_run (cfg : Config)
    (hp : cfg.INIT_PROTO_VECTOR_SIZE < 1152921504606846976)
    (hv : cfg.INIT_VECTOR_SIZE < 1152921504606846976) :
    ∀ (calls : List ProtoCall) (v w : ProtoVector), v.enveloped →
      runProtoCalls cfg calls v = .ok w → w.enveloped := by
  intro calls
  induction calls with
  | nil =>
    intro v w he h
    simp only [runProtoCalls] at h
    injection h with h
    subst h
    exact he
  | cons c cs ih =>
    intro v w he h
    cases c with
    | add datum =>
      simp only [runProtoCalls] at h
      obtain ⟨r, h1, h2⟩ := bind_eq_ok _ _ _ h
      exact ih r.v w (enveloped_add cfg v datum r hp hv he h1) h2
    | set i datum =>
      simp only [runProtoCalls] at h
      obtain ⟨r, h1, h2⟩ := bind_eq_ok _ _ _ h
      exact ih r.v w (enveloped_set cfg v i datum r he h1) h2
    | delete i =>
      simp only [runProtoCalls] at h
      obtain ⟨r, h1, h2⟩ := bind_eq_ok _ _ _ h
      exact ih r.v w (enveloped_delete cfg v i r he h1) h2
    | fit =>
      simp only [runProtoCalls] at h
      obtain ⟨r, h1, h2⟩ := bind_eq_ok _ _ _ h
      exact ih r w (enveloped_fit v r he h1) h2

/-! ## The claims -/

/-- C1, text round trip, as the code behaves: for every text-kind container
whose elements hold no `V` (in particular none of the reserved markers),
`VectorSerialize` returns the encoded text and `VectordeSerialize` never
returns a container for that text: it reaches `serverAssert(0)` when the text
fits the 1024-byte buffer and overflows the buffer otherwise. The first
`strtok_r` call, with the delimiter `V`, takes everything after the leading `V`
as its token, so the call for the kind marker finds nothing left. -/
theorem text_round_trip_rejected (c : Config) (v : Vector) (es : List (List Char))
    (he : v.elems = es.map Datum.sds) (hn : es.length = v.count) (hs : v.count < 2147483648)
    (hV : ∀ e ∈ es, 'V' ∉ e) :
    ∃ r, VectorSerialize (specConfig c) v = .ok r ∧
      VectordeSerialize (specConfig c) r.ret =
        if (cstr r.ret).length + 1 > 1024 then .undefined else .assertFail := by
  refine ⟨_, VectorSerialize_eq (specConfig c) v es he hn hs, ?_⟩
  have := VectordeSerialize_rejects_encoded c v.type v.count es hV
  simpa [specConfig] using this

/-- C1 at the container `["2018", "Kim", "Yonsei"]`: the encoded text is
`V{T3:C3}:D:[2018|Kim|Yonsei]` and decoding it reaches `serverAssert(0)`. -/
theorem text_round_trip_rejected_witness :
    ∃ r, VectorSerialize sampleConfig kimVector = .ok r ∧
      r.ret = "V{T3:C3}:D:[2018|Kim|Yonsei]".toList ∧
      VectordeSerialize sampleConfig r.ret = .assertFail := by
  obtain ⟨r, hr, hd⟩ := text_round_trip_rejected
    ⟨4, 4, 0, 1, 2, 3, 1, 2, [], [], [], [], [], [], [], [], []⟩ kimVector
    ["2018".toList, "Kim".toList, "Yonsei".toList] (by decide) (by decide) (by decide) (by decide)
  have hr' : VectorSerialize sampleConfig kimVector
      = .ok ⟨"V{T3:C3}:D:[2018|Kim|Yonsei]".toList, kimVector, []⟩ := by decide
  have hrr : r = ⟨"V{T3:C3}:D:[2018|Kim|Yonsei]".toList, kimVector, []⟩ :=
    Outcome.ok.inj (hr.symm.trans hr')
  subst hrr
  exact ⟨_, hr', rfl, by decide⟩

/-- C2, encode format, refuted as stated: the container `bigVector` holds
`2 ^ 31` text elements, and `VectorSerialize` returns `V{T2:C-2147483648}:D:[]`
for it, the count having gone through `int v_count`: a negative count and no
element, not the text the claim describes. -/
theorem VectorSerialize_format_counterexample :
    bigVector.count = 2147483648 ∧
    bigVector.elems = (List.replicate 2147483648 ['a']).map Datum.sds ∧
    VectorSerialize sampleConfig bigVector
      = .ok ⟨"V{T2:C-2147483648}:D:[]".toList, bigVector, []⟩ ∧
    ¬ VectorSerialize sampleConfig bigVector
      = .ok ⟨['V', '{', 'T'] ++ sdsll2str bigVector.type ++ [':', 'C'] ++ sdsll2str 2147483648
          ++ ['}', ':', 'D', ':', '['] ++ List.intercalate ['|'] (List.replicate 2147483648 ['a'])
          ++ [']'], bigVector, []⟩ := by
  have h1 : VectorSerialize sampleConfig bigVector
      = .ok ⟨"V{T2:C-2147483648}:D:[]".toList, bigVector, []⟩ := rfl
  have h2 : bigVector.elems = (List.replicate 2147483648 ['a']).map Datum.sds := by
    show List.take 2147483648 (List.replicate 2147483648 (Datum.sds ['a'])) = _
    rw [List.map_replicate, List.take_replicate, Nat.min_self]
  exact ⟨rfl, h2, h1, fun h =>
    negative_count_text_ne (List.replicate 2147483648 ['a'])
      (congrArg Ret.ret (Outcome.ok.inj (h1.symm.trans h)))⟩

/-- C2, encode format, as amended: for every text-kind container with kind tag
`k` and fewer than `2 ^ 31` elements `e0 .. e(n-1)`, `VectorSerialize` returns
exactly `V{T<k>:C<n>}:D:[`, the elements in index order separated by one `|`
each (none after the last), and `]`, and leaves the container unchanged. -/
theorem VectorSerialize_format (c : Config) (v : Vector) (es : List (List Char))
    (he : v.elems = es.map Datum.sds) (hn : es.length = v.count) (hs : v.count < 2147483648) :
    VectorSerialize (specConfig c) v = .ok
      ⟨['V', '{', 'T'] ++ sdsll2str v.type ++ [':', 'C'] ++ sdsll2str (es.length : Int)
        ++ ['}', ':', 'D', ':', '['] ++ List.intercalate ['|'] es ++ [']'], v, []⟩ := by
  rw [VectorSerialize_eq (specConfig c) v es he hn hs, hn]
  simp [specConfig]

/-- C2 at the container `["2018", "Kim", "Yonsei"]` with kind tag 3: the text
is `V{T3:C3}:D:[2018|Kim|Yonsei]`. -/
theorem VectorSerialize_format_witness :
    VectorSerialize sampleConfig kimVector =
      .ok ⟨"V{T3:C3}:D:[2018|Kim|Yonsei]".toList, kimVector, []⟩ := by
  have h := VectorSerialize_format
    ⟨4, 4, 0, 1, 2, 3, 1, 2, [], [], [], [], [], [], [], [], []⟩ kimVector
    ["2018".toList, "Kim".toList, "Yonsei".toList] (by decide) (by decide) (by decide)
  exact h.trans (by decide)

/-- C3, single element, as the code behaves: for every text-kind container
holding exactly one element `e` without a `V`, `VectorSerialize` returns the
header followed by `[e]` with no delimiter, and `VectordeSerialize` never
returns a container for that text: it reaches `serverAssert(0)` before its
`vector_count == 1` branch (or overflows its buffer when the text is too long). -/
theorem single_element_rejected (c : Config) (v : Vector) (e : List Char)
    (he : v.elems = [Datum.sds e]) (hn : v.count = 1) (hV : 'V' ∉ e) :
    ∃ r, VectorSerialize (specConfig c) v = .ok r ∧
      r.ret = ['V', '{', 'T'] ++ sdsll2str v.type ++ [':', 'C', '1', '}', ':', 'D', ':', '[']
        ++ e ++ [']'] ∧
      VectordeSerialize (specConfig c) r.ret =
        if (cstr r.ret).length + 1 > 1024 then .undefined else .assertFail := by
  have hV' : ∀ x ∈ [e], 'V' ∉ x := by
    intro x hx; rw [List.mem_singleton] at hx; rw [hx]; exact hV
  refine ⟨_, VectorSerialize_eq (specConfig c) v [e] he (by simp [hn]) (by omega), ?_, ?_⟩
  · have h1 : sdsll2str ((v.count : Nat) : Int) = ['1'] := by rw [hn]; decide
    simp [specConfig, h1, List.intercalate]
  · have := VectordeSerialize_rejects_encoded c v.type v.count [e] hV'
    simpa [specConfig] using this

/-- C3 at the container `["solo"]` with kind tag 1: the encoded text is
`V{T1:C1}:D:[solo]` and decoding it reaches `serverAssert(0)`. -/
theorem single_element_rejected_witness :
    ∃ r, VectorSerialize sampleConfig soloVector = .ok r ∧
      r.ret = "V{T1:C1}:D:[solo]".toList ∧
      VectordeSerialize sampleConfig r.ret = .assertFail := by
  obtain ⟨r, hr, -, -⟩ := single_element_rejected
    ⟨4, 4, 0, 1, 2, 3, 1, 2, [], [], [], [], [], [], [], [], []⟩ soloVector "solo".toList
    (by decide) (by decide) (by decide)
  have hr' : VectorSerialize sampleConfig soloVector
      = .ok ⟨"V{T1:C1}:D:[solo]".toList, soloVector, []⟩ := by decide
  have hrr : r = ⟨"V{T1:C1}:D:[solo]".toList, soloVector, []⟩ :=
    Outcome.ok.inj (hr.symm.trans hr')
  subst hrr
  exact ⟨_, hr', rfl, by decide⟩

/-- C4, order-preserving deletion: for every container of a recognised kind
holding `[x0 .. x(n-1)]` (count within the capacity, backing array allocated)
and every index `i < n`, `vectorDelete` returns `C_OK`, the count becomes
`n - 1` and the live elements are those before, without the one at `i`, in the
same order. -/
theorem vectorDelete_order_preserving (cfg : Config) (v : Vector) (i : Nat)
    (hk : recognised cfg v.type) (ha : v.allocated) (hc : v.count ≤ v.size) (hi : i < v.count) :
    ∃ r, vectorDelete cfg v i = .ok r ∧ r.ret = C_OK ∧ vectorCount r.v = vectorCount v - 1 ∧
      r.v.elems = v.elems.eraseIdx i := by
  have hlen := slots_length_of_allocated v ha
  refine ⟨_, vectorDelete_eq cfg v i hk ha hc hi, rfl, rfl, ?_⟩
  simp only [Vector.elems]
  rw [take_eraseIdx_runs v.slots i v.count hi]
  simp only [Vector.slots, Option.getD_some]
  rw [List.take_append_of_le_length]
  · rw [List.take_of_length_le]
    simp [Vector.slots] at hlen ⊢
    omega
  · simp [Vector.slots] at hlen ⊢
    omega

/-- C4 at `[a, b, c, d, e]`: deleting index 2 leaves `[a, b, d, e]`, index 0
leaves `[b, c, d, e]`, and the last index leaves `[a, b, c, d]`. -/
theorem vectorDelete_order_preserving_witness :
    (∃ r, vectorDelete sampleConfig abcdeVector 2 = .ok r ∧ r.ret = C_OK ∧ vectorCount r.v = 4 ∧
      r.v.elems = [Datum.sds ['a'], Datum.sds ['b'], Datum.sds ['d'], Datum.sds ['e']]) ∧
    (∃ r, vectorDelete sampleConfig abcdeVector 0 = .ok r ∧ r.ret = C_OK ∧ vectorCount r.v = 4 ∧
      r.v.elems = [Datum.sds ['b'], Datum.sds ['c'], Datum.sds ['d'], Datum.sds ['e']]) ∧
    (∃ r, vectorDelete sampleConfig abcdeVector 4 = .ok r ∧ r.ret = C_OK ∧ vectorCount r.v = 4 ∧
      r.v.elems = [Datum.sds ['a'], Datum.sds ['b'], Datum.sds ['c'], Datum.sds ['d']]) :=
  ⟨vectorDelete_order_preserving sampleConfig abcdeVector 2
      (by decide) (by decide) (by decide) (by decide),
   vectorDelete_order_preserving sampleConfig abcdeVector 0
      (by decide) (by decide) (by decide) (by decide),
   vectorDelete_order_preserving sampleConfig abcdeVector 4
      (by decide) (by decide) (by decide) (by decide)⟩

/-- C5, order-preserving deletion on the proto vector: for every proto vector
holding the envelopes `[x0 .. x(n-1)]` (none of them `NULL`, count within the
allocated envelope array) and every index `i < n`, `protoVectorDelete` leaves
count `n - 1` and the live envelopes are those before without the one at `i`,
in the same order: the run `[0, i)` followed by the run `[i+1, n)`. -/
theorem protoVectorDelete_order_preserving (cfg : Config) (v : ProtoVector) (i : Nat)
    (ha : v.allocated) (hc : v.count ≤ v.n_values) (he : ∀ e ∈ v.elems, e ≠ none)
    (hi : i < v.count) :
    ∃ r, protoVectorDelete cfg v i = .ok r ∧ r.v.count = v.count - 1 ∧
      r.v.elems = v.elems.eraseIdx i ∧
      r.v.elems = v.slots.take i ++ (v.slots.drop (i + 1)).take (v.count - (i + 1)) := by
  have hlen := protoSlots_length v ha
  have hx : v.type = cfg.STL_TYPE__SDS → v.slots[i]? ≠ some none := by
    intro _ hn
    refine he none ?_ rfl
    rw [ProtoVector.elems, List.mem_iff_get?]
    exact ⟨i, by rw [List.get?_eq_getElem?, List.getElem?_take, if_pos hi, hn]⟩
  have hel : (⟨v.type, v.count - 1, v.n_values,
        some (v.slots.take i ++ (v.slots.drop (i + 1)).take (v.count - (i + 1))
              ++ List.replicate (v.n_values - (v.count - 1)) none)⟩ : ProtoVector).elems
      = v.slots.take i ++ (v.slots.drop (i + 1)).take (v.count - (i + 1)) := by
    simp only [ProtoVector.elems, ProtoVector.slots, Option.getD_some]
    rw [List.take_append_of_le_length]
    · rw [List.take_of_length_le]
      simp [ProtoVector.slots] at hlen ⊢
      omega
    · simp [ProtoVector.slots] at hlen ⊢
      omega
  refine ⟨_, protoVectorDelete_eq cfg v i ha hc hi hx, rfl, ?_, hel⟩
  rw [hel, ProtoVector.elems, take_eraseIdx_runs v.slots i v.count hi]

/-- C5 at the proto vector `[a, b, c, d, e]`: deleting index 2 leaves
`[a, b, d, e]`, index 0 leaves `[b, c, d, e]`, the last index leaves
`[a, b, c, d]`. -/
theorem protoVectorDelete_order_preserving_witness :
    (∃ r, protoVectorDelete sampleConfig abcdeProto 2 = .ok r ∧ r.v.count = 4 ∧
      r.v.elems = [sdsEntry ['a'], sdsEntry ['b'], sdsEntry ['d'], sdsEntry ['e']]) ∧
    (∃ r, protoVectorDelete sampleConfig abcdeProto 0 = .ok r ∧ r.v.count = 4 ∧
      r.v.elems = [sdsEntry ['b'], sdsEntry ['c'], sdsEntry ['d'], sdsEntry ['e']]) ∧
    (∃ r, protoVectorDelete sampleConfig abcdeProto 4 = .ok r ∧ r.v.count = 4 ∧
      r.v.elems = [sdsEntry ['a'], sdsEntry ['b'], sdsEntry ['c'], sdsEntry ['d']]) := by
  obtain ⟨r2, h2, c2, e2, -⟩ := protoVectorDelete_order_preserving sampleConfig abcdeProto 2
    (by decide) (by decide) (by decide) (by decide)
  obtain ⟨r0, h0, c0, e0, -⟩ := protoVectorDelete_order_preserving sampleConfig abcdeProto 0
    (by decide) (by decide) (by decide) (by decide)
  obtain ⟨r4, h4, c4, e4, -⟩ := protoVectorDelete_order_preserving sampleConfig abcdeProto 4
    (by decide) (by decide) (by decide) (by decide)
  exact ⟨⟨r2, h2, c2, e2⟩, ⟨r0, h0, c0, e0⟩, ⟨r4, h4, c4, e4⟩⟩

/-- C6, growth preserves contents: for every container of a recognised kind
with count within its capacity (capacity 0 and a full container included; the
backing array allocated, the grown array within what `zmalloc` can serve, the
increment `INIT_VECTOR_SIZE` positive) and every value `x`, `vectorAdd` returns
`C_OK`, the count becomes `n + 1`, `vectorGet` returns the same value as before
at every index below `n`, and `x` at index `n`. -/
theorem vectorAdd_preserves (cfg : Config) (v : Vector) (x : Datum)
    (hk : recognised cfg v.type) (ha : v.allocated) (hc : v.count ≤ v.size)
    (hinit : 0 < cfg.INIT_VECTOR_SIZE)
    (hfit : 8 * (v.size + cfg.INIT_VECTOR_SIZE) ≤ 9223372036854775807) :
    ∃ r, vectorAdd cfg v x = .ok r ∧ r.ret = C_OK ∧ vectorCount r.v = vectorCount v + 1 ∧
      (∀ i, i < vectorCount v → (vectorGet r.v i).ret = (vectorGet v i).ret) ∧
      (vectorGet r.v (vectorCount v)).ret = x := by
  obtain ⟨r, hr, hret, -, hcnt, -, -, hel, -⟩ := vectorAdd_spec cfg v x hk ha hc hinit hfit
  have hlen : v.elems.length = v.count := by
    simp only [Vector.elems, List.length_take, slots_length_of_allocated v ha]
    omega
  refine ⟨r, hr, hret, hcnt, ?_, ?_⟩
  · intro i hi
    simp only [vectorCount] at hi
    rw [vectorGet_of_lt r.v i (by omega), vectorGet_of_lt v i hi, hel]
    simp only [List.getD_eq_getElem?_getD]
    rw [List.getElem?_append_left (by omega)]
  · simp only [vectorCount]
    rw [vectorGet_of_lt r.v v.count (by omega), hel]
    simp only [List.getD_eq_getElem?_getD]
    rw [List.getElem?_append_right (by omega)]
    simp [hlen]

/-- C6 at a container of capacity 0, at a full container `[a, b]` and at
`[a, b, c, d, e]` with room left: the appended `x` is read back at the old
count and the old elements are read back unchanged. -/
theorem vectorAdd_preserves_witness :
    (∃ r, vectorAdd sampleConfig (vectorTypeInit sampleConfig 2) (Datum.sds ['x']) = .ok r ∧
      r.ret = C_OK ∧ vectorCount r.v = 1 ∧ (vectorGet r.v 0).ret = Datum.sds ['x']) ∧
    (∃ r, vectorAdd sampleConfig fullVector (Datum.sds ['x']) = .ok r ∧
      r.ret = C_OK ∧ vectorCount r.v = 3 ∧
      (∀ i, i < 2 → (vectorGet r.v i).ret = (vectorGet fullVector i).ret) ∧
      (vectorGet r.v 2).ret = Datum.sds ['x']) ∧
    (∃ r, vectorAdd sampleConfig abcdeVector (Datum.sds ['x']) = .ok r ∧
      r.ret = C_OK ∧ vectorCount r.v = 6 ∧
      (∀ i, i < 5 → (vectorGet r.v i).ret = (vectorGet abcdeVector i).ret) ∧
      (vectorGet r.v 5).ret = Datum.sds ['x']) := by
  obtain ⟨r0, h0, o0, c0, -, g0⟩ := vectorAdd_preserves sampleConfig
    (vectorTypeInit sampleConfig 2) (Datum.sds ['x'])
    (by decide) (by decide) (by decide) (by decide) (by decide)
  exact ⟨⟨r0, h0, o0, c0, g0⟩,
    vectorAdd_preserves sampleConfig fullVector (Datum.sds ['x'])
      (by decide) (by decide) (by decide) (by decide) (by decide),
    vectorAdd_preserves sampleConfig abcdeVector (Datum.sds ['x'])
      (by decide) (by decide) (by decide) (by decide) (by decide)⟩

/-- C7, length accounting: on a freshly created empty container of a
recognised kind (from `vectorCreate`, or from `vectorTypeInit` without backing
storage), every finite sequence of `vectorAdd` and `vectorDelete` calls, with
arbitrary values and indices, runs to its end and leaves `vectorCount` equal to
the number of `vectorAdd` calls that returned `C_OK` minus the number of
`vectorDelete` calls that returned `C_OK` (the increment `INIT_VECTOR_SIZE`
positive, and the capacity the sequence can reach within what `zmalloc` can
serve). -/
theorem length_accounting (cfg : Config) (type : Int) (size : Nat) (v0 : Vector)
    (calls : List Call)
    (hk : recognised cfg type)
    (hv : vectorCreate cfg type size = .ok v0 ∨ v0 = vectorTypeInit cfg type)
    (hinit : 0 < cfg.INIT_VECTOR_SIZE)
    (hfit : 8 * (size + calls.length * cfg.INIT_VECTOR_SIZE) ≤ 9223372036854775807) :
    vectorCount v0 = 0 ∧
    ∃ t, runCalls cfg calls ⟨v0, 0, 0⟩ = .ok t ∧ (vectorCount t.v : Int) = t.adds - t.deletes := by
  have key : vectorCount v0 = 0 ∧ recognised cfg v0.type ∧ v0.allocated ∧ v0.count ≤ v0.size ∧
      v0.size ≤ size := by
    rcases hv with hv | hv
    · rw [vectorCreate_fresh cfg type size hk (by omega)] at hv
      injection hv with hv
      subst hv
      exact ⟨rfl, hk, ⟨by simp, by simp only; omega⟩, by simp, le_refl _⟩
    · subst hv
      exact ⟨rfl, hk, ⟨rfl, by simp [vectorTypeInit, vectorInit]⟩, le_refl _, Nat.zero_le _⟩
  obtain ⟨h0, hk0, ha0, hc0, hs0⟩ := key
  obtain ⟨t, ht, hacc⟩ := runCalls_accounting cfg hinit calls ⟨v0, 0, 0⟩ hk0 ha0 hc0
    (by simp only; omega)
  refine ⟨h0, t, ht, ?_⟩
  simp only [vectorCount] at h0 ⊢
  simp only [h0] at hacc
  omega

/-- C7 at the sequence add, add, delete 5 (out of bounds), delete 0, add on a
container from `vectorCreate` with capacity 1: three adds and one delete
return `C_OK`, and the count is 2. -/
theorem length_accounting_witness :
    ∃ t, runCalls sampleConfig
        [Call.add (Datum.sds ['a']), Call.add (Datum.sds ['b']), Call.delete 5, Call.delete 0,
         Call.add (Datum.sds ['c'])]
        ⟨⟨2, some [Datum.uninit], 1, 0⟩, 0, 0⟩ = .ok t ∧
      t.adds = 3 ∧ t.deletes = 1 ∧ (vectorCount t.v : Int) = t.adds - t.deletes := by
  obtain ⟨-, t, ht, hacc⟩ := length_accounting sampleConfig 2 1 ⟨2, some [Datum.uninit], 1, 0⟩
    [Call.add (Datum.sds ['a']), Call.add (Datum.sds ['b']), Call.delete 5, Call.delete 0,
     Call.add (Datum.sds ['c'])]
    (by decide) (Or.inl (by decide)) (by decide) (by decide)
  have ht' : runCalls sampleConfig
      [Call.add (Datum.sds ['a']), Call.add (Datum.sds ['b']), Call.delete 5, Call.delete 0,
       Call.add (Datum.sds ['c'])]
      ⟨⟨2, some [Datum.uninit], 1, 0⟩, 0, 0⟩
      = .ok ⟨⟨2, some [Datum.sds ['b'], Datum.sds ['c'], Datum.uninit, Datum.uninit,
                      Datum.uninit], 5, 2⟩, 3, 1⟩ := by decide
  have htt := Outcome.ok.inj (ht.symm.trans ht')
  subst htt
  exact ⟨_, ht', rfl, rfl, hacc⟩

/-- C8, capacity invariant, at the input where the code breaks it: on a fresh
empty container, which has count 0 within capacity 0, `vectorPop` returns
`NULL` and leaves count `2 ^ 64 - 1` with capacity 0 (`v->count--` is not
guarded), so the count exceeds the capacity after the call. -/
theorem vectorPop_empty_exceeds_capacity (cfg : Config) (type : Int) :
    (vectorTypeInit cfg type).count ≤ (vectorTypeInit cfg type).size ∧
    (vectorPop cfg (vectorTypeInit cfg type)).ret = Datum.null ∧
    (vectorPop cfg (vectorTypeInit cfg type)).v.count = 18446744073709551615 ∧
    (vectorPop cfg (vectorTypeInit cfg type)).v.size = 0 ∧
    ¬ (vectorPop cfg (vectorTypeInit cfg type)).v.count
        ≤ (vectorPop cfg (vectorTypeInit cfg type)).v.size := by
  have h : vectorPop cfg (vectorTypeInit cfg type)
      = ⟨Datum.null, ⟨type, none, 0, 18446744073709551615⟩, []⟩ := by
    simp [vectorPop, vectorTypeInit, vectorInit, vectorGet, vectorSet]
  rw [h]
  simp [vectorTypeInit, vectorInit]

/-- C9, out of bounds is a recoverable error: at every index `i` at or beyond
the count, `vectorGet` and `vectorUnlink` return `NULL`, `vectorSet` and
`vectorDelete` return `C_ERR`, `protoVectorGet` returns `NULL`,
`protoVectorSet` and `protoVectorDelete` return `C_ERR`; each call returns
whatever the backing storage is (absent storage included, so no slot is read)
and leaves the struct exactly as it was, with nothing released. -/
theorem out_of_bounds_recoverable (cfg : Config) (v : Vector) (p : ProtoVector) (i : Nat)
    (x : Datum) (hv : v.count ≤ i) (hp : p.count ≤ i) :
    vectorGet v i = ⟨Datum.null, v, []⟩ ∧
    vectorSet cfg v i x = ⟨C_ERR, v, []⟩ ∧
    vectorDelete cfg v i = .ok ⟨C_ERR, v, []⟩ ∧
    vectorUnlink cfg v i = .ok ⟨Datum.null, v, []⟩ ∧
    protoVectorGet cfg p i = .ok ⟨Datum.null, p⟩ ∧
    protoVectorSet cfg p i x = .ok ⟨C_ERR, p⟩ ∧
    protoVectorDelete cfg p i = .ok ⟨some C_ERR, p⟩ := by
  refine ⟨?_, ?_, ?_, ?_, ?_, ?_, ?_⟩
  · unfold vectorGet; rw [if_pos (by omega)]
  · unfold vectorSet; rw [if_pos (by omega)]
  · unfold vectorDelete; rw [if_pos (by omega)]
  · unfold vectorUnlink; rw [if_pos (by omega)]
  · unfold protoVectorGet; rw [if_pos (by omega)]
  · unfold protoVectorSet; rw [if_pos (by omega)]
  · unfold protoVectorDelete; rw [if_pos (by omega)]

/-- C9 at index 5 (the count) of `[a, b, c, d, e]`, for the vector and for the
proto vector. -/
theorem out_of_bounds_recoverable_witness :
    vectorGet abcdeVector 5 = ⟨Datum.null, abcdeVector, []⟩ ∧
    vectorSet sampleConfig abcdeVector 5 (Datum.sds ['x']) = ⟨C_ERR, abcdeVector, []⟩ ∧
    vectorDelete sampleConfig abcdeVector 5 = .ok ⟨C_ERR, abcdeVector, []⟩ ∧
    vectorUnlink sampleConfig abcdeVector 5 = .ok ⟨Datum.null, abcdeVector, []⟩ ∧
    protoVectorGet sampleConfig abcdeProto 5 = .ok ⟨Datum.null, abcdeProto⟩ ∧
    protoVectorSet sampleConfig abcdeProto 5 (Datum.sds ['x']) = .ok ⟨C_ERR, abcdeProto⟩ ∧
    protoVectorDelete sampleConfig abcdeProto 5 = .ok ⟨some C_ERR, abcdeProto⟩ :=
  out_of_bounds_recoverable sampleConfig abcdeVector abcdeProto 5 (Datum.sds ['x'])
    (by decide) (by decide)

/-- C10, no partial success, as the code behaves for the two append functions:
whenever `vectorAdd` (on a container with count within capacity) or
`protoVectorAdd` returns, whatever it returns, the count has been incremented
(modulo `2 ^ 64`) and differs from the count before the call; a call that
returns `C_ERR` therefore does not leave the container as it was. -/
theorem add_always_moves_count (cfg : Config) (v : Vector) (p : ProtoVector) (x y : Datum)
    (r : Ret Int) (q : PRet Int) (hc : v.count ≤ v.size)
    (hr : vectorAdd cfg v x = .ok r) (hq : protoVectorAdd cfg p y = .ok q) :
    r.v.count = (v.count + 1) % SIZE_MOD ∧ q.v.count = (p.count + 1) % SIZE_MOD ∧
    r.v.count ≠ v.count ∧ q.v.count ≠ p.count := by
  have h1 := vectorAdd_count cfg v x r hc hr
  have h2 := protoVectorAdd_count cfg p y q hq
  refine ⟨h1, h2, ?_, ?_⟩
  · rw [h1]; simp only [SIZE_MOD]; omega
  · rw [h2]; simp only [SIZE_MOD]; omega

/-- C10 at a container of an unrecognised kind with room left, and at the empty
text-kind proto vector from `protoVectorTypeInit` given a datum that is not
text: both calls return `C_ERR` and leave count 1 where it was 0 (the proto
vector has also grown its envelope array and installed an envelope). -/
theorem add_always_moves_count_witness :
    vectorAdd sampleConfig oddKindVector (Datum.sds ['x'])
      = .ok ⟨C_ERR, ⟨9, some (List.replicate 4 Datum.uninit), 4, 1⟩, []⟩ ∧
    protoVectorTypeInit sampleConfig 2 = .ok emptySdsProto ∧
    protoVectorAdd sampleConfig emptySdsProto Datum.null
      = .ok ⟨C_ERR, ⟨2, 1, 4, some [some ⟨ValueCase.SDS, 0, none⟩, none, none, none]⟩⟩ ∧
    (1 : Nat) ≠ oddKindVector.count ∧ (1 : Nat) ≠ emptySdsProto.count := by
  have h1 : vectorAdd sampleConfig oddKindVector (Datum.sds ['x'])
      = .ok ⟨C_ERR, ⟨9, some (List.replicate 4 Datum.uninit), 4, 1⟩, []⟩ := by decide
  have h2 : protoVectorAdd sampleConfig emptySdsProto Datum.null
      = .ok ⟨C_ERR, ⟨2, 1, 4, some [some ⟨ValueCase.SDS, 0, none⟩, none, none, none]⟩⟩ := by
    decide
  have h := add_always_moves_count sampleConfig oddKindVector emptySdsProto
    (Datum.sds ['x']) Datum.null _ _ (by decide) h1 h2
  exact ⟨h1, by decide, h2, h.2.2.1, h.2.2.2⟩

/-- C12, set overwrites exactly one slot: for every container of a recognised
kind with count `n` (within the capacity, backing array allocated), every index
`i < n` and every value `x`, `vectorSet` returns `C_OK`; afterwards `vectorGet`
returns `x` at `i` and what it returned before at every other index below `n`,
count and capacity are unchanged, and nothing is released. -/
theorem vectorSet_frame (cfg : Config) (v : Vector) (i : Nat) (x : Datum)
    (hk : recognised cfg v.type) (ha : v.allocated) (hc : v.count ≤ v.size) (hi : i < v.count) :
    (vectorSet cfg v i x).ret = C_OK ∧
    (vectorGet (vectorSet cfg v i x).v i).ret = x ∧
    (∀ j, j ≠ i → j < vectorCount v →
      (vectorGet (vectorSet cfg v i x).v j).ret = (vectorGet v j).ret) ∧
    vectorCount (vectorSet cfg v i x).v = vectorCount v ∧
    (vectorSet cfg v i x).v.size = v.size ∧
    (vectorSet cfg v i x).released = [] := by
  have hlen := slots_length_of_allocated v ha
  have hd := data_ne_none_of_pos v ha (by omega)
  rw [vectorSet_recognised cfg v i x hk hi]
  refine ⟨rfl, ?_, ?_, rfl, rfl, rfl⟩
  · rw [vectorGet_after_write v i i v.count x hd hi]
    simp only [List.getD_eq_getElem?_getD]
    rw [List.getElem?_set_self (by omega)]
    rfl
  · intro j hji hj
    rw [vectorGet_after_write v i j v.count x hd hj, vectorGet_ret_of_lt v j hj]
    simp only [List.getD_eq_getElem?_getD]
    rw [List.getElem?_set_ne (by omega)]

/-- C12 at `[a, b, c, d, e]`, index 2 and value `x`. -/
theorem vectorSet_frame_witness :
    (vectorSet sampleConfig abcdeVector 2 (Datum.sds ['x'])).ret = C_OK ∧
    (vectorGet (vectorSet sampleConfig abcdeVector 2 (Datum.sds ['x'])).v 2).ret
      = Datum.sds ['x'] ∧
    (∀ j, j ≠ 2 → j < 5 →
      (vectorGet (vectorSet sampleConfig abcdeVector 2 (Datum.sds ['x'])).v j).ret
        = (vectorGet abcdeVector j).ret) ∧
    vectorCount (vectorSet sampleConfig abcdeVector 2 (Datum.sds ['x'])).v = 5 ∧
    (vectorSet sampleConfig abcdeVector 2 (Datum.sds ['x'])).v.size = 8 ∧
    (vectorSet sampleConfig abcdeVector 2 (Datum.sds ['x'])).released = [] :=
  vectorSet_frame sampleConfig abcdeVector 2 (Datum.sds ['x'])
    (by decide) (by decide) (by decide) (by decide)

/-- C14, pop removes the tail: for every container of a recognised kind holding
`[x0 .. x(n-1)]` with `n >= 1` (count within the capacity, backing array
allocated), `vectorPop` returns `x(n-1)`; afterwards the count is `n - 1`, the
capacity and the backing array are the ones before (nothing is allocated or
released), and `vectorGet` returns what it returned before at every index
below `n - 1`. -/
theorem vectorPop_tail (cfg : Config) (v : Vector)
    (hk : recognised cfg v.type) (ha : v.allocated) (hc : v.count ≤ v.size) (hn : 1 ≤ v.count) :
    (vectorPop cfg v).ret = (vectorGet v (vectorCount v - 1)).ret ∧
    v.elems.getLast? = some (vectorPop cfg v).ret ∧
    vectorCount (vectorPop cfg v).v = vectorCount v - 1 ∧
    (vectorPop cfg v).v.size = v.size ∧
    (vectorPop cfg v).v.slots.length = v.slots.length ∧
    (vectorPop cfg v).released = [] ∧
    (∀ i, i < vectorCount v - 1 →
      (vectorGet (vectorPop cfg v).v i).ret = (vectorGet v i).ret) := by
  have hlen := slots_length_of_allocated v ha
  have hd := data_ne_none_of_pos v ha (by omega)
  rw [vectorPop_eq cfg v hk ha hc hn]
  have hel : v.elems.length = v.count := by
    simp only [Vector.elems, List.length_take]; omega
  refine ⟨?_, ?_, rfl, rfl, ?_, rfl, ?_⟩
  · exact (vectorGet_ret_of_lt v (v.count - 1) (by omega)).symm
  · rw [List.getLast?_eq_getElem?, hel]
    simp only [Vector.elems, List.getElem?_take, List.getD_eq_getElem?_getD]
    rw [if_pos (by omega), List.getElem?_eq_getElem (by omega)]
    rfl
  · cases h : v.data with
    | none => exact absurd h hd
    | some l => simp [Vector.slots, writeSlot, h]
  · intro i hi
    simp only [vectorCount] at hi
    rw [vectorGet_after_write v (v.count - 1) i (v.count - 1) Datum.null hd hi,
      vectorGet_ret_of_lt v i (by omega)]
    simp only [List.getD_eq_getElem?_getD]
    rw [List.getElem?_set_ne (by omega)]

/-- C14 at `[a, b, c, d, e]`: `vectorPop` returns `e` and leaves count 4 with
capacity 8. -/
theorem vectorPop_tail_witness :
    (vectorPop sampleConfig abcdeVector).ret = Datum.sds ['e'] ∧
    vectorCount (vectorPop sampleConfig abcdeVector).v = 4 ∧
    (vectorPop sampleConfig abcdeVector).v.size = 8 ∧
    (∀ i, i < 4 →
      (vectorGet (vectorPop sampleConfig abcdeVector).v i).ret = (vectorGet abcdeVector i).ret) := by
  obtain ⟨-, h2, h3, h4, -, -, h7⟩ := vectorPop_tail sampleConfig abcdeVector
    (by decide) (by decide) (by decide) (by decide)
  exact ⟨by decide, h3, h4, h7⟩

/-- C13, unlink transfers the element: for every container of a recognised kind
holding `[x0 .. x(n-1)]` (count within the capacity, backing array allocated)
and every index `i < n`, `vectorUnlink` returns `xi` and leaves the struct
that `vectorDelete` leaves at the same index, with count `n - 1` and the live
elements `[x0 .. x(i-1), x(i+1) .. x(n-1)]`; it releases the old backing array
and no element. -/
theorem vectorUnlink_transfers (cfg : Config) (v : Vector) (i : Nat)
    (hk : recognised cfg v.type) (ha : v.allocated) (hc : v.count ≤ v.size) (hi : i < v.count) :
    ∃ r d, vectorUnlink cfg v i = .ok r ∧ vectorDelete cfg v i = .ok d ∧
      r.ret = (vectorGet v i).ret ∧ v.elems[i]? = some r.ret ∧ r.v = d.v ∧
      vectorCount r.v = vectorCount v - 1 ∧ r.v.elems = v.elems.eraseIdx i ∧
      r.released = [Release.storage v.slots] := by
  have hlen := slots_length_of_allocated v ha
  refine ⟨_, _, vectorUnlink_eq cfg v i hk ha hc hi, vectorDelete_eq cfg v i hk ha hc hi,
    ?_, ?_, rfl, rfl, ?_, rfl⟩
  · unfold vectorGet; rw [if_neg (by omega)]
  · simp only [Vector.elems, List.getElem?_take, readSlot, List.getD_eq_getElem?_getD]
    rw [if_pos hi, List.getElem?_eq_getElem (by omega)]
    rfl
  · simp only [Vector.elems]
    rw [take_eraseIdx_runs v.slots i v.count hi]
    simp only [Vector.slots, Option.getD_some]
    rw [List.take_append_of_le_length]
    · rw [List.take_of_length_le]
      simp [Vector.slots] at hlen ⊢
      omega
    · simp [Vector.slots] at hlen ⊢
      omega

/-- C13 at `[a, b, c, d, e]` and index 2: `vectorUnlink` returns `c` and leaves
`[a, b, d, e]`, as `vectorDelete` does, releasing the old array only. -/
theorem vectorUnlink_transfers_witness :
    ∃ r d, vectorUnlink sampleConfig abcdeVector 2 = .ok r ∧
      vectorDelete sampleConfig abcdeVector 2 = .ok d ∧
      r.ret = Datum.sds ['c'] ∧ r.v = d.v ∧ vectorCount r.v = 4 ∧
      r.v.elems = [Datum.sds ['a'], Datum.sds ['b'], Datum.sds ['d'], Datum.sds ['e']] ∧
      r.released = [Release.storage abcdeVector.slots] := by
  obtain ⟨r, d, h1, h2, h3, -, h5, h6, h7, h8⟩ := vectorUnlink_transfers sampleConfig abcdeVector 2
    (by decide) (by decide) (by decide) (by decide)
  exact ⟨r, d, h1, h2, h3, h5, h6, h7, h8⟩

/-- C19, deep free releases each element once: for a container whose backing
storage `l` is not `NULL` and whose count `n` is within `l` (the kind codes
being distinct), `vectorFreeDeep` on the text kind returns `C_OK`, leaves count 0
and capacity 0 with the storage pointer cleared, and its release log is
`sdsfree x0, ..., sdsfree x(n-1)` followed by one release of the backing storage
(`n + 1` entries, the entry at index `i < n` being the release of `xi`); on the
integer kind the log is the one release of the backing storage; and
`vectorFree` releases the backing storage only. -/
theorem vectorFreeDeep_releases_once (cfg : Config) (v : Vector) (l : List Datum)
    (hd : v.data = some l) (hc : v.count ≤ l.length)
    (hsd : cfg.STL_TYPE_SDS ≠ cfg.STL_TYPE_DEFAULT)
    (hld : cfg.STL_TYPE_LONG ≠ cfg.STL_TYPE_DEFAULT)
    (hls : cfg.STL_TYPE_LONG ≠ cfg.STL_TYPE_SDS)
    (hlr : cfg.STL_TYPE_LONG ≠ cfg.STL_TYPE_ROBJ) :
    (v.type = cfg.STL_TYPE_SDS →
      vectorFreeDeep cfg v
        = ⟨C_OK, ⟨v.type, none, 0, 0⟩, v.elems.map Release.sdsfree ++ [Release.storage l]⟩ ∧
      (vectorFreeDeep cfg v).released.length = v.count + 1 ∧
      ∀ i, i < v.count →
        (vectorFreeDeep cfg v).released[i]? = some (Release.sdsfree (vectorGet v i).ret)) ∧
    (v.type = cfg.STL_TYPE_LONG →
      vectorFreeDeep cfg v = ⟨C_OK, ⟨v.type, none, 0, 0⟩, [Release.storage l]⟩) ∧
    vectorFree v = ⟨C_OK, ⟨v.type, none, 0, 0⟩, [Release.storage l]⟩ := by
  have hsl : v.slots = l := by simp [Vector.slots, hd]
  have hfree : vectorFree v = ⟨C_OK, ⟨v.type, none, 0, 0⟩, [Release.storage l]⟩ := by
    unfold vectorFree; rw [hd]
  refine ⟨fun ht => ?_, fun ht => ?_, hfree⟩
  · have hdeep : vectorFreeDeep cfg v
        = ⟨C_OK, ⟨v.type, none, 0, 0⟩, v.elems.map Release.sdsfree ++ [Release.storage l]⟩ := by
      unfold vectorFreeDeep
      rw [hd]
      simp only [hfree]
      rw [vectorFreeDeepLoop_sds cfg v ht hsd v.count 0 [] (by omega) (by rw [hsl]; exact hc)]
      simp [Vector.elems]
    refine ⟨hdeep, ?_, ?_⟩
    · rw [hdeep]
      simp only [List.length_append, List.length_map, Vector.elems, List.length_take, hsl,
        List.length_singleton]
      omega
    · intro i hi
      rw [hdeep, vectorGet_ret_of_lt v i hi]
      simp only [Vector.elems, hsl]
      rw [List.getElem?_append_left (by simp; omega)]
      simp only [List.getElem?_map, List.getElem?_take, if_pos hi, List.getD_eq_getElem?_getD]
      rw [List.getElem?_eq_getElem (by omega)]
      rfl
  · unfold vectorFreeDeep
    rw [hd]
    simp only [hfree]
    rw [vectorFreeDeepLoop_long cfg v (by rw [ht]; exact hld) (by rw [ht]; exact hls)
      (by rw [ht]; exact hlr)]
    rfl

/-- C19 at the text container `[a, b, c, d, e]` (five element releases in index
order, then the storage) and at the integer container `[7, 8]` (the storage
only). -/
theorem vectorFreeDeep_releases_once_witness :
    (vectorFreeDeep sampleConfig abcdeVector
      = ⟨C_OK, ⟨2, none, 0, 0⟩,
         [Release.sdsfree (Datum.sds ['a']), Release.sdsfree (Datum.sds ['b']),
          Release.sdsfree (Datum.sds ['c']), Release.sdsfree (Datum.sds ['d']),
          Release.sdsfree (Datum.sds ['e']), Release.storage abcdeVector.slots]⟩) ∧
    (vectorFreeDeep sampleConfig longVector
      = ⟨C_OK, ⟨1, none, 0, 0⟩, [Release.storage [Datum.long 7, Datum.long 8]]⟩) ∧
    (vectorFree abcdeVector = ⟨C_OK, ⟨2, none, 0, 0⟩, [Release.storage abcdeVector.slots]⟩) :=
  ⟨((vectorFreeDeep_releases_once sampleConfig abcdeVector abcdeVector.slots rfl (by decide)
      (by decide) (by decide) (by decide) (by decide)).1 rfl).1,
   (vectorFreeDeep_releases_once sampleConfig longVector [Datum.long 7, Datum.long 8] rfl
      (by decide) (by decide) (by decide) (by decide) (by decide)).2.1 rfl,
   (vectorFreeDeep_releases_once sampleConfig abcdeVector abcdeVector.slots rfl (by decide)
      (by decide) (by decide) (by decide) (by decide)).2.2⟩

/-- C20, fixed-increment growth: for every container of a recognised kind with
count within the capacity (backing array allocated, `INIT_VECTOR_SIZE`
positive, the grown array within `PTRDIFF_MAX` bytes), `vectorAdd` returns and
the capacity after it is `INIT_VECTOR_SIZE` if it was 0, the old capacity plus
`INIT_VECTOR_SIZE` if the container was full, and the old capacity otherwise;
the capacity after the call is at least the new count, and the step is
additive: it never exceeds the one constant `INIT_VECTOR_SIZE`, whatever the
old capacity is. -/
theorem vectorAdd_growth (cfg : Config) (v : Vector) (x : Datum)
    (hk : recognised cfg v.type) (ha : v.allocated) (hc : v.count ≤ v.size)
    (hinit : 0 < cfg.INIT_VECTOR_SIZE)
    (hfit : 8 * (v.size + cfg.INIT_VECTOR_SIZE) ≤ 9223372036854775807) :
    ∃ r, vectorAdd cfg v x = .ok r ∧
      (v.size = 0 → r.v.size = cfg.INIT_VECTOR_SIZE) ∧
      (v.size ≠ 0 → v.count = v.size → r.v.size = v.size + cfg.INIT_VECTOR_SIZE) ∧
      (v.size ≠ 0 → v.count ≠ v.size → r.v.size = v.size) ∧
      vectorCount r.v = vectorCount v + 1 ∧ vectorCount r.v ≤ r.v.size ∧
      v.size ≤ r.v.size ∧ r.v.size ≤ v.size + cfg.INIT_VECTOR_SIZE := by
  obtain ⟨r, h, -, -, hcount, hle, -, -, hsz⟩ := vectorAdd_spec cfg v x hk ha hc hinit hfit
  refine ⟨r, h, ?_, ?_, ?_, hcount, hle, ?_, ?_⟩
  · intro h0; rw [hsz, if_pos h0]
  · intro h0 h1; rw [hsz, if_neg h0, if_pos h1.symm]
  · intro h0 h1; rw [hsz, if_neg h0, if_neg (fun e => h1 e.symm)]
  · rw [hsz]; split_ifs <;> omega
  · rw [hsz]; split_ifs <;> omega

/-- C20 at three containers of the text kind, the increment being 4: the empty
container of capacity 0 gets capacity 4, the full `[a, b]` of capacity 2 gets
capacity 6, and `[a, b, c, d, e]` of capacity 8 keeps capacity 8. -/
theorem vectorAdd_growth_witness :
    (∃ r, vectorAdd sampleConfig (vectorTypeInit sampleConfig 2) (Datum.sds ['f']) = .ok r ∧
      r.v.size = 4 ∧ vectorCount r.v = 1) ∧
    (∃ r, vectorAdd sampleConfig fullVector (Datum.sds ['f']) = .ok r ∧
      r.v.size = 6 ∧ vectorCount r.v = 3) ∧
    (∃ r, vectorAdd sampleConfig abcdeVector (Datum.sds ['f']) = .ok r ∧
      r.v.size = 8 ∧ vectorCount r.v = 6) := by
  obtain ⟨r0, g, g1, -, -, g4, -⟩ :=
    vectorAdd_growth sampleConfig (vectorTypeInit sampleConfig 2) (Datum.sds ['f'])
      (by decide) (by decide) (by decide) (by decide) (by decide)
  obtain ⟨r1, k, -, k2, -, k4, -⟩ := vectorAdd_growth sampleConfig fullVector (Datum.sds ['f'])
    (by decide) (by decide) (by decide) (by decide) (by decide)
  obtain ⟨r, h, -, -, h3, h4, -⟩ := vectorAdd_growth sampleConfig abcdeVector (Datum.sds ['f'])
    (by decide) (by decide) (by decide) (by decide) (by decide)
  exact ⟨⟨r0, g, g1 (by decide), g4⟩, ⟨r1, k, k2 (by decide) (by decide), k4⟩,
    ⟨r, h, h3 (by decide) (by decide), h4⟩⟩

/-- C17, the claim as worded fails: deleting index 2 of `[a, b, c, d, e]` held in
an array of 8 slots leaves count 4 and capacity 8, not 4, for the vector and
for the proto vector alike. -/
theorem delete_exact_size_counterexample :
    (∃ r, vectorDelete sampleConfig abcdeVector 2 = .ok r ∧ r.ret = C_OK ∧
      vectorCount abcdeVector = 5 ∧ vectorCount r.v = 4 ∧ r.v.size = 8 ∧
      r.v.size ≠ vectorCount abcdeVector - 1) ∧
    (∃ r, protoVectorDelete sampleConfig abcdeProto 2 = .ok r ∧
      abcdeProto.count = 5 ∧ r.v.count = 4 ∧ r.v.n_values = 8 ∧
      r.v.n_values ≠ abcdeProto.count - 1) :=
  ⟨⟨_, rfl, by decide, by decide, by decide, by decide, by decide⟩,
   ⟨_, rfl, by decide, by decide, by decide, by decide⟩⟩

/-- C17, amended: a successful delete leaves the capacity as it was. For every
container of a recognised kind with count `n` within the capacity (backing
array allocated) and every index `i < n`, `vectorDelete` returns `C_OK`, the
count becomes `n - 1`, and the new backing array has as many slots as the old
capacity, which stays the value of `size` and exceeds `n - 1`; for every proto
vector with count `n` within `n_values` (no `NULL` envelope at `j` for the text
kind) and every `j < n`, `protoVectorDelete` leaves count `n - 1`, and the new
envelope array has the old `n_values` slots, `n_values` being unchanged and
above `n - 1`. -/
theorem delete_capacity_unchanged (cfg : Config) (v : Vector) (i : Nat) (p : ProtoVector) (j : Nat)
    (hk : recognised cfg v.type) (ha : v.allocated) (hc : v.count ≤ v.size) (hi : i < v.count)
    (hpa : p.allocated) (hpc : p.count ≤ p.n_values) (hj : j < p.count)
    (hx : p.type = cfg.STL_TYPE__SDS → p.slots[j]? ≠ some none) :
    (∃ r, vectorDelete cfg v i = .ok r ∧ r.ret = C_OK ∧ vectorCount r.v = vectorCount v - 1 ∧
      r.v.size = v.size ∧ r.v.slots.length = v.size ∧ vectorCount v - 1 < r.v.size) ∧
    (∃ r, protoVectorDelete cfg p j = .ok r ∧ r.v.count = p.count - 1 ∧
      r.v.n_values = p.n_values ∧ r.v.slots.length = p.n_values ∧
      p.count - 1 < r.v.n_values) := by
  have hlen := slots_length_of_allocated v ha
  have hplen := protoSlots_length p hpa
  refine ⟨⟨_, vectorDelete_eq cfg v i hk ha hc hi, rfl, rfl, rfl, ?_, ?_⟩,
    ⟨_, protoVectorDelete_eq cfg p j hpa hpc hj hx, rfl, rfl, ?_, ?_⟩⟩
  · simp only [Vector.slots, Option.getD_some, List.length_append, List.length_take,
      List.length_drop, List.length_replicate] at hlen ⊢
    omega
  · simp only [vectorCount]; omega
  · simp only [ProtoVector.slots, Option.getD_some, List.length_append, List.length_take,
      List.length_drop, List.length_replicate] at hplen ⊢
    omega
  · simp only; omega

/-- C17, amended, at `[a, b, c, d, e]` in 8 slots, index 2 of the vector and
index 0 of the proto vector: count 4 and capacity 8 after each delete. -/
theorem delete_capacity_unchanged_witness :
    (∃ r, vectorDelete sampleConfig abcdeVector 2 = .ok r ∧ vectorCount r.v = 4 ∧
      r.v.size = 8 ∧ r.v.slots.length = 8) ∧
    (∃ r, protoVectorDelete sampleConfig abcdeProto 0 = .ok r ∧ r.v.count = 4 ∧
      r.v.n_values = 8 ∧ r.v.slots.length = 8) := by
  obtain ⟨⟨r, h1, -, h2, h3, h4, -⟩, ⟨q, g1, g2, g3, g4, -⟩⟩ :=
    delete_capacity_unchanged sampleConfig abcdeVector 2 abcdeProto 0
      (by decide) (by decide) (by decide) (by decide) (by decide) (by decide) (by decide)
      (by decide)
  exact ⟨⟨r, h1, h2, h3, h4⟩, ⟨q, g1, g2, g3, g4⟩⟩

/-- C18, the claim as worded fails: `hugeVector` is a text-kind container of
`2 ^ 31 + 1` elements `a`; the `int` index of `vectorToSds` reaches `INT_MAX`
before the last element and `++i` overflows, so the call has no defined
result. -/
theorem vectorToSds_counterexample :
    hugeVector.count = 2147483649 ∧
    hugeVector.elems = (List.replicate 2147483649 ['a']).map Datum.sds ∧
    vectorToSds hugeVector = .undefined :=
  ⟨rfl, replicate_elems 2 2147483649 ['a'],
   vectorToSds_overflow hugeVector (List.replicate 2147483649 ['a'])
     (replicate_elems 2 2147483649 ['a']) (List.length_replicate _ _)
     (by show 2147483648 < 2147483649; omega)
     (by show 2147483649 < 18446744073709551616; omega)⟩

/-- C18, amended: for every container of at most `2 ^ 31` elements whose live
elements are the texts `e0 .. e(n-1)`, `vectorToSds` returns `e0 .. e(n-1)`
concatenated in index order with exactly one space between consecutive
elements and none before the first or after the last, and leaves the container
unchanged, releasing nothing; the result is the empty string for an empty
container and `e0` itself for `[e0]`. -/
theorem vectorToSds_join (v : Vector) (es : List (List Char))
    (he : v.elems = es.map Datum.sds) (hn : es.length = v.count) (hs : v.count ≤ 2147483648) :
    vectorToSds v = .ok ⟨List.intercalate [' '] es, v, []⟩ ∧
    (es = [] → vectorToSds v = .ok ⟨[], v, []⟩) ∧
    (∀ e0, es = [e0] → vectorToSds v = .ok ⟨e0, v, []⟩) := by
  have hmain : vectorToSds v = .ok ⟨List.intercalate [' '] es, v, []⟩ := by
    unfold vectorToSds
    have h := vectorToSdsLoop_eq v hs es 0 [] (by omega) (by simpa using he)
    rw [hn] at h
    simp only [Nat.cast_zero, List.nil_append] at h
    rw [h]
    rfl
  refine ⟨hmain, ?_, ?_⟩
  · intro h; rw [hmain, h]; rfl
  · intro e0 h; rw [hmain, h]; simp [List.intercalate]

/-- C18, amended, at `["2018", "Kim", "Yonsei"]`: the result is
`2018 Kim Yonsei`. -/
theorem vectorToSds_join_witness :
    vectorToSds kimVector = .ok ⟨"2018 Kim Yonsei".toList, kimVector, []⟩ :=
  (vectorToSds_join kimVector ["2018".toList, "Kim".toList, "Yonsei".toList]
    (by decide) (by decide) (by decide)).1.trans (by decide)

/-- C11, malformed text that is not rejected: the text `aV2T3CxDy|z` has no
brace, no `[` and no `]` terminator, yet `VectordeSerialize` returns the
container `[x, y, z]` of kind 2 for it and `vectorDeserialize` returns `C_OK`
with the same container; the text `aV1Tx` has no count marker, no data prefix
and no terminator either, and both return an empty container of kind 1. -/
theorem malformed_text_accepted :
    VectordeSerialize sampleConfig "aV2T3CxDy|z".toList
      = .ok ⟨2, some [Datum.sds ['x'], Datum.sds ['y'], Datum.sds ['z']], 3, 3⟩ ∧
    vectorDeserialize sampleConfig (some "aV2T3CxDy|z".toList) 0
      = .ok ⟨C_OK, some ⟨2, some [Datum.sds ['x'], Datum.sds ['y'], Datum.sds ['z']], 3, 3⟩⟩ ∧
    '{' ∉ "aV2T3CxDy|z".toList ∧ '[' ∉ "aV2T3CxDy|z".toList ∧ ']' ∉ "aV2T3CxDy|z".toList ∧
    VectordeSerialize sampleConfig "aV1Tx".toList = .ok ⟨1, some [], 0, 0⟩ ∧
    vectorDeserialize sampleConfig (some "aV1Tx".toList) 0 = .ok ⟨C_OK, some ⟨1, some [], 0, 0⟩⟩ ∧
    'C' ∉ "aV1Tx".toList ∧ 'D' ∉ "aV1Tx".toList ∧ ']' ∉ "aV1Tx".toList := by
  refine ⟨by decide, by decide, by decide, by decide, by decide, by decide, by decide,
    by decide, by decide, by decide⟩

/-- C15, binary round trip: for every proto vector `c` whose envelope array is
allocated, whose count is within it and whose live envelopes are all present,
and every packed encoding that `unpack` inverts on the compacted `c` (its bytes
fitting the buffer), `protoVectorSerialize` returns a buffer, and
`protoVectorDeserialize` of that buffer returns `C_OK` with a container of the
same kind, the same count and the same envelopes in the same order as `c`. -/
theorem binary_round_trip (codec : ProtoCodec) (c : ProtoVector)
    (ha : c.allocated) (hc : c.count ≤ c.n_values) (hlive : ∀ e ∈ c.elems, e ≠ none)
    (hinv : codec.unpack (codec.pack ⟨c.type, c.count, c.count, some c.elems⟩)
      = some ⟨c.type, c.count, c.count, some c.elems⟩)
    (hfit : 8 + (codec.pack ⟨c.type, c.count, c.count, some c.elems⟩).length
      ≤ 9223372036854775807) :
    ∃ s d, protoVectorSerialize codec c = .ok s ∧
      protoVectorDeserialize codec s.ret = .ok ⟨C_OK, some d⟩ ∧
      d.type = c.type ∧ d.count = c.count ∧ d.elems = c.elems := by
  have hany : (c.elems.any fun e => e.isNone) = false := by
    rw [List.any_eq_false]
    intro e he
    cases e with
    | none => exact absurd rfl (hlive none he)
    | some x => simp
  have hb : (8 + (codec.pack ⟨c.type, c.count, c.count, some c.elems⟩).length) % SIZE_MOD
      = 8 + (codec.pack ⟨c.type, c.count, c.count, some c.elems⟩).length :=
    Nat.mod_eq_of_lt (by simp only [SIZE_MOD]; omega)
  have hser : protoVectorSerialize codec c
      = .ok ⟨le64 (codec.pack ⟨c.type, c.count, c.count, some c.elems⟩).length
              ++ codec.pack ⟨c.type, c.count, c.count, some c.elems⟩,
             ⟨c.type, c.count, c.count, some c.elems⟩⟩ := by
    unfold protoVectorSerialize
    rw [fit_of_allocated c ha hc]
    simp only [Outcome.bind, ProtoVector.slots, Option.getD_some, hany, hb, PTRDIFF_MAX]
    rw [if_neg (by simp), if_neg (by omega), if_neg (by omega)]
  refine ⟨_, ⟨c.type, c.count, c.count, some c.elems⟩, hser, ?_, rfl, rfl, ?_⟩
  · unfold protoVectorDeserialize
    simp only
    rw [readLe64_le64 _ (by omega)]
    rw [if_neg (by simp [le64_length]), if_neg (by simp [le64_length])]
    have hd : List.drop 8 (le64 (codec.pack ⟨c.type, c.count, c.count, some c.elems⟩).length
        ++ codec.pack ⟨c.type, c.count, c.count, some c.elems⟩)
        = codec.pack ⟨c.type, c.count, c.count, some c.elems⟩ :=
      List.drop_left' (le64_length _)
    rw [hd, List.take_length, hinv]
  · simp only [ProtoVector.elems, ProtoVector.slots, Option.getD_some, List.take_take,
      Nat.min_self]

/-- C15 at the integer container `[10, 20, 30]` held in four slots, with the
sample packed encoding: the decoded container is `[10, 20, 30]`. -/
theorem binary_round_trip_witness :
    ∃ s d, protoVectorSerialize sampleCodec tenTwentyThirty = .ok s ∧
      protoVectorDeserialize sampleCodec s.ret = .ok ⟨C_OK, some d⟩ ∧
      d.type = 1 ∧ d.count = 3 ∧ d.elems = [longEntry 10, longEntry 20, longEntry 30] :=
  binary_round_trip sampleCodec tenTwentyThirty (by decide) (by decide) (by decide)
    (by decide) (by decide)

/-- C16, truncated binary input is not refused: for every buffer shorter than
8 bytes plus the length stored in its first 8 bytes, `protoVectorDeserialize`
hands `proto_vector__unpack` a range that leaves the buffer, which is
undefined, and no call of `protoVectorDeserialize` that returns does so with
anything other than `C_OK`. -/
theorem truncated_input_not_refused (codec : ProtoCodec) (serialized : List Nat)
    (ht : serialized.length < 8 + readLe64 serialized) :
    protoVectorDeserialize codec serialized = .undefined ∧
    ∀ (other : List Nat) (r : PDRet),
      protoVectorDeserialize codec other = .ok r → r.ret = C_OK := by
  constructor
  · unfold protoVectorDeserialize
    by_cases h8 : serialized.length < 8
    · rw [if_pos h8]
    · rw [if_neg h8]
      simp only
      rw [if_pos ht]
  · intro other r h
    unfold protoVectorDeserialize at h
    by_cases h8 : other.length < 8
    · rw [if_pos h8] at h; cases h
    · rw [if_neg h8] at h
      simp only at h
      by_cases h9 : other.length < 8 + readLe64 other
      · rw [if_pos h9] at h; cases h
      · rw [if_neg h9] at h
        injection h with h
        rw [← h]

/-- C16 at the buffer of 8 bytes that announces 5 bytes of payload and holds
none. -/
theorem truncated_input_not_refused_witness :
    readLe64 [5, 0, 0, 0, 0, 0, 0, 0] = 5 ∧
    protoVectorDeserialize sampleCodec [5, 0, 0, 0, 0, 0, 0, 0] = .undefined :=
  ⟨by decide, (truncated_input_not_refused sampleCodec [5, 0, 0, 0, 0, 0, 0, 0] (by decide)).1⟩

/-- C22, the stack is last-in first-out: for every stack whose vector is of a
recognised kind with count within the capacity (backing array allocated,
`INIT_VECTOR_SIZE` positive, the grown arrays within `PTRDIFF_MAX` bytes) and
every value `x`, `stackPush` returns `C_OK`, the `stackPop` that follows returns
`x`, and after it `stackCount` and the element at every index below the
original count are what they were before the push; and pushing `x1 .. xk` (each
push returning `C_OK`) and then popping `k` times returns `xk, ..., x1` and
leaves the original count. -/
theorem stack_lifo (cfg : Config) (s : Stack) (x : Datum) (xs : List Datum)
    (hk : recognised cfg s.data.type) (ha : s.data.allocated) (hc : s.data.count ≤ s.data.size)
    (hinit : 0 < cfg.INIT_VECTOR_SIZE)
    (hfit : 8 * (s.data.size + (xs.length + 1) * cfg.INIT_VECTOR_SIZE) ≤ 9223372036854775807) :
    (∃ r, stackPush cfg s x = .ok r ∧ r.ret = C_OK ∧ stackCount r.s = stackCount s + 1 ∧
      (stackPop cfg r.s).ret = x ∧ stackCount (stackPop cfg r.s).s = stackCount s ∧
      ∀ i, i < stackCount s →
        (vectorGet (stackPop cfg r.s).s.data i).ret = (vectorGet s.data i).ret) ∧
    (∃ t, stackPushAll cfg xs s = .ok (List.replicate xs.length C_OK, t) ∧
      stackCount t = stackCount s + xs.length ∧
      (stackPopN cfg xs.length t).1 = xs.reverse ∧
      stackCount (stackPopN cfg xs.length t).2 = stackCount s) := by
  have hlen := elems_length s.data ha hc
  have hmul : (xs.length + 1) * cfg.INIT_VECTOR_SIZE
      = xs.length * cfg.INIT_VECTOR_SIZE + cfg.INIT_VECTOR_SIZE := Nat.succ_mul _ _
  rw [hmul] at hfit
  constructor
  · obtain ⟨r, h, hret, hty, hcount, hle, hal, hel, -⟩ :=
      vectorAdd_spec cfg s.data x hk ha hc hinit (by omega)
    obtain ⟨pret, -, pcount, -, -, pel, -⟩ :=
      vectorPop_spec cfg r.v (by rw [hty]; exact hk) hal hle (by omega)
    obtain ⟨q, hpush, hqret, hqdata⟩ :
        ∃ q, stackPush cfg s x = .ok q ∧ q.ret = r.ret ∧ q.s.data = r.v :=
      ⟨⟨r.ret, ⟨s.type, r.v⟩, r.released⟩, by simp only [stackPush, h, Outcome.bind], rfl, rfl⟩
    rw [hcount, Nat.add_sub_cancel] at pret pcount pel
    rw [hel] at pret pel
    rw [List.take_left' hlen] at pel
    refine ⟨q, hpush, hqret.trans hret, ?_, ?_, ?_, ?_⟩
    · rw [stackCount, stackCount, hqdata, hcount]
    · rw [stackPop_ret, hqdata, pret, List.getD_eq_getElem?_getD,
        List.getElem?_append_right (Nat.le_of_eq hlen), hlen, Nat.sub_self]
      rfl
    · rw [stackCount, stackCount, stackPop_data, hqdata, pcount]
    · intro i hi
      rw [stackCount] at hi
      rw [stackPop_data, hqdata, vectorGet_of_lt _ i (pcount.symm ▸ hi),
        vectorGet_of_lt s.data i hi, pel]
  · obtain ⟨t, ht, -, h2, h3, h4, h5, h6⟩ :=
      stackPushAll_spec cfg hinit xs s hk ha hc (by omega)
    obtain ⟨p1, -, p3⟩ := stackPopN_spec cfg xs.length t h2 h3 h4 (by omega)
    refine ⟨t, ht, h5, ?_, ?_⟩
    · rw [p1, h6, List.reverse_append, List.take_left' (List.length_reverse xs)]
    · rw [stackCount, stackCount, p3, h5, Nat.add_sub_cancel]
/-- C22 at the full text stack `[a, b]`: pushing `c` grows the array, the pop
that follows returns `c` and leaves count 2; pushing `c, d, e` and popping three
times returns `e, d, c`. -/
theorem stack_lifo_witness :
    (∃ r, stackPush sampleConfig abStack (Datum.sds ['c']) = .ok r ∧ r.ret = C_OK ∧
      stackCount r.s = 3 ∧ (stackPop sampleConfig r.s).ret = Datum.sds ['c'] ∧
      stackCount (stackPop sampleConfig r.s).s = 2) ∧
    (∃ t, stackPushAll sampleConfig [Datum.sds ['c'], Datum.sds ['d'], Datum.sds ['e']] abStack
        = .ok ([C_OK, C_OK, C_OK], t) ∧
      (stackPopN sampleConfig 3 t).1 = [Datum.sds ['e'], Datum.sds ['d'], Datum.sds ['c']]) := by
  obtain ⟨⟨r, h1, h2, h3, h4, h5, -⟩, ⟨t, g1, -, g3, -⟩⟩ :=
    stack_lifo sampleConfig abStack (Datum.sds ['c'])
      [Datum.sds ['c'], Datum.sds ['d'], Datum.sds ['e']]
      (by decide) (by decide) (by decide) (by decide) (by decide)
  exact ⟨⟨r, h1, h2, h3, h4, h5⟩, ⟨t, g1, g3⟩⟩

/-- C21, append, set and get on the proto vector: for every proto vector of the
integer or text kind with count `n` within an allocated envelope array, whose
slots below `n` hold envelopes, and every valid value `x` of its kind (the
growth increments positive, the grown array within `PTRDIFF_MAX` bytes),
`protoVectorAdd` returns `C_OK`, the count becomes `n + 1`, `protoVectorGet` at
`n` yields `x` and at every `i < n` what it yielded before, whether or not the
array grows; and for every `i < n` and valid `y`, `protoVectorSet` at `i`
returns `C_OK`, after which `protoVectorGet` at `i` yields `y`, the count is
`n` and `protoVectorGet` at every other index below `n` yields what it did. -/
theorem protoVector_add_set_get (cfg : Config) (v : ProtoVector) (x y : Datum)
    (ha : v.allocated) (hc : v.count ≤ v.n_values)
    (hlive : (v.elems.all fun e => e.isSome) = true)
    (hx : validDatum cfg v.type x = true) (hy : validDatum cfg v.type y = true)
    (hp : 0 < cfg.INIT_PROTO_VECTOR_SIZE) (hv : 0 < cfg.INIT_VECTOR_SIZE)
    (hfp : 8 * cfg.INIT_PROTO_VECTOR_SIZE ≤ 9223372036854775807)
    (hfv : 8 * (v.n_values + cfg.INIT_VECTOR_SIZE) ≤ 9223372036854775807) :
    (∃ r, protoVectorAdd cfg v x = .ok r ∧ r.ret = C_OK ∧ r.v.count = v.count + 1 ∧
      protoVectorGet cfg r.v v.count = .ok ⟨x, r.v⟩ ∧
      ∀ i, i < v.count → ∃ d, protoVectorGet cfg v i = .ok ⟨d, v⟩ ∧
        protoVectorGet cfg r.v i = .ok ⟨d, r.v⟩) ∧
    (∀ i, i < v.count → ∃ r, protoVectorSet cfg v i y = .ok r ∧ r.ret = C_OK ∧
      r.v.count = v.count ∧ protoVectorGet cfg r.v i = .ok ⟨y, r.v⟩ ∧
      ∀ j, j < v.count → j ≠ i → ∃ d, protoVectorGet cfg v j = .ok ⟨d, v⟩ ∧
        protoVectorGet cfg r.v j = .ok ⟨d, r.v⟩) := by
  have hlen := protoSlots_length v ha
  constructor
  · obtain ⟨k, e, hadd, hlt, hval⟩ := protoVectorAdd_valid cfg v x ha hc hx hp hv hfp hfv
    have hcl : v.count < (v.slots ++ List.replicate k none).length := by
      rw [List.length_append, List.length_replicate, hlen]; exact hlt
    refine ⟨_, hadd, rfl, rfl, ?_, ?_⟩
    · have hg := protoVectorGet_slot cfg
        ⟨v.type, v.count + 1, v.n_values + k,
          some ((v.slots ++ List.replicate k none).set v.count (some e))⟩
        v.count e (Nat.lt_succ_self _)
        (show ((v.slots ++ List.replicate k none).set v.count (some e))[v.count]?
            = some (some e) from by rw [List.getElem?_set_self hcl])
      rw [hg]
      simp only [hval]
    · intro i hi
      obtain ⟨ei, hei⟩ := slot_of_all_some v ha hc hlive i hi
      refine ⟨_, protoVectorGet_slot cfg v i ei hi hei, ?_⟩
      exact protoVectorGet_slot cfg
        ⟨v.type, v.count + 1, v.n_values + k,
          some ((v.slots ++ List.replicate k none).set v.count (some e))⟩
        i ei (Nat.lt_succ_of_lt hi)
        (show ((v.slots ++ List.replicate k none).set v.count (some e))[i]?
            = some (some ei) from by
          rw [List.getElem?_set_ne (by omega), List.getElem?_append_left (by omega)]
          exact hei)
  · intro i hi
    have hvals := protoValues_of_pos v ha (by omega)
    obtain ⟨e, hset, hval⟩ := protoVectorSet_valid cfg v i y v.slots hi hvals (by omega)
      (validDatum_cases cfg v.type y hy)
    refine ⟨_, hset, rfl, rfl, ?_, ?_⟩
    · have hg := protoVectorGet_slot cfg
        ⟨v.type, v.count, v.n_values, some (v.slots.set i (some e))⟩ i e hi
        (show (v.slots.set i (some e))[i]? = some (some e) from by
          rw [List.getElem?_set_self (by omega)])
      rw [hg]
      simp only [hval]
    · intro j hj hne
      obtain ⟨ej, hej⟩ := slot_of_all_some v ha hc hlive j hj
      refine ⟨_, protoVectorGet_slot cfg v j ej hj hej, ?_⟩
      exact protoVectorGet_slot cfg
        ⟨v.type, v.count, v.n_values, some (v.slots.set i (some e))⟩ j ej hj
        (show (v.slots.set i (some e))[j]? = some (some ej) from by
          rw [List.getElem?_set_ne (by omega)]
          exact hej)

/-- C21 at the integer proto vector `[10, 20]` with both slots taken: appending
30 grows the array and `protoVectorGet` then yields 10, 20, 30; setting index 1
to 25 leaves count 2 and `protoVectorGet` yields 10, 25. -/
theorem protoVector_add_set_get_witness :
    (∃ r, protoVectorAdd sampleConfig tenTwenty (Datum.long 30) = .ok r ∧ r.ret = C_OK ∧
      r.v.count = 3 ∧ r.v.n_values = 6 ∧
      protoVectorGet sampleConfig r.v 2 = .ok ⟨Datum.long 30, r.v⟩ ∧
      protoVectorGet sampleConfig r.v 0 = .ok ⟨Datum.long 10, r.v⟩ ∧
      protoVectorGet sampleConfig r.v 1 = .ok ⟨Datum.long 20, r.v⟩) ∧
    (∃ r, protoVectorSet sampleConfig tenTwenty 1 (Datum.long 25) = .ok r ∧ r.ret = C_OK ∧
      r.v.count = 2 ∧ protoVectorGet sampleConfig r.v 1 = .ok ⟨Datum.long 25, r.v⟩ ∧
      protoVectorGet sampleConfig r.v 0 = .ok ⟨Datum.long 10, r.v⟩) := by
  have h := protoVector_add_set_get sampleConfig tenTwenty (Datum.long 30) (Datum.long 25)
    (by decide) (by decide) (by decide) (by decide) (by decide) (by decide) (by decide)
    (by decide) (by decide)
  obtain ⟨⟨r, h1, h2, h3, h4, h5⟩, hset⟩ := h
  obtain ⟨q, g1, g2, g3, g4, g5⟩ := hset 1 (by decide)
  have e1 : r = ⟨C_OK, ⟨1, 3, 6, some [longEntry 10, longEntry 20, longEntry 30, none, none,
      none]⟩⟩ := Outcome.ok.inj (h1.symm.trans (by decide))
  have e2 : q = ⟨C_OK, ⟨1, 2, 2, some [longEntry 10, longEntry 25]⟩⟩ :=
    Outcome.ok.inj (g1.symm.trans (by decide))
  subst e1
  subst e2
  exact ⟨⟨_, h1, h2, h3, by decide, h4, by decide, by decide⟩, ⟨_, g1, g2, g3, g4, by decide⟩⟩

/-- C23, the envelope-slot invariant: every state reached from
`protoVectorTypeInit` by a finite sequence of `protoVectorAdd`,
`protoVectorSet`, `protoVectorDelete` and `_protoVectorFitStlEntries` calls
(whatever they return, the growth increments being below `2 ^ 60`) has an
envelope array of `n_values` slots with `count` within it, an envelope in every
slot below `count` and `NULL` in every slot from `count` to `n_values`; hence
`protoVectorGet` and `protoVectorDelete` at an index below `count` return
without reading through a `NULL` envelope. -/
theorem envelope_slot_invariant (cfg : Config) (type : Int) (calls : List ProtoCall)
    (v0 v : ProtoVector)
    (hp : cfg.INIT_PROTO_VECTOR_SIZE < 1152921504606846976)
    (hv : cfg.INIT_VECTOR_SIZE < 1152921504606846976)
    (h0 : protoVectorTypeInit cfg type = .ok v0)
    (hrun : runProtoCalls cfg calls v0 = .ok v) :
    v.slots.length = v.n_values ∧ v.count ≤ v.n_values ∧
    (∀ i, i < v.count → ∃ e, v.slots[i]? = some (some e)) ∧
    (∀ i, v.count ≤ i → i < v.n_values → v.slots[i]? = some none) ∧
    (∀ i, i < v.count →
      (∃ r, protoVectorGet cfg v i = .ok r) ∧ ∃ r, protoVectorDelete cfg v i = .ok r) := by
  have he := enveloped_run cfg hp hv calls v0 v (enveloped_init cfg type v0 h0) hrun
  obtain ⟨ha, hc, hsome, htail⟩ := he
  have hlen := protoSlots_length v ha
  refine ⟨hlen, hc, slot_of_all_some v ha hc hsome, ?_, ?_⟩
  · intro i h1 h2
    have hd := congrArg (fun l => l[i - v.count]?) htail
    simp only [List.getElem?_drop] at hd
    rw [Nat.add_sub_cancel' h1] at hd
    rw [hd, List.getElem?_replicate, if_pos (by omega)]
  · intro i hi
    obtain ⟨e, hslot⟩ := slot_of_all_some v ha hc hsome i hi
    exact ⟨⟨_, protoVectorGet_slot cfg v i e hi hslot⟩,
      ⟨_, protoVectorDelete_eq cfg v i ha hc hi (fun _ => by rw [hslot]; simp)⟩⟩

/-- C23 at the integer proto vector that five appends, a replacement, a
deletion, the compaction and one more append leave: `[25, 30, 40, 50, 60]` in
eight slots, the last three `NULL`. -/
theorem envelope_slot_invariant_witness :
    protoVectorTypeInit sampleConfig 1 = .ok ⟨1, 0, 0, none⟩ ∧
    runProtoCalls sampleConfig sampleProtoCalls ⟨1, 0, 0, none⟩ = .ok afterSampleProtoCalls ∧
    afterSampleProtoCalls.count ≤ afterSampleProtoCalls.n_values ∧
    (∀ i, i < afterSampleProtoCalls.count →
      ∃ e, afterSampleProtoCalls.slots[i]? = some (some e)) ∧
    (∀ i, afterSampleProtoCalls.count ≤ i → i < afterSampleProtoCalls.n_values →
      afterSampleProtoCalls.slots[i]? = some none) :=
  ⟨by decide, by decide,
   (envelope_slot_invariant sampleConfig 1 sampleProtoCalls ⟨1, 0, 0, none⟩
      afterSampleProtoCalls (by decide) (by decide) (by decide) (by decide)).2.1,
   (envelope_slot_invariant sampleConfig 1 sampleProtoCalls ⟨1, 0, 0, none⟩
      afterSampleProtoCalls (by decide) (by decide) (by decide) (by decide)).2.2.1,
   (envelope_slot_invariant sampleConfig 1 sampleProtoCalls ⟨1, 0, 0, none⟩
      afterSampleProtoCalls (by decide) (by decide) (by decide) (by decide)).2.2.2.1⟩

/-- C24, the two text decoders disagree: the token before the vector prefix is
compared with `strcasecmp` by `VectordeSerialize` and with `strcmp` by
`vectorDeserialize`, so a text that starts with a lower-case `v` is read
differently. On `vV2T0C` (6 bytes) `VectordeSerialize` reaches
`serverAssert(0)` while `vectorDeserialize` returns `C_OK` with an empty
container of kind 2; on `vVa{2T3CxDy|z` both return `[x, y, z]`, of kind 2 from
`VectordeSerialize` and of kind 0 from `vectorDeserialize`. -/
theorem decoders_disagree :
    "vV2T0C".toList.length < 1024 ∧
    VectordeSerialize sampleConfig "vV2T0C".toList = .assertFail ∧
    vectorDeserialize sampleConfig (some "vV2T0C".toList) 0
      = .ok ⟨C_OK, some ⟨2, some [], 0, 0⟩⟩ ∧
    ['v', 'V', 'a', '{', '2', 'T', '3', 'C', 'x', 'D', 'y', '|', 'z'].length < 1024 ∧
    VectordeSerialize sampleConfig ['v', 'V', 'a', '{', '2', 'T', '3', 'C', 'x', 'D', 'y', '|', 'z']
      = .ok ⟨2, some [Datum.sds ['x'], Datum.sds ['y'], Datum.sds ['z']], 3, 3⟩ ∧
    vectorDeserialize sampleConfig
        (some ['v', 'V', 'a', '{', '2', 'T', '3', 'C', 'x', 'D', 'y', '|', 'z']) 0
      = .ok ⟨C_OK, some ⟨0, some [Datum.sds ['x'], Datum.sds ['y'], Datum.sds ['z']], 3, 3⟩⟩ ∧
    strcasecmpEq ['v'] sampleConfig.RELMODEL_VECTOR_PREFIX = true ∧
    ['v'] ≠ sampleConfig.RELMODEL_VECTOR_PREFIX := by
  refine ⟨by decide, by decide, by decide, by decide, by decide, by decide, by decide, by decide⟩

end Addb
